import Mathlib

/-!
# The 2048 engine of `src/2048/js/main.js`

A shallow embedding of the classes `Tile`, `Grid` and `GameManager`.

Conventions of the embedding.

* A JavaScript exception is a value of `Failure`; a method that can throw returns
  `Except Failure _`, and a method that can throw after it has already changed the
  object returns the changed object together with the failure.
* `undefined` and `null` are `none`.  A tile coordinate is an `Option Int`, because
  `new Tile(pos, value)` copies `pos.x` and `pos.y` whatever they are.
* Tiles are values.  Where the source mutates a tile object that is reachable from
  two places, the embedding rewrites both copies (this is said at each such place).
* Numbers are unbounded (`Nat`, `Int`); tile values and scores are integers, on which
  the doubles of the source are exact.  Of `Math.random()` only what the code observes
  is modelled (see `MathRandom`).
* `Grid.cells` is a list of columns: `cells[x][y]`, as in the source.  The constructors
  build exactly `size` columns of `size` entries, and the source reads `this.cells[x][y]`
  only with `x, y < size`; such a read is total here (an absent entry reads as empty).
  The state handed to `fromState` comes from the storage and may lack columns: there the
  failing read is modelled.
-/

namespace Game2048

/-- What can stop a method before its end: a JavaScript `TypeError`, the `SyntaxError` of
`JSON.parse`, or the loop bound of the embedding being used up (the source loop would
still be running). -/
inductive Failure
  | typeError
  | syntaxError
  | outOfFuel
  deriving DecidableEq, Repr

/-- A cell or vector literal `{ x: .., y: .. }` built by the engine from numbers. -/
structure Pos where
  x : Int
  y : Int
  deriving DecidableEq, Repr

/-- An object read through `.x` and `.y` whose properties may be missing (`undefined`). -/
structure JsPos where
  x : Option Int
  y : Option Int
  deriving DecidableEq, Repr

/-- The object `{ x: p.x, y: p.y }` seen as one with optional properties. -/
def Pos.toJs (p : Pos) : JsPos := ⟨some p.x, some p.y⟩

/-- Class `Tile`.  `plain` is a tile whose `mergedFrom` is `null`; `merged` is a tile whose
`mergedFrom` is the two element array `[first, second]`. -/
inductive Tile
  | plain (x y : Option Int) (value : Nat) (previousPosition : Option JsPos)
  | merged (x y : Option Int) (value : Nat) (previousPosition : Option JsPos)
      (first second : Tile)
  deriving DecidableEq, Repr

namespace Tile

def x : Tile → Option Int
  | plain x _ _ _ => x
  | merged x _ _ _ _ _ => x

def y : Tile → Option Int
  | plain _ y _ _ => y
  | merged _ y _ _ _ _ => y

def value : Tile → Nat
  | plain _ _ v _ => v
  | merged _ _ v _ _ _ => v

def previousPosition : Tile → Option JsPos
  | plain _ _ _ p => p
  | merged _ _ _ p _ _ => p

def mergedFrom : Tile → Option (Tile × Tile)
  | plain _ _ _ _ => none
  | merged _ _ _ _ a b => some (a, b)

/-- The constructor: `new Tile(pos, value)`, with `previousPosition = mergedFrom = null`. -/
def new (pos : JsPos) (value : Nat) : Tile := plain pos.x pos.y value none

/-- The assignment `tile.mergedFrom = null`. -/
def clearMergedFrom : Tile → Tile
  | plain x y v p => plain x y v p
  | merged x y v p _ _ => plain x y v p

/-- The assignment `tile.mergedFrom = [first, second]`. -/
def setMergedFrom (tile first second : Tile) : Tile :=
  match tile with
  | plain x y v p => merged x y v p first second
  | merged x y v p _ _ => merged x y v p first second

/-- Method `savePosition`: `this.previousPosition = { x: this.x, y: this.y }`. -/
def savePosition : Tile → Tile
  | plain x y v _ => plain x y v (some ⟨x, y⟩)
  | merged x y v _ a b => merged x y v (some ⟨x, y⟩) a b

/-- Method `updatePosition`: `this.x = pos.x; this.y = pos.y`. -/
def updatePosition (pos : Pos) : Tile → Tile
  | plain _ _ v p => plain (some pos.x) (some pos.y) v p
  | merged _ _ v p a b => merged (some pos.x) (some pos.y) v p a b

end Tile

/-- The value returned by `Tile.serialize`: `{ pos: .., value: .. }`. -/
structure SerializedTile where
  pos : JsPos
  value : Nat
  deriving DecidableEq, Repr

/-- Method `Tile.serialize`.  Its object literal `{ x: this.x, x: this.y }` has the key `x`
twice: the later one wins, so `pos` has the one property `x`, equal to `this.y`, and no
property `y`. -/
def Tile.serialize (t : Tile) : SerializedTile :=
  { pos := { x := t.y, y := none }, value := t.value }

/-- Class `Grid`: `size` and `cells`, with `cells[x][y]` a tile or `null`. -/
structure Grid where
  size : Nat
  cells : List (List (Option Tile))
  deriving DecidableEq, Repr

/-- The value returned by `Grid.serialize`. -/
structure SerializedGrid where
  size : Nat
  cells : List (List (Option SerializedTile))
  deriving DecidableEq, Repr

/-- The read `arr[x][y]` of a two dimensional array, for `x` below the number of columns. -/
def readAt {α : Type} (cells : List (List (Option α))) (x y : Nat) : Option α :=
  ((cells.getD x []).getD y none)

/-- The assignment `row[k] = v` on a JavaScript array: an index at or past the length
lengthens the array, leaving holes (they read as `undefined`, that is empty) in between;
a key that is no index (negative or `undefined`) sets a property that no code reads and
leaves the elements alone.  The upper limit of array indices, `2^32 - 2`, is not
modelled. -/
def jsRowSet {α : Type} (row : List (Option α)) (k : Option Int) (v : Option α) :
    List (Option α) :=
  match k with
  | some (Int.ofNat n) =>
    if n < row.length then row.set n v
    else row ++ List.replicate (n - row.length) none ++ [v]
  | _ => row

/-- The assignment `cells[kx][ky] = v`: `cells[kx]` is `undefined` unless `kx` is the index
of a column, and assigning to a property of `undefined` throws a `TypeError`. -/
def jsCellsSet {α : Type} (cells : List (List (Option α))) (kx ky : Option Int)
    (v : Option α) : Except Failure (List (List (Option α))) :=
  match kx with
  | some (Int.ofNat n) =>
    if n < cells.length then .ok (cells.set n (jsRowSet (cells.getD n []) ky v))
    else .error .typeError
  | _ => .error .typeError

namespace Grid

/-- Method `empty`. -/
def empty (size : Nat) : List (List (Option Tile)) :=
  List.replicate size (List.replicate size none)

/-- Method `fromState`: `state[x][y]` is rebuilt as `new Tile(tile.pos, tile.value)`.
For `x` at or past the number of columns of `state`, `state[x]` is `undefined` and the
read of `state[x][y]` throws a `TypeError`; the loop reaches such an `x` when `state` has
fewer than `size` columns.  An entry missing from a column reads as `undefined`, which is
falsy like `null`. -/
def fromState (size : Nat) (state : List (List (Option SerializedTile))) :
    Except Failure (List (List (Option Tile))) :=
  if state.length < size then .error .typeError
  else
    .ok ((List.range size).map fun x =>
      (List.range size).map fun y =>
        (readAt state x y).map fun tile => Tile.new tile.pos tile.value)

/-- The constructor `new Grid(size, previousState)`.  Without a previous state it builds
the empty grid and cannot throw, so its result is a grid; with one, the result is a grid
or the exception of `fromState`. -/
def new (size : Nat) : (previousState : Option (List (List (Option SerializedTile)))) →
    (match previousState with
      | none => Grid
      | some _ => Except Failure Grid)
  | none => { size := size, cells := empty size }
  | some state => (fromState size state).map fun cells => { size := size, cells := cells }

/-- Method `withinBounds`. -/
def withinBounds (g : Grid) (pos : Pos) : Bool :=
  decide (pos.x ≥ 0) && decide (pos.x < g.size) && decide (pos.y ≥ 0) && decide (pos.y < g.size)

/-- Method `cellContent`.  The source reads `this.cell[cell.x][cell.y]`, and a `Grid` has
the properties `size` and `cells` only: `this.cell` is `undefined`, so the read of
`this.cell[cell.x]` throws a `TypeError` for every cell within bounds. -/
def cellContent (g : Grid) (cell : Pos) : Except Failure (Option Tile) :=
  if g.withinBounds cell then .error .typeError else .ok none

/-- Method `cellOccupied`: `!!this.cellContent(cell)`. -/
def cellOccupied (g : Grid) (cell : Pos) : Except Failure Bool :=
  (g.cellContent cell).map Option.isSome

/-- Method `cellAvailable`: `!this.cellOccupied(cell)`. -/
def cellAvailable (g : Grid) (cell : Pos) : Except Failure Bool :=
  (g.cellOccupied cell).map not

/-- The cells in the order `eachCell` visits them: `x` outer, `y` inner. -/
def eachCellOrder (size : Nat) : List (Nat × Nat) :=
  (List.range size).flatMap fun x => (List.range size).map fun y => (x, y)

/-- Method `availableCells`: through `eachCell`, the cells whose content is falsy. -/
def availableCells (g : Grid) : List Pos :=
  (eachCellOrder g.size).filterMap fun c =>
    match readAt g.cells c.1 c.2 with
    | none => some ⟨c.1, c.2⟩
    | some _ => none

/-- Method `cellsAvailable`. -/
def cellsAvailable (g : Grid) : Bool := !g.availableCells.isEmpty

/-- Method `insertTile`: `this.cells[tile.x][tile.y] = tile`. -/
def insertTile (g : Grid) (tile : Tile) : Except Failure Grid :=
  (jsCellsSet g.cells tile.x tile.y (some tile)).map fun c => { g with cells := c }

/-- Method `removeTile`: `this.cells[tile.x][tile.y] = null`. -/
def removeTile (g : Grid) (tile : Tile) : Except Failure Grid :=
  (jsCellsSet g.cells tile.x tile.y none).map fun c => { g with cells := c }

/-- Method `serialize`. -/
def serialize (g : Grid) : SerializedGrid :=
  { size := g.size
    cells := (List.range g.size).map fun x =>
      (List.range g.size).map fun y => (readAt g.cells x y).map Tile.serialize }

end Grid

/-- The outcome of one call of `Math.random()`, a double of `[0, 1)`, given by the two
things the code observes of it: the test `Math.random() < 0.9`, and the index
`Math.floor(Math.random() * n)` for a length `n`.  The product is rounded to a double;
for a double below 1 and a length `n` from 1 to `2^53` the rounded product is still below
`n`, so the index is below `n`.  Which index a given double yields is left open. -/
structure MathRandom where
  below09 : Bool
  floorMul : Nat → Nat
  floorMul_lt : ∀ n, 0 < n → floorMul n < n

/-- Method `Grid.randomAvailableCell`; `undefined` when no cell is available. -/
def Grid.randomAvailableCell (g : Grid) (r : MathRandom) : Option Pos :=
  let cells := g.availableCells
  if cells.length ≠ 0 then cells.get? (r.floorMul cells.length) else none

/-- The directions the input manager emits: `0` up, `1` right, `2` down, `3` left. -/
inductive Direction
  | up
  | right
  | down
  | left
  deriving DecidableEq, Repr

/-- The state of class `GameManager` that the engine reads and writes. -/
structure GameManager where
  size : Nat
  grid : Grid
  score : Nat
  over : Bool
  won : Bool
  keepPlaying : Bool
  deriving DecidableEq, Repr

/-- The calls `move` makes on its way out: `addRandomTile` (the spawn) and `actuate`, which
persists the state through the storage manager and hands the grid to the renderer. -/
inductive Call
  | addRandomTile
  | actuate
  deriving DecidableEq, Repr

/-- The pair `{ farthest, next }` returned by `findFarthestPosition`. -/
structure Positions where
  farthest : Pos
  next : Pos
  deriving DecidableEq, Repr

/-- The pair `{ x: [...], y: [...] }` returned by `buildTraversals`. -/
structure Traversals where
  x : List Nat
  y : List Nat
  deriving DecidableEq, Repr

/-- Method `getVector`. -/
def getVector : Direction → Pos
  | .up => ⟨0, -1⟩
  | .right => ⟨1, 0⟩
  | .down => ⟨0, 1⟩
  | .left => ⟨-1, 0⟩

/-- Method `positionsEqual(first, second)` with a tile as second argument. -/
def positionsEqual (first : Pos) (second : Tile) : Bool :=
  decide (some first.x = second.x) && decide (some first.y = second.y)

namespace GameManager

/-- Method `isGameTerminated`. -/
def isGameTerminated (gm : GameManager) : Bool :=
  gm.over || (gm.won && !gm.keepPlaying)

/-- Method `addRandomTile`; `rv` is the draw of the value and `rc` the draw of the cell.
`new Tile(undefined, value)` would throw on `pos.x`. -/
def addRandomTile (gm : GameManager) (rv rc : MathRandom) : Except Failure GameManager :=
  if gm.grid.cellsAvailable then
    let value := if rv.below09 then 2 else 4
    match gm.grid.randomAvailableCell rc with
    | none => .error .typeError
    | some cell => (gm.grid.insertTile (Tile.new cell.toJs value)).map fun g => { gm with grid := g }
  else .ok gm

/-- The tile work of `prepareTiles`: `tile.mergedFrom = null; tile.savePosition()`. -/
def prepareTile (tile : Tile) : Tile := tile.clearMergedFrom.savePosition

/-- Method `prepareTiles`: every tile that `eachCell` meets (the cells with `x, y < size`)
loses its `mergedFrom` and saves its position. -/
def prepareTiles (gm : GameManager) : GameManager :=
  let cells := gm.grid.cells.mapIdx fun x row =>
    if x < gm.grid.size then
      row.mapIdx fun y c => if y < gm.grid.size then c.map prepareTile else c
    else row
  { gm with grid := { gm.grid with cells := cells } }

/-- Method `moveTile`.  It returns the manager as the call leaves it and, when the call
does not throw, the tile after `updatePosition`; the tile stored in the target cell is
the same object, so it is stored with its new position. -/
def moveTile (gm : GameManager) (tile : Tile) (cell : Pos) :
    GameManager × Except Failure Tile :=
  match jsCellsSet gm.grid.cells tile.x tile.y none with
  | .error e => (gm, .error e)
  | .ok c1 =>
    match jsCellsSet c1 (some cell.x) (some cell.y) (some (tile.updatePosition cell)) with
    | .error e => ({ gm with grid := { gm.grid with cells := c1 } }, .error e)
    | .ok c2 => ({ gm with grid := { gm.grid with cells := c2 } }, .ok (tile.updatePosition cell))

/-- Method `buildTraversals`. -/
def buildTraversals (gm : GameManager) (vector : Pos) : Traversals :=
  let x := List.range gm.size
  let y := List.range gm.size
  { x := if vector.x = 1 then x.reverse else x
    y := if vector.y = 1 then y.reverse else y }

/-- The `do ... while` loop of `findFarthestPosition`, run for at most `fuel` rounds. -/
def findFarthestLoop (gm : GameManager) (vector : Pos) : Nat → Pos → Except Failure Positions
  | 0, _ => .error .outOfFuel
  | fuel + 1, cell =>
    let previous := cell
    let cell : Pos := ⟨previous.x + vector.x, previous.y + vector.y⟩
    if gm.grid.withinBounds cell then
      match gm.grid.cellAvailable cell with
      | .error e => .error e
      | .ok true => findFarthestLoop gm vector fuel cell
      | .ok false => .ok { farthest := previous, next := cell }
    else .ok { farthest := previous, next := cell }

/-- Method `findFarthestPosition`.  From a cell of the grid the loop leaves the grid after
at most `size` rounds, so `size + 1` rounds are enough. -/
def findFarthestPosition (gm : GameManager) (cell vector : Pos) : Except Failure Positions :=
  findFarthestLoop gm vector (gm.grid.size + 1) cell

/-- The loop over the directions inside `tileMatchesAvailable`, for the tile of `(x, y)`. -/
def tileMatchesAt (gm : GameManager) (x y : Nat) (tile : Tile) :
    List Direction → Except Failure Bool
  | [] => .ok false
  | direction :: rest =>
    let vector := getVector direction
    match gm.grid.cellContent ⟨x + vector.x, y + vector.y⟩ with
    | .error e => .error e
    | .ok (some other) =>
      if other.value = tile.value then .ok true else tileMatchesAt gm x y tile rest
    | .ok none => tileMatchesAt gm x y tile rest

/-- The loops over `x` and `y` of `tileMatchesAvailable`, on the cells still to visit. -/
def tileMatchesLoop (gm : GameManager) : List (Nat × Nat) → Except Failure Bool
  | [] => .ok false
  | (x, y) :: rest =>
    match gm.grid.cellContent ⟨x, y⟩ with
    | .error e => .error e
    | .ok none => tileMatchesLoop gm rest
    | .ok (some tile) =>
      match tileMatchesAt gm x y tile [.up, .right, .down, .left] with
      | .error e => .error e
      | .ok true => .ok true
      | .ok false => tileMatchesLoop gm rest

/-- Method `tileMatchesAvailable`. -/
def tileMatchesAvailable (gm : GameManager) : Except Failure Bool :=
  tileMatchesLoop gm (Grid.eachCellOrder gm.size)

/-- Method `movesAvailable`: `cellsAvailable() || tileMatchesAvailable()`. -/
def movesAvailable (gm : GameManager) : Except Failure Bool :=
  if gm.grid.cellsAvailable then .ok true else gm.tileMatchesAvailable

end GameManager

/-- The locals of `move` while the two `forEach` loops run: the manager, the flag `moved`,
the tiles built by `new Tile(positions.next, tile.value * 2)` so far (kept for the
statements about merges; the source keeps no such list), and the exception that has
left the loops, if any. -/
structure MoveState where
  gm : GameManager
  moved : Bool
  merges : List Tile
  error : Option Failure
  deriving DecidableEq, Repr

/-- The merge test `next && next.value === tile.value && !next.mergedFrom`. -/
def canMerge (tile : Tile) (next : Option Tile) : Option Tile :=
  match next with
  | some other => if other.value = tile.value ∧ other.mergedFrom.isNone then some other else none
  | none => none

/-- What `tile.updatePosition(positions.next)` does to the grid in the merge branch: `tile`
is the first element of `merged.mergedFrom`, so the merged tile, when it still sits in
the cell of `positions.next`, is the tile `merged` given here, with its first source
moved. -/
def Grid.converge (g : Grid) (next : Pos) (merged : Tile) : Grid :=
  let x := next.x.toNat
  let y := next.y.toNat
  if (readAt g.cells x y).isSome then
    { g with cells := g.cells.set x ((g.cells.getD x []).set y (some merged)) }
  else g

namespace GameManager

/-- The merge branch of the loop body of `move`. -/
def mergeTiles (s : MoveState) (cell : Pos) (tile next : Tile) (positions : Positions) :
    MoveState :=
  let merged := (Tile.new positions.next.toJs (tile.value * 2)).setMergedFrom tile next
  let merges := s.merges ++ [merged]
  match s.gm.grid.insertTile merged with
  | .error e => { s with merges := merges, error := some e }
  | .ok g1 =>
    match g1.removeTile tile with
    | .error e => { s with gm := { s.gm with grid := g1 }, merges := merges, error := some e }
    | .ok g2 =>
      let tile1 := tile.updatePosition positions.next
      let merged1 := merged.setMergedFrom tile1 next
      { gm := { s.gm with
                  grid := g2.converge positions.next merged1
                  score := s.gm.score + merged.value
                  won := if merged.value = 2048 then true else s.gm.won }
        moved := if positionsEqual cell tile1 then s.moved else true
        merges := s.merges ++ [merged1]
        error := none }

/-- The other branch of the loop body of `move`: `self.moveTile(tile, positions.farthest)`. -/
def slideTile (s : MoveState) (cell : Pos) (tile : Tile) (positions : Positions) : MoveState :=
  match s.gm.moveTile tile positions.farthest with
  | (gm1, .error e) => { s with gm := gm1, error := some e }
  | (gm1, .ok tile1) =>
    { s with gm := gm1, moved := if positionsEqual cell tile1 then s.moved else true }

/-- The body of the inner `forEach` of `move` for the cell `(x, y)`; nothing runs once an
exception has left the loops. -/
def moveCell (vector : Pos) (s : MoveState) (x y : Nat) : MoveState :=
  match s.error with
  | some _ => s
  | none =>
    let cell : Pos := ⟨x, y⟩
    match s.gm.grid.cellContent cell with
    | .error e => { s with error := some e }
    | .ok none => s
    | .ok (some tile) =>
      match s.gm.findFarthestPosition cell vector with
      | .error e => { s with error := some e }
      | .ok positions =>
        match s.gm.grid.cellContent positions.next with
        | .error e => { s with error := some e }
        | .ok next =>
          match canMerge tile next with
          | some other => mergeTiles s cell tile other positions
          | none => slideTile s cell tile positions

/-- The two nested `forEach` loops of `move`. -/
def traverse (vector : Pos) (traversals : Traversals) (s : MoveState) : MoveState :=
  traversals.x.foldl (fun s x => traversals.y.foldl (fun s y => moveCell vector s x y) s) s

end GameManager

/-- What a call of `move` leaves behind: the manager, the exception that escaped (if any),
the local `moved`, the merged tiles it built, the grid as it was when the loops ended
(before any spawn), and the calls made after the loops. -/
structure MoveResult where
  gm : GameManager
  error : Option Failure
  moved : Bool
  merges : List Tile
  beforeSpawn : Grid
  calls : List Call
  deriving DecidableEq, Repr

/-- What `move` leaves behind when it returns at its guard. -/
def MoveResult.untouched (gm : GameManager) : MoveResult :=
  { gm := gm, error := none, moved := false, merges := [], beforeSpawn := gm.grid, calls := [] }

namespace GameManager

/-- The block `if (moved) { ... }` at the end of `move`, entered with `moved` true. -/
def afterMove (s : MoveState) (rv rc : MathRandom) : MoveResult :=
  match s.gm.addRandomTile rv rc with
  | .error e =>
    { gm := s.gm, error := some e, moved := true, merges := s.merges,
      beforeSpawn := s.gm.grid, calls := [.addRandomTile] }
  | .ok gm1 =>
    match gm1.movesAvailable with
    | .error e =>
      { gm := gm1, error := some e, moved := true, merges := s.merges,
        beforeSpawn := s.gm.grid, calls := [.addRandomTile] }
    | .ok available =>
      { gm := if available then gm1 else { gm1 with over := true }
        error := none, moved := true, merges := s.merges,
        beforeSpawn := s.gm.grid, calls := [.addRandomTile, .actuate] }

/-- The part of `move` after the guard `if (this.isGameTerminated()) return`. -/
def moveUnguarded (gm : GameManager) (direction : Direction) (rv rc : MathRandom) :
    MoveResult :=
  let vector := getVector direction
  let traversals := gm.buildTraversals vector
  let s := traverse vector traversals
    { gm := gm.prepareTiles, moved := false, merges := [], error := none }
  match s.error with
  | some e =>
    { gm := s.gm, error := some e, moved := s.moved, merges := s.merges,
      beforeSpawn := s.gm.grid, calls := [] }
  | none =>
    if s.moved then afterMove s rv rc
    else
      { gm := s.gm, error := none, moved := false, merges := s.merges,
        beforeSpawn := s.gm.grid, calls := [] }

/-- Method `move`.  `rv` and `rc` are the two draws of `Math.random()` that the spawn of
`addRandomTile` would make. -/
def move (gm : GameManager) (direction : Direction) (rv rc : MathRandom) : MoveResult :=
  if gm.isGameTerminated then MoveResult.untouched gm
  else gm.moveUnguarded direction rv rc

end GameManager

/-! ## Grids written row by row

The scenarios of the specification write a grid as rows, a row being a line of constant
`y` read from `x = 0` on, with `0` for an empty cell. -/

/-- The grid whose cell `(x, y)` holds a fresh tile of value `rows[y][x]`, placed on its
own cell, or nothing when that value is `0`. -/
def gridOfRows (size : Nat) (rows : List (List Nat)) : Grid :=
  { size := size
    cells := (List.range size).map fun x =>
      (List.range size).map fun y =>
        let v := (rows.getD y []).getD x 0
        if v = 0 then none else some (Tile.new ⟨some (x : Int), some (y : Int)⟩ v) }

/-- The values of a grid, row by row, `0` for an empty cell. -/
def rowsOfGrid (g : Grid) : List (List Nat) :=
  (List.range g.size).map fun y =>
    (List.range g.size).map fun x =>
      match readAt g.cells x y with
      | some t => t.value
      | none => 0

/-- A running game on the given grid: score `0`, no flag set. -/
def gameOn (g : Grid) : GameManager :=
  { size := g.size, grid := g, score := 0, over := false, won := false, keepPlaying := false }

/-- The state a loop of `move` is left in when a `TypeError` escapes from state `s`. -/
def MoveState.thrown (s : MoveState) : MoveState := { s with error := some .typeError }

/-- Whether the loops of `move` reach a cell inside the grid. -/
def GameManager.reachesGrid (gm : GameManager) (d : Direction) : Prop :=
  ∃ x ∈ (gm.buildTraversals (getVector d)).x, ∃ y ∈ (gm.buildTraversals (getVector d)).y,
    gm.grid.withinBounds ⟨x, y⟩ = true

instance (gm : GameManager) (d : Direction) : Decidable (gm.reachesGrid d) := by
  unfold GameManager.reachesGrid
  infer_instance

/-! ## The reference slide of the specification

Written from the words of the specification, to be compared with `move`. -/

/-- Merge equal neighbours pairwise, from the head of the line on; each value merges at
most once. -/
def mergeLine : List Nat → List Nat
  | [] => []
  | [a] => [a]
  | a :: b :: rest => if a = b then (a + b) :: mergeLine rest else a :: mergeLine (b :: rest)

/-- One line of `n` cells listed from the destination edge (`0` is an empty cell): drop
the empty cells, merge, pack against the destination edge and leave the rest empty. -/
def slideLine (n : Nat) (line : List Nat) : List Nat :=
  let packed := mergeLine (line.filter fun v => v ≠ 0)
  packed ++ List.replicate (n - packed.length) 0

/-- The reference slide of a grid of `n` by `n` values given row by row: rows slide for
left and right, columns for up and down; left is towards `x = 0`, right towards
`x = n - 1`, up towards `y = 0` and down towards `y = n - 1`. -/
def referenceSlide (n : Nat) (d : Direction) (rows : List (List Nat)) : List (List Nat) :=
  match d with
  | .left => rows.map (slideLine n)
  | .right => rows.map fun row => (slideLine n row.reverse).reverse
  | .up => (rows.transpose.map (slideLine n)).transpose
  | .down => (rows.transpose.map fun col => (slideLine n col.reverse).reverse).transpose

/-- One outcome of `Math.random()`: the number `0`, which is below `0.9` and yields the
index `0` for every length. -/
def drawZero : MathRandom := ⟨true, fun _ => 0, fun _ h => h⟩

/-! ## Predicates of the specification on a grid -/

/-- Some cell of the grid is empty. -/
def Grid.hasEmptyCell (g : Grid) : Bool :=
  (Grid.eachCellOrder g.size).any fun c => (readAt g.cells c.1 c.2).isNone

/-- The cells `(x, y)` and `(x2, y2)` both hold a tile and the two values are equal. -/
def Grid.sameValueAt (g : Grid) (x y x2 y2 : Nat) : Bool :=
  match readAt g.cells x y, readAt g.cells x2 y2 with
  | some a, some b => decide (a.value = b.value)
  | _, _ => false

/-- Two orthogonally adjacent cells of the grid hold tiles of equal value. -/
def Grid.hasEqualNeighbours (g : Grid) : Bool :=
  (Grid.eachCellOrder g.size).any fun c =>
    (decide (c.1 + 1 < g.size) && g.sameValueAt c.1 c.2 (c.1 + 1) c.2) ||
    (decide (c.2 + 1 < g.size) && g.sameValueAt c.1 c.2 c.1 (c.2 + 1))

/-- The source tiles of the merges of one move, each with the cell it left: the
`previousPosition` that `prepareTiles` gave it. -/
def mergeSources (merges : List Tile) : List (Option JsPos) :=
  merges.flatMap fun m =>
    match m.mergedFrom with
    | some (a, b) => [a.previousPosition, b.previousPosition]
    | none => []

/-- The tile `src` is a tile that stood on the grid of `gm` before the move: it has the
value of a tile `t` of that grid, the `previousPosition` that `prepareTiles` gave to `t`,
and no `mergedFrom`. -/
def GameManager.isTileBeforeMove (gm : GameManager) (src : Tile) : Prop :=
  ∃ c ∈ Grid.eachCellOrder gm.grid.size, ∃ t ∈ readAt gm.grid.cells c.1 c.2,
    src.value = t.value ∧ src.previousPosition = some ⟨t.x, t.y⟩ ∧ src.mergedFrom = none

instance (gm : GameManager) (src : Tile) : Decidable (gm.isTileBeforeMove src) := by
  unfold GameManager.isTileBeforeMove
  infer_instance

/-- The placement invariant of a grid: the cell array is exactly `size` by `size`, and the
tile stored in a cell `(x, y)` has `tile.x = x` and `tile.y = y`. -/
def Grid.Placed (g : Grid) : Prop :=
  g.cells.length = g.size ∧ (∀ row ∈ g.cells, row.length = g.size) ∧
  ∀ c ∈ Grid.eachCellOrder g.size, ∀ t ∈ readAt g.cells c.1 c.2,
    t.x = some (c.1 : Int) ∧ t.y = some (c.2 : Int)

instance (g : Grid) : Decidable g.Placed := by
  unfold Grid.Placed
  infer_instance

/-- The position of the tile itself is within the bounds of the grid. -/
def Grid.tileWithinBounds (g : Grid) (tile : Tile) : Bool :=
  match tile.x, tile.y with
  | some px, some py => g.withinBounds ⟨px, py⟩
  | _, _ => false

/-- A tile value of the game: a power of 2 that is at least 2. -/
def validValue (v : Nat) : Prop := 2 ≤ v ∧ ∃ k < v, v = 2 ^ k

instance (v : Nat) : Decidable (validValue v) := by
  unfold validValue
  infer_instance

/-- Every tile on the grid has a value that is a power of 2 and at least 2. -/
def Grid.ValuesValid (g : Grid) : Prop :=
  ∀ c ∈ Grid.eachCellOrder g.size, ∀ t ∈ readAt g.cells c.1 c.2, validValue t.value

instance (g : Grid) : Decidable g.ValuesValid := by
  unfold Grid.ValuesValid
  infer_instance

/-- The number of tiles on the grid. -/
def Grid.tileCount (g : Grid) : Nat :=
  ((Grid.eachCellOrder g.size).filter fun c => (readAt g.cells c.1 c.2).isSome).length

/-- The position `p` comes before `q` when cells are listed by `x` ascending and, for
equal `x`, by `y` ascending. -/
def Pos.before (p q : Pos) : Prop := p.x < q.x ∨ (p.x = q.x ∧ p.y < q.y)

/-- The position `p` comes before `q` in row-major order, a row being a line of constant
`y`: by `y` ascending and, within a row, by `x` ascending. -/
def Pos.beforeRowMajor (p q : Pos) : Prop := p.y < q.y ∨ (p.y = q.y ∧ p.x < q.x)

instance (p q : Pos) : Decidable (p.before q) := by
  unfold Pos.before
  infer_instance

instance (p q : Pos) : Decidable (p.beforeRowMajor q) := by
  unfold Pos.beforeRowMajor
  infer_instance

/-- The position `p` is within bounds and the cell at `p` holds no tile. -/
def Grid.isFreeCell (g : Grid) (p : Pos) : Bool :=
  g.withinBounds p && (readAt g.cells p.x.toNat p.y.toNat).isNone

/-! ## Loading the persisted state -/

/-- The value returned by `GameManager.serialize`. -/
structure SerializedGame where
  grid : SerializedGrid
  score : Nat
  over : Bool
  won : Bool
  keepPlaying : Bool
  deriving DecidableEq, Repr

/-- Method `GameManager.serialize`. -/
def GameManager.serialize (gm : GameManager) : SerializedGame :=
  { grid := gm.grid.serialize, score := gm.score, over := gm.over, won := gm.won,
    keepPlaying := gm.keepPlaying }

/-- The value `JSON.parse` returns for a stored text that is valid JSON, as far as `setup`
tells values apart: a falsy value (`null`, `false`, `0`, `""`), an object of the shape
that `GameManager.serialize` writes, or a truthy value without a property `grid` (such
as `{}`, `[]`, `1`).  Truthy values with a `grid` of another shape are not modelled. -/
inductive ParsedState
  | falsy
  | gameState (s : SerializedGame)
  | withoutGrid
  deriving DecidableEq, Repr

/-- A text stored under the key `gameState`, given by what `JSON.parse` (a function of
the language, not of this repository) does with it: the empty text, which is never
parsed; a text that is not valid JSON, for which `JSON.parse` throws a `SyntaxError`; a
text that is valid JSON, with the value it parses to. -/
inductive StoredText
  | empty
  | notJson
  | json (v : ParsedState)
  deriving DecidableEq, Repr

/-- Method `LocalStorageManager.getGameState`; `stateJSON` is what `localStorage.getItem`
returned, `none` for `null`.  The result `none` is `null`. -/
def LocalStorageManager.getGameState (stateJSON : Option StoredText) :
    Except Failure (Option ParsedState) :=
  match stateJSON with
  | none => .ok none
  | some .empty => .ok none
  | some .notJson => .error .syntaxError
  | some (.json v) => .ok (some v)

/-- The manager as the `else` branch of `setup` builds it, before the start tiles. -/
def GameManager.newGame (size : Nat) : GameManager :=
  { size := size, grid := Grid.new size none, score := 0, over := false, won := false,
    keepPlaying := false }

/-- Method `addStartTiles`, with `startTiles = 2`: two calls of `addRandomTile`, with the
draws `r1`, `r2` and `r3`, `r4`. -/
def GameManager.addStartTiles (gm : GameManager) (r1 r2 r3 r4 : MathRandom) :
    Except Failure GameManager :=
  match gm.addRandomTile r1 r2 with
  | .error e => .error e
  | .ok gm1 => gm1.addRandomTile r3 r4

/-- Method `setup` of a manager constructed with `size`, up to its final `actuate()`.
Reading `previousState.grid.size` throws a `TypeError` when `previousState` has no
property `grid`. -/
def GameManager.setup (size : Nat) (stateJSON : Option StoredText)
    (r1 r2 r3 r4 : MathRandom) : Except Failure GameManager :=
  match LocalStorageManager.getGameState stateJSON with
  | .error e => .error e
  | .ok (some (.gameState s)) =>
    match Grid.new s.grid.size (some s.grid.cells) with
    | .error e => .error e
    | .ok grid =>
      .ok { size := size, grid := grid, score := s.score, over := s.over, won := s.won,
            keepPlaying := s.keepPlaying }
  | .ok (some .withoutGrid) => .error .typeError
  | .ok (some .falsy) => (GameManager.newGame size).addStartTiles r1 r2 r3 r4
  | .ok none => (GameManager.newGame size).addStartTiles r1 r2 r3 r4

/-- The stored value is absent: `getItem` returned `null`, or the empty text, or a text
that parses to a falsy value. -/
def storedAbsent (stateJSON : Option StoredText) : Bool :=
  match stateJSON with
  | none => true
  | some .empty => true
  | some (.json .falsy) => true
  | _ => false

/-! ## The order of the traversal -/

/-- The cells in the order in which the two `forEach` loops of `move` visit them. -/
def GameManager.visitOrder (gm : GameManager) (d : Direction) : List (Nat × Nat) :=
  (gm.buildTraversals (getVector d)).x.flatMap fun x =>
    (gm.buildTraversals (getVector d)).y.map fun y => (x, y)

/-- The cell `p` is on the line of `q` (a row for left and right, a column for up and
down) and closer than `q` to the edge the tiles travel to. -/
def closerToEdge (d : Direction) (p q : Nat × Nat) : Prop :=
  match d with
  | .up => p.1 = q.1 ∧ p.2 < q.2
  | .right => p.2 = q.2 ∧ q.1 < p.1
  | .down => p.1 = q.1 ∧ q.2 < p.2
  | .left => p.2 = q.2 ∧ p.1 < q.1

instance (d : Direction) (p q : Nat × Nat) : Decidable (closerToEdge d p q) := by
  unfold closerToEdge
  cases d <;> infer_instance
/-! ## The sum of the tile values -/

/-- The value of the tile in the cell `(x, y)`, `0` for an empty cell. -/
def Grid.valueAt (g : Grid) (c : Nat × Nat) : Nat :=
  match readAt g.cells c.1 c.2 with
  | some t => t.value
  | none => 0

/-- The sum of the values of the tiles on the grid. -/
def Grid.sumValues (g : Grid) : Nat := ((Grid.eachCellOrder g.size).map g.valueAt).sum

/-- The value of the tile that `addRandomTile` builds from the draw `rv`. -/
def spawnValue (rv : MathRandom) : Nat := if rv.below09 then 2 else 4

/-! ## The engine over a way to read a cell

Every read of a cell by the engine goes through `cellContent`.  The definitions of this
section are the methods above with the call of `cellContent` as a parameter `look`; with
`Grid.cellContent` for `look` they are those methods (theorems `..._eq_..With`). -/

/-- The role of `cellContent` in the engine: a way to read the content of a cell, which
may throw. -/
abbrev CellLookup : Type := Grid → Pos → Except Failure (Option Tile)

/-- What is stored for a position: `this.cells[x][y]` within bounds, nothing outside. -/
def Grid.storedContent (g : Grid) (cell : Pos) : Option Tile :=
  if g.withinBounds cell then readAt g.cells cell.x.toNat cell.y.toNat else none

/-- A way to read a cell is sound when, whenever it returns, it returns what is stored. -/
def CellLookup.Sound (look : CellLookup) : Prop :=
  ∀ g cell v, look g cell = .ok v → v = g.storedContent cell

/-- The sound way to read a cell that never throws: `cellContent` with `this.cells` in
the place of `this.cell`. -/
def Grid.readCells : CellLookup := fun g cell => .ok (g.storedContent cell)

/-- Method `cellOccupied` over `look`. -/
def Grid.cellOccupiedWith (look : CellLookup) (g : Grid) (cell : Pos) : Except Failure Bool :=
  (look g cell).map Option.isSome

/-- Method `cellAvailable` over `look`. -/
def Grid.cellAvailableWith (look : CellLookup) (g : Grid) (cell : Pos) : Except Failure Bool :=
  (g.cellOccupiedWith look cell).map not

namespace GameManager

/-- The loop of `findFarthestPosition` over `look`. -/
def findFarthestLoopWith (look : CellLookup) (gm : GameManager) (vector : Pos) :
    Nat → Pos → Except Failure Positions
  | 0, _ => .error .outOfFuel
  | fuel + 1, cell =>
    let previous := cell
    let cell : Pos := ⟨previous.x + vector.x, previous.y + vector.y⟩
    if gm.grid.withinBounds cell then
      match gm.grid.cellAvailableWith look cell with
      | .error e => .error e
      | .ok true => findFarthestLoopWith look gm vector fuel cell
      | .ok false => .ok { farthest := previous, next := cell }
    else .ok { farthest := previous, next := cell }

/-- Method `findFarthestPosition` over `look`. -/
def findFarthestPositionWith (look : CellLookup) (gm : GameManager) (cell vector : Pos) :
    Except Failure Positions :=
  findFarthestLoopWith look gm vector (gm.grid.size + 1) cell

/-- The loop over the directions inside `tileMatchesAvailable`, over `look`. -/
def tileMatchesAtWith (look : CellLookup) (gm : GameManager) (x y : Nat) (tile : Tile) :
    List Direction → Except Failure Bool
  | [] => .ok false
  | direction :: rest =>
    let vector := getVector direction
    match look gm.grid ⟨x + vector.x, y + vector.y⟩ with
    | .error e => .error e
    | .ok (some other) =>
      if other.value = tile.value then .ok true else tileMatchesAtWith look gm x y tile rest
    | .ok none => tileMatchesAtWith look gm x y tile rest

/-- The loops over `x` and `y` of `tileMatchesAvailable`, over `look`. -/
def tileMatchesLoopWith (look : CellLookup) (gm : GameManager) :
    List (Nat × Nat) → Except Failure Bool
  | [] => .ok false
  | (x, y) :: rest =>
    match look gm.grid ⟨x, y⟩ with
    | .error e => .error e
    | .ok none => tileMatchesLoopWith look gm rest
    | .ok (some tile) =>
      match tileMatchesAtWith look gm x y tile [.up, .right, .down, .left] with
      | .error e => .error e
      | .ok true => .ok true
      | .ok false => tileMatchesLoopWith look gm rest

/-- Method `tileMatchesAvailable` over `look`. -/
def tileMatchesAvailableWith (look : CellLookup) (gm : GameManager) : Except Failure Bool :=
  tileMatchesLoopWith look gm (Grid.eachCellOrder gm.size)

/-- Method `movesAvailable` over `look`. -/
def movesAvailableWith (look : CellLookup) (gm : GameManager) : Except Failure Bool :=
  if gm.grid.cellsAvailable then .ok true else gm.tileMatchesAvailableWith look

/-- The body of the inner `forEach` of `move` over `look`. -/
def moveCellWith (look : CellLookup) (vector : Pos) (s : MoveState) (x y : Nat) : MoveState :=
  match s.error with
  | some _ => s
  | none =>
    let cell : Pos := ⟨x, y⟩
    match look s.gm.grid cell with
    | .error e => { s with error := some e }
    | .ok none => s
    | .ok (some tile) =>
      match s.gm.findFarthestPositionWith look cell vector with
      | .error e => { s with error := some e }
      | .ok positions =>
        match look s.gm.grid positions.next with
        | .error e => { s with error := some e }
        | .ok next =>
          match canMerge tile next with
          | some other => mergeTiles s cell tile other positions
          | none => slideTile s cell tile positions

/-- The two nested `forEach` loops of `move` over `look`. -/
def traverseWith (look : CellLookup) (vector : Pos) (traversals : Traversals)
    (s : MoveState) : MoveState :=
  traversals.x.foldl
    (fun s x => traversals.y.foldl (fun s y => moveCellWith look vector s x y) s) s

/-- The block `if (moved) { ... }` at the end of `move`, over `look`. -/
def afterMoveWith (look : CellLookup) (s : MoveState) (rv rc : MathRandom) : MoveResult :=
  match s.gm.addRandomTile rv rc with
  | .error e =>
    { gm := s.gm, error := some e, moved := true, merges := s.merges,
      beforeSpawn := s.gm.grid, calls := [.addRandomTile] }
  | .ok gm1 =>
    match gm1.movesAvailableWith look with
    | .error e =>
      { gm := gm1, error := some e, moved := true, merges := s.merges,
        beforeSpawn := s.gm.grid, calls := [.addRandomTile] }
    | .ok available =>
      { gm := if available then gm1 else { gm1 with over := true }
        error := none, moved := true, merges := s.merges,
        beforeSpawn := s.gm.grid, calls := [.addRandomTile, .actuate] }

/-- The part of `move` after its guard, over `look`. -/
def moveUnguardedWith (look : CellLookup) (gm : GameManager) (direction : Direction)
    (rv rc : MathRandom) : MoveResult :=
  let vector := getVector direction
  let traversals := gm.buildTraversals vector
  let s := traverseWith look vector traversals
    { gm := gm.prepareTiles, moved := false, merges := [], error := none }
  match s.error with
  | some e =>
    { gm := s.gm, error := some e, moved := s.moved, merges := s.merges,
      beforeSpawn := s.gm.grid, calls := [] }
  | none =>
    if s.moved then afterMoveWith look s rv rc
    else
      { gm := s.gm, error := none, moved := false, merges := s.merges,
        beforeSpawn := s.gm.grid, calls := [] }

/-- Method `move` over `look`. -/
def moveWith (look : CellLookup) (gm : GameManager) (direction : Direction)
    (rv rc : MathRandom) : MoveResult :=
  if gm.isGameTerminated then MoveResult.untouched gm
  else gm.moveUnguardedWith look direction rv rc

end GameManager

/-! ## What one round of the loops of `move` does

Notions used to state what the loop body of `move` does to the state; they are not
methods of the source. -/

/-- The position reached from `c` after `k` steps along `v`. -/
def Pos.shift (c v : Pos) (k : Nat) : Pos := ⟨c.x + k * v.x, c.y + k * v.y⟩

/-- The position of the cell `(x, y)`. -/
def cellPos (x y : Nat) : Pos := ⟨(x : Int), (y : Int)⟩

/-- The tile that the merge branch leaves in the cell `(nx, ny)`: `merged`, with
`mergedFrom = [tile, other]` after `tile.updatePosition(positions.next)`. -/
def mergedTile (tile other : Tile) (nx ny : Nat) : Tile :=
  Tile.merged (some (nx : Int)) (some (ny : Int)) (tile.value * 2) none
    (tile.updatePosition (cellPos nx ny)) other

/-- What the loop body of `move` for the cell `(x, y)`, over a sound way to read a cell
and a grid that satisfies the placement invariant, makes of the state `s`: it ends in
`s2`, and either an exception escapes with the state untouched, or nothing happens, or
the tile of the cell slides by `k` cells into an empty cell (`k = 0`: it stays), or it
merges with the tile `k + 1` cells away. -/
inductive StepOutcome (d : Direction) (s : MoveState) (x y : Nat) (s2 : MoveState) : Prop
  | thrown (e : Failure) (h : s2 = { s with error := some e })
  | skipped (h : s2 = s)
  | slid (tile : Tile) (fx fy k : Nat) (g2 : Grid)
      (hx : x < s.gm.grid.size) (hy : y < s.gm.grid.size)
      (htile : readAt s.gm.grid.cells x y = some tile)
      (hfx : fx < s.gm.grid.size) (hfy : fy < s.gm.grid.size)
      (hk : cellPos fx fy = (cellPos x y).shift (getVector d) k)
      (hfree : k = 0 ∨ readAt s.gm.grid.cells fx fy = none)
      (hsize : g2.size = s.gm.grid.size) (hplaced : g2.Placed)
      (hread : ∀ x2 y2, readAt g2.cells x2 y2 =
        if x2 = fx ∧ y2 = fy then some (tile.updatePosition (cellPos fx fy))
        else if x2 = x ∧ y2 = y then none else readAt s.gm.grid.cells x2 y2)
      (h : s2 = { s with gm := { s.gm with grid := g2 },
                         moved := if k = 0 then s.moved else true })
  | merged (tile other : Tile) (nx ny k : Nat) (g2 : Grid)
      (hx : x < s.gm.grid.size) (hy : y < s.gm.grid.size)
      (htile : readAt s.gm.grid.cells x y = some tile)
      (hnx : nx < s.gm.grid.size) (hny : ny < s.gm.grid.size)
      (hk : cellPos nx ny = (cellPos x y).shift (getVector d) (k + 1))
      (hother : readAt s.gm.grid.cells nx ny = some other)
      (hvalue : other.value = tile.value) (hfrom : other.mergedFrom = none)
      (hsize : g2.size = s.gm.grid.size) (hplaced : g2.Placed)
      (hread : ∀ x2 y2, readAt g2.cells x2 y2 =
        if x2 = nx ∧ y2 = ny then some (mergedTile tile other nx ny)
        else if x2 = x ∧ y2 = y then none else readAt s.gm.grid.cells x2 y2)
      (h : s2 = { gm := { s.gm with
                            grid := g2
                            score := s.gm.score + tile.value * 2
                            won := if tile.value * 2 = 2048 then true else s.gm.won }
                  moved := true
                  merges := s.merges ++ [mergedTile tile other nx ny]
                  error := none })

/-- The grid with the content of the cell `(x, y)` replaced by `v`: what the assignment
`this.cells[x][y] = v` makes of a grid that has its `size` by `size` cells. -/
def Grid.put (g : Grid) (x y : Nat) (v : Option Tile) : Grid :=
  { g with cells := g.cells.set x ((g.cells.getD x []).set y v) }

/-! ## Invariants of the loops of `move` -/

/-- What holds of the state `s` of the loops of `move(d)`, started from the manager `gm`,
at every point of the traversal: only the grid, the score and `won` change; the grid
keeps its size and the placement invariant; the score is the score before plus the
values of the merged tiles built so far; `won` is `won` before or a merged tile of value
2048 was built; the tile values stay valid; the sum of the tile values is kept; each
merge takes one tile off the grid; and once `moved` is true the grid has an empty cell. -/
structure LoopInvariant (gm : GameManager) (s : MoveState) : Prop where
  size : s.gm.size = gm.size
  over : s.gm.over = gm.over
  keepPlaying : s.gm.keepPlaying = gm.keepPlaying
  gridSize : s.gm.grid.size = gm.grid.size
  placed : s.gm.grid.Placed
  score : s.gm.score = gm.score + (s.merges.map Tile.value).sum
  won : s.gm.won = (gm.won || s.merges.any fun m => decide (m.value = 2048))
  values : gm.grid.ValuesValid → s.gm.grid.ValuesValid
  sum : s.gm.grid.sumValues = gm.grid.sumValues
  count : s.gm.grid.tileCount + s.merges.length = gm.grid.tileCount
  empty : s.moved = true → s.gm.grid.hasEmptyCell = true

/-- What holds of the state `s` of the loops of `move(d)`, started from the manager `gm`,
when the cells `rest` are still to be visited: a cell still to be visited holds no merged
tile; a tile on the grid is a tile of before the move or a merged tile built by this
move; a merged tile built by this move has no `previousPosition` and two sources that
are tiles of before the move, each of half its value; two tiles of before the move on
the grid that left the same cell are in the same cell; no tile of before the move on the
grid is a source of a merge; and no cell was left by two sources. -/
structure MergeInvariant (gm : GameManager) (rest : List (Nat × Nat)) (s : MoveState) :
    Prop where
  unvisited : ∀ c ∈ rest, ∀ t, readAt s.gm.grid.cells c.1 c.2 = some t → t.mergedFrom = none
  onGrid : ∀ x y t, readAt s.gm.grid.cells x y = some t →
    gm.isTileBeforeMove t ∨ t ∈ s.merges
  built : ∀ m ∈ s.merges, ∃ a b, m.mergedFrom = some (a, b) ∧ m.previousPosition = none ∧
    gm.isTileBeforeMove a ∧ gm.isTileBeforeMove b ∧
    m.value = 2 * a.value ∧ m.value = 2 * b.value
  apart : ∀ x y x2 y2 t t2, readAt s.gm.grid.cells x y = some t →
    readAt s.gm.grid.cells x2 y2 = some t2 → t.mergedFrom = none → t2.mergedFrom = none →
    t.previousPosition = t2.previousPosition → x = x2 ∧ y = y2
  unused : ∀ x y t, readAt s.gm.grid.cells x y = some t → t.mergedFrom = none →
    t.previousPosition ∉ mergeSources s.merges
  sources : (mergeSources s.merges).Nodup

/-! ## The three kinds of tile after a move -/

/-- The tile `t` was carried over from the grid of `gm`: it has no `mergedFrom`, and its
`previousPosition` is a cell of the grid of `gm`, which held a tile of its value. -/
def GameManager.carriedOver (gm : GameManager) (t : Tile) : Prop :=
  t.mergedFrom = none ∧
  ∃ c ∈ Grid.eachCellOrder gm.grid.size, ∃ t0 ∈ readAt gm.grid.cells c.1 c.2,
    t.previousPosition = some ⟨some (c.1 : Int), some (c.2 : Int)⟩ ∧ t.value = t0.value

instance (gm : GameManager) (t : Tile) : Decidable (gm.carriedOver t) := by
  unfold GameManager.carriedOver
  infer_instance

/-- The two sources `a` and `b` of a merged tile of value `v` are tiles carried over from
the grid of `gm`, from two cells, and each has half the value `v`. -/
def GameManager.sourcesOfMerge (gm : GameManager) (v : Nat) (a b : Tile) : Prop :=
  gm.carriedOver a ∧ gm.carriedOver b ∧ v = 2 * a.value ∧ v = 2 * b.value ∧
  a.previousPosition ≠ b.previousPosition

instance (gm : GameManager) (v : Nat) (a b : Tile) : Decidable (gm.sourcesOfMerge v a b) := by
  unfold GameManager.sourcesOfMerge
  infer_instance

/-- The tile `t` was built by a merge of this move: it has no `previousPosition`, and its
`mergedFrom` holds two tiles carried over from the grid of `gm`, each of half its
value. -/
def GameManager.mergedNow (gm : GameManager) (t : Tile) : Prop :=
  t.previousPosition = none ∧ ∃ p ∈ t.mergedFrom, gm.sourcesOfMerge t.value p.1 p.2

instance (gm : GameManager) (t : Tile) : Decidable (gm.mergedNow t) := by
  unfold GameManager.mergedNow
  infer_instance

/-- The tile `t` is freshly spawned: it has no `previousPosition` and no `mergedFrom`. -/
def Tile.freshlySpawned (t : Tile) : Prop := t.previousPosition = none ∧ t.mergedFrom = none

instance (t : Tile) : Decidable t.freshlySpawned := by
  unfold Tile.freshlySpawned
  infer_instance

/-! ## What the loops of `move` do

`cellContent` never returns a tile, so the loop body of `move` either does nothing (cell
outside the grid) or lets a `TypeError` escape (cell inside the grid). -/

theorem Grid.cellContent_eq_ok {g : Grid} {cell : Pos} {v : Option Tile}
    (h : g.cellContent cell = .ok v) : v = none := by
  unfold Grid.cellContent at h
  split at h
  · cases h
  · cases h; rfl

theorem Grid.cellContent_of_withinBounds {g : Grid} {cell : Pos}
    (h : g.withinBounds cell = true) : g.cellContent cell = .error .typeError := by
  simp [Grid.cellContent, h]

theorem Grid.cellContent_of_not_withinBounds {g : Grid} {cell : Pos}
    (h : g.withinBounds cell = false) : g.cellContent cell = .ok none := by
  simp [Grid.cellContent, h]

theorem GameManager.moveCell_eq (vector : Pos) (s : MoveState) (x y : Nat) :
    GameManager.moveCell vector s x y =
      if s.error = none ∧ s.gm.grid.withinBounds ⟨x, y⟩ = true then s.thrown else s := by
  unfold GameManager.moveCell
  cases he : s.error with
  | some e => simp
  | none =>
    cases hb : s.gm.grid.withinBounds ⟨x, y⟩ with
    | true => simp [Grid.cellContent_of_withinBounds hb, MoveState.thrown]
    | false => simp [Grid.cellContent_of_not_withinBounds hb]

theorem GameManager.moveCell_thrown (vector : Pos) (s : MoveState) (x y : Nat) :
    GameManager.moveCell vector s.thrown x y = s.thrown := by
  rw [GameManager.moveCell_eq]
  simp [MoveState.thrown]

theorem GameManager.foldl_moveCell_thrown (vector : Pos) (s : MoveState) (x : Nat)
    (ys : List Nat) :
    ys.foldl (fun s y => GameManager.moveCell vector s x y) s.thrown = s.thrown := by
  induction ys with
  | nil => rfl
  | cons y ys ih => simp only [List.foldl_cons, GameManager.moveCell_thrown, ih]

theorem GameManager.foldl_moveCell_eq (vector : Pos) (s : MoveState) (x : Nat)
    (ys : List Nat) :
    ys.foldl (fun s y => GameManager.moveCell vector s x y) s =
      if s.error = none ∧ ∃ y ∈ ys, s.gm.grid.withinBounds ⟨x, y⟩ = true then s.thrown
      else s := by
  induction ys with
  | nil => simp
  | cons y ys ih =>
    simp only [List.foldl_cons]
    rw [GameManager.moveCell_eq]
    by_cases h : s.error = none ∧ s.gm.grid.withinBounds ⟨x, y⟩ = true
    · rw [if_pos h, GameManager.foldl_moveCell_thrown, if_pos]
      exact ⟨h.1, y, List.mem_cons_self _ _, h.2⟩
    · rw [if_neg h, ih]
      by_cases h2 : s.error = none ∧ ∃ y ∈ ys, s.gm.grid.withinBounds ⟨x, y⟩ = true
      · rw [if_pos h2, if_pos]
        obtain ⟨h3, y1, hy1, h4⟩ := h2
        exact ⟨h3, y1, List.mem_cons_of_mem _ hy1, h4⟩
      · rw [if_neg h2, if_neg]
        rintro ⟨h3, y1, hy1, h4⟩
        rcases List.mem_cons.1 hy1 with rfl | hy1
        · exact h ⟨h3, h4⟩
        · exact h2 ⟨h3, y1, hy1, h4⟩

theorem GameManager.traverse_thrown (vector : Pos) (tr : Traversals) (s : MoveState) :
    GameManager.traverse vector tr s.thrown = s.thrown := by
  unfold GameManager.traverse
  induction tr.x with
  | nil => rfl
  | cons x xs ih => simp only [List.foldl_cons, GameManager.foldl_moveCell_thrown, ih]

theorem GameManager.traverse_eq (vector : Pos) (tr : Traversals) (s : MoveState) :
    GameManager.traverse vector tr s =
      if s.error = none ∧ ∃ x ∈ tr.x, ∃ y ∈ tr.y, s.gm.grid.withinBounds ⟨x, y⟩ = true
      then s.thrown else s := by
  have key : ∀ xs : List Nat,
      xs.foldl (fun s x => tr.y.foldl (fun s y => GameManager.moveCell vector s x y) s) s =
        if s.error = none ∧ ∃ x ∈ xs, ∃ y ∈ tr.y, s.gm.grid.withinBounds ⟨x, y⟩ = true
        then s.thrown else s := by
    intro xs
    induction xs with
    | nil => simp
    | cons x xs ih =>
      simp only [List.foldl_cons]
      rw [GameManager.foldl_moveCell_eq]
      by_cases h : s.error = none ∧ ∃ y ∈ tr.y, s.gm.grid.withinBounds ⟨x, y⟩ = true
      · rw [if_pos h]
        have := GameManager.traverse_thrown vector ⟨xs, tr.y⟩ s
        unfold GameManager.traverse at this
        rw [this, if_pos]
        exact ⟨h.1, x, List.mem_cons_self _ _, h.2⟩
      · rw [if_neg h, ih]
        by_cases h2 : s.error = none ∧
            ∃ x ∈ xs, ∃ y ∈ tr.y, s.gm.grid.withinBounds ⟨x, y⟩ = true
        · rw [if_pos h2, if_pos]
          obtain ⟨h3, x1, hx1, h4⟩ := h2
          exact ⟨h3, x1, List.mem_cons_of_mem _ hx1, h4⟩
        · rw [if_neg h2, if_neg]
          rintro ⟨h3, x1, hx1, h4⟩
          rcases List.mem_cons.1 hx1 with rfl | hx1
          · exact h ⟨h3, h4⟩
          · exact h2 ⟨h3, x1, hx1, h4⟩
  exact key tr.x

/-- Every call of `move` on a game that is not terminated ends in the state that
`prepareTiles` built: no tile is moved or merged, nothing is spawned and `actuate` is not
called; a `TypeError` escapes as soon as the loops reach a cell inside the grid. -/
theorem GameManager.move_of_not_terminated (gm : GameManager) (d : Direction)
    (rv rc : MathRandom) (h : gm.isGameTerminated = false) :
    ∃ err, gm.move d rv rc =
      { gm := gm.prepareTiles, error := err, moved := false, merges := [],
        beforeSpawn := gm.prepareTiles.grid, calls := [] } ∧
      (gm.reachesGrid d → err = some .typeError) ∧ (¬ gm.reachesGrid d → err = none) := by
  have hg : ∀ p, gm.prepareTiles.grid.withinBounds p = gm.grid.withinBounds p := fun _ => rfl
  unfold GameManager.move GameManager.moveUnguarded
  simp only [h, Bool.false_eq_true, if_false]
  rw [GameManager.traverse_eq]
  by_cases hb : gm.reachesGrid d
  · refine ⟨some .typeError, ?_, fun _ => rfl, fun hn => absurd hb hn⟩
    have hb2 := hb
    unfold GameManager.reachesGrid at hb2
    simp [MoveState.thrown, hg, hb2]
  · refine ⟨none, ?_, fun hn => absurd hn hb, fun _ => rfl⟩
    have hb2 := hb
    unfold GameManager.reachesGrid at hb2
    simp only [hg, true_and]
    rw [if_neg hb2]
    simp

theorem GameManager.reachesGrid_of_pos (gm : GameManager) (d : Direction)
    (h1 : 0 < gm.size) (h2 : 0 < gm.grid.size) : gm.reachesGrid d := by
  have hm : ∀ v : Pos, 0 ∈ (gm.buildTraversals v).x ∧ 0 ∈ (gm.buildTraversals v).y := by
    intro v
    unfold GameManager.buildTraversals
    constructor <;> dsimp only <;> split <;> simp [h1]
  refine ⟨0, (hm _).1, 0, (hm _).2, ?_⟩
  simp [Grid.withinBounds, h2]

/-- On every grid of size at least one, whatever it holds, `move` ends with a `TypeError`
and the cells that `prepareTiles` left. -/
theorem GameManager.move_throws (gm : GameManager) (d : Direction) (rv rc : MathRandom)
    (h : gm.isGameTerminated = false) (h1 : 0 < gm.size) (h2 : 0 < gm.grid.size) :
    gm.move d rv rc =
      { gm := gm.prepareTiles, error := some .typeError, moved := false, merges := [],
        beforeSpawn := gm.prepareTiles.grid, calls := [] } := by
  obtain ⟨err, he, h3, -⟩ := GameManager.move_of_not_terminated gm d rv rc h
  rw [he, h3 (GameManager.reachesGrid_of_pos gm d h1 h2)]

theorem GameManager.move_of_terminated (gm : GameManager) (d : Direction)
    (rv rc : MathRandom) (h : gm.isGameTerminated = true) :
    gm.move d rv rc = MoveResult.untouched gm := by
  unfold GameManager.move
  simp [h]

/-- Whatever the state, `move` builds no merged tile, reports `moved = false`, calls
neither `addRandomTile` nor `actuate`, and leaves score and flags as they were. -/
theorem GameManager.move_frame (gm : GameManager) (d : Direction) (rv rc : MathRandom) :
    (gm.move d rv rc).merges = [] ∧ (gm.move d rv rc).moved = false ∧
    (gm.move d rv rc).calls = [] ∧ (gm.move d rv rc).gm.score = gm.score ∧
    (gm.move d rv rc).gm.won = gm.won ∧ (gm.move d rv rc).gm.over = gm.over ∧
    (gm.move d rv rc).gm.keepPlaying = gm.keepPlaying := by
  cases h : gm.isGameTerminated with
  | true => rw [GameManager.move_of_terminated gm d rv rc h]; simp [MoveResult.untouched]
  | false =>
    obtain ⟨err, he, -, -⟩ := GameManager.move_of_not_terminated gm d rv rc h
    rw [he]
    simp [GameManager.prepareTiles]

/-- On a grid without an available cell, `movesAvailable` lets a `TypeError` escape as
soon as the grid and the manager have size at least one. -/
theorem GameManager.movesAvailable_throws (gm : GameManager)
    (hfull : gm.grid.cellsAvailable = false) (h1 : 0 < gm.size) (h2 : 0 < gm.grid.size) :
    gm.movesAvailable = .error .typeError := by
  unfold GameManager.movesAvailable GameManager.tileMatchesAvailable
  simp only [hfull, Bool.false_eq_true, if_false]
  obtain ⟨n, hn⟩ : ∃ n, gm.size = n + 1 := ⟨gm.size - 1, by omega⟩
  have hcells : ∃ rest, Grid.eachCellOrder gm.size = (0, 0) :: rest := by
    rw [hn]
    unfold Grid.eachCellOrder
    rw [List.range_succ_eq_map]
    exact ⟨_, rfl⟩
  obtain ⟨rest, hrest⟩ := hcells
  rw [hrest]
  have hb : gm.grid.withinBounds ⟨((0 : Nat) : Int), ((0 : Nat) : Int)⟩ = true := by
    simp [Grid.withinBounds, h2]
  simp only [GameManager.tileMatchesLoop, Grid.cellContent_of_withinBounds hb]

/-- What `serialize` followed by the constructor makes of a cell within the grid: the
constructor does not throw, and the tile comes back with its old `y` as `x` and without
`y`. -/
theorem Grid.readAt_restore (g : Grid) {x y : Nat} (hx : x < g.size) (hy : y < g.size) :
    ∃ g2, Grid.new g.serialize.size (some g.serialize.cells) = .ok g2 ∧ g2.size = g.size ∧
      readAt g2.cells x y =
        (readAt g.cells x y).map fun t => Tile.plain t.y none t.value none := by
  have hser : readAt g.serialize.cells x y = (readAt g.cells x y).map Tile.serialize := by
    simp [Grid.serialize, readAt, List.getElem?_range hx, List.getElem?_range hy]
  have hs : g.serialize.size = g.size := rfl
  have hlen : ¬ g.serialize.cells.length < g.size := by
    simp [Grid.serialize]
  refine ⟨{ size := g.size, cells := (List.range g.size).map fun x =>
      (List.range g.size).map fun y =>
        (readAt g.serialize.cells x y).map fun tile => Tile.new tile.pos tile.value }, ?_, rfl, ?_⟩
  · simp only [Grid.new, Grid.fromState, hs, hlen, if_false]
    rfl
  · have hnew : readAt ((List.range g.size).map fun x =>
        (List.range g.size).map fun y =>
          (readAt g.serialize.cells x y).map fun tile => Tile.new tile.pos tile.value) x y =
        (readAt g.serialize.cells x y).map fun tile => Tile.new tile.pos tile.value := by
      generalize g.serialize.cells = sc
      simp [readAt, List.getElem?_range hx, List.getElem?_range hy]
    show readAt ((List.range g.size).map fun x =>
        (List.range g.size).map fun y =>
          (readAt g.serialize.cells x y).map fun tile => Tile.new tile.pos tile.value) x y = _
    rw [hnew, hser, Option.map_map]
    rfl

/-! ## The placement invariant -/

theorem Grid.withinBounds_iff (g : Grid) (p : Pos) :
    g.withinBounds p = true ↔
      ∃ x y : Nat, p = ⟨(x : Int), (y : Int)⟩ ∧ x < g.size ∧ y < g.size := by
  unfold Grid.withinBounds
  simp only [Bool.and_eq_true, decide_eq_true_eq]
  constructor
  · rintro ⟨⟨⟨h1, h2⟩, h3⟩, h4⟩
    refine ⟨p.x.toNat, p.y.toNat, ?_, ?_, ?_⟩
    · cases p with
      | mk px py =>
        simp only [Pos.mk.injEq]
        exact ⟨(Int.toNat_of_nonneg h1).symm, (Int.toNat_of_nonneg h3).symm⟩
    · omega
    · omega
  · rintro ⟨x, y, rfl, hx, hy⟩
    simp
    omega

theorem readAt_set {α : Type} (cells : List (List (Option α))) (x y : Nat) (v : Option α)
    (hx : x < cells.length) (hy : y < (cells.getD x []).length) (x2 y2 : Nat) :
    readAt (cells.set x ((cells.getD x []).set y v)) x2 y2 =
      if x2 = x ∧ y2 = y then v else readAt cells x2 y2 := by
  unfold readAt
  simp only [List.getD_eq_getElem?_getD]
  by_cases h1 : x2 = x
  · subst h1
    simp only [List.getElem?_set_self hx, Option.getD_some, true_and]
    by_cases h2 : y2 = y
    · subst h2
      simp only [List.getD_eq_getElem?_getD] at hy
      simp [List.getElem?_set_self hy]
    · simp [h2, List.getElem?_set_ne (Ne.symm h2)]
  · simp [h1, List.getElem?_set_ne (Ne.symm h1)]

theorem jsCellsSet_ok {α : Type} (cells : List (List (Option α))) (x y : Nat) (v : Option α)
    (hx : x < cells.length) (hy : y < (cells.getD x []).length) :
    jsCellsSet cells (some (x : Int)) (some (y : Int)) v
      = .ok (cells.set x ((cells.getD x []).set y v)) := by
  show jsCellsSet cells (some (Int.ofNat x)) (some (Int.ofNat y)) v = _
  simp only [jsCellsSet, jsRowSet, hx, hy, if_true]

theorem Grid.Placed.row_length {g : Grid} (hp : g.Placed) {x : Nat} (hx : x < g.size) :
    (g.cells.getD x []).length = g.size := by
  have hx2 : x < g.cells.length := by rw [hp.1]; exact hx
  apply hp.2.1
  rw [List.getD_eq_getElem?_getD, List.getElem?_eq_getElem hx2]
  exact List.getElem_mem _

/-- Writing an empty cell, or a tile that carries the coordinates of the cell, into a
cell within bounds keeps the placement invariant. -/
theorem Grid.Placed.set {g : Grid} (hp : g.Placed) {x y : Nat} (hx : x < g.size)
    (hy : y < g.size) (v : Option Tile)
    (hv : ∀ t, v = some t → t.x = some (x : Int) ∧ t.y = some (y : Int)) :
    jsCellsSet g.cells (some (x : Int)) (some (y : Int)) v
        = .ok (g.cells.set x ((g.cells.getD x []).set y v)) ∧
      Grid.Placed { g with cells := g.cells.set x ((g.cells.getD x []).set y v) } := by
  have hx2 : x < g.cells.length := by rw [hp.1]; exact hx
  have hy2 : y < (g.cells.getD x []).length := by rw [hp.row_length hx]; exact hy
  refine ⟨jsCellsSet_ok _ _ _ _ hx2 hy2, ?_, ?_, ?_⟩
  · simp only [List.length_set]
    exact hp.1
  · intro row hrow
    rcases List.mem_or_eq_of_mem_set hrow with h | h
    · exact hp.2.1 row h
    · rw [h, List.length_set]
      exact hp.row_length hx
  · rintro ⟨x2, y2⟩ hc t ht
    simp only [Option.mem_def, readAt_set _ _ _ _ hx2 hy2] at ht
    split at ht
    · rename_i hxy
      obtain ⟨rfl, rfl⟩ := hxy
      exact hv t ht
    · exact hp.2.2 (x2, y2) hc t ht

theorem Grid.Placed.empty (n : Nat) : (Grid.new n none).Placed := by
  refine ⟨?_, ?_, ?_⟩
  · simp [Grid.new, Grid.empty]
  · intro row hrow
    simp only [Grid.new, Grid.empty] at hrow
    rw [(List.mem_replicate.1 hrow).2]
    simp [Grid.new]
  · rintro ⟨x, y⟩ - t ht
    simp only [Option.mem_def, Grid.new, Grid.empty, readAt, List.getD_eq_getElem?_getD,
      List.getElem?_replicate] at ht
    split at ht
    · simp only [Option.getD_some, List.getElem?_replicate] at ht
      split at ht <;> simp at ht
    · simp at ht

theorem Grid.tileWithinBounds_iff (g : Grid) (tile : Tile) :
    g.tileWithinBounds tile = true ↔
      ∃ px py, tile.x = some px ∧ tile.y = some py ∧ g.withinBounds ⟨px, py⟩ = true := by
  unfold Grid.tileWithinBounds
  cases hx : tile.x <;> cases hy : tile.y <;> simp

theorem Grid.Placed.insertTile {g : Grid} (hp : g.Placed) {tile : Tile}
    (ht : g.tileWithinBounds tile = true) : ∃ g2, g.insertTile tile = .ok g2 ∧ g2.Placed := by
  obtain ⟨px, py, h1, h2, hb⟩ := (Grid.tileWithinBounds_iff _ _).1 ht
  obtain ⟨x, y, hxy, hx, hy⟩ := (g.withinBounds_iff _).1 hb
  simp only [Pos.mk.injEq] at hxy
  obtain ⟨rfl, rfl⟩ := hxy
  have hs := hp.set hx hy (some tile) (by intro t e; cases e; exact ⟨h1, h2⟩)
  refine ⟨_, ?_, hs.2⟩
  unfold Grid.insertTile
  rw [h1, h2, hs.1]
  rfl

theorem Grid.Placed.removeTile {g : Grid} (hp : g.Placed) {tile : Tile}
    (ht : g.tileWithinBounds tile = true) : ∃ g2, g.removeTile tile = .ok g2 ∧ g2.Placed := by
  obtain ⟨px, py, h1, h2, hb⟩ := (Grid.tileWithinBounds_iff _ _).1 ht
  obtain ⟨x, y, hxy, hx, hy⟩ := (g.withinBounds_iff _).1 hb
  simp only [Pos.mk.injEq] at hxy
  obtain ⟨rfl, rfl⟩ := hxy
  have hs := hp.set hx hy none (by intro t e; cases e)
  refine ⟨_, ?_, hs.2⟩
  unfold Grid.removeTile
  rw [h1, h2, hs.1]
  rfl

theorem Tile.updatePosition_x (t : Tile) (p : Pos) : (t.updatePosition p).x = some p.x := by
  cases t <;> rfl

theorem Tile.updatePosition_y (t : Tile) (p : Pos) : (t.updatePosition p).y = some p.y := by
  cases t <;> rfl

theorem GameManager.moveTile_placed {gm : GameManager} (hp : gm.grid.Placed) {tile : Tile}
    (ht : gm.grid.tileWithinBounds tile = true) {cell : Pos} (hc : gm.grid.withinBounds cell = true) :
    (gm.moveTile tile cell).2 = .ok (tile.updatePosition cell) ∧
      (gm.moveTile tile cell).1.grid.Placed := by
  obtain ⟨px, py, h1, h2, hb⟩ := (Grid.tileWithinBounds_iff _ _).1 ht
  obtain ⟨x, y, hxy, hx, hy⟩ := (gm.grid.withinBounds_iff _).1 hb
  simp only [Pos.mk.injEq] at hxy
  obtain ⟨rfl, rfl⟩ := hxy
  obtain ⟨cx, cy, rfl, hcx, hcy⟩ := (gm.grid.withinBounds_iff _).1 hc
  have hs := hp.set hx hy none (by intro t e; cases e)
  have hs2 := Grid.Placed.set hs.2 (x := cx) (y := cy) hcx hcy
    (some (tile.updatePosition ⟨cx, cy⟩))
    (by intro t e; cases e; exact ⟨Tile.updatePosition_x _ _, Tile.updatePosition_y _ _⟩)
  unfold GameManager.moveTile
  rw [h1, h2, hs.1]
  simp only
  rw [hs2.1]
  exact ⟨rfl, hs2.2⟩

theorem Grid.mem_eachCellOrder (n : Nat) (c : Nat × Nat) :
    c ∈ Grid.eachCellOrder n ↔ c.1 < n ∧ c.2 < n := by
  obtain ⟨x, y⟩ := c
  simp only [Grid.eachCellOrder, List.mem_flatMap, List.mem_map, List.mem_range,
    Prod.mk.injEq]
  constructor
  · rintro ⟨a, ha, b, hb, rfl, rfl⟩
    exact ⟨ha, hb⟩
  · rintro ⟨hx, hy⟩
    exact ⟨x, hx, y, hy, rfl, rfl⟩

theorem Grid.mem_availableCells (g : Grid) (p : Pos) :
    p ∈ g.availableCells ↔
      ∃ x y : Nat, p = ⟨(x : Int), (y : Int)⟩ ∧ x < g.size ∧ y < g.size ∧
        readAt g.cells x y = none := by
  unfold Grid.availableCells
  simp only [List.mem_filterMap]
  constructor
  · rintro ⟨⟨x, y⟩, hc, h⟩
    have hb := (Grid.mem_eachCellOrder _ _).1 hc
    cases hr : readAt g.cells x y with
    | none =>
      simp only [hr, Option.some.injEq] at h
      exact ⟨x, y, h.symm, hb.1, hb.2, hr⟩
    | some t => simp [hr] at h
  · rintro ⟨x, y, rfl, hx, hy, hr⟩
    exact ⟨(x, y), (Grid.mem_eachCellOrder _ _).2 ⟨hx, hy⟩, by simp [hr]⟩

/-- With a cell available, `randomAvailableCell` returns one of the available cells. -/
theorem Grid.randomAvailableCell_mem (g : Grid) (r : MathRandom)
    (h : g.cellsAvailable = true) :
    ∃ p, g.randomAvailableCell r = some p ∧ p ∈ g.availableCells := by
  have hne : g.availableCells.length ≠ 0 := by
    unfold Grid.cellsAvailable at h
    intro h0
    rw [List.length_eq_zero] at h0
    simp [h0] at h
  have hlt := r.floorMul_lt _ (Nat.pos_of_ne_zero hne)
  refine ⟨g.availableCells[r.floorMul g.availableCells.length], ?_, List.getElem_mem _⟩
  unfold Grid.randomAvailableCell
  simp only [hne, ne_eq, not_false_eq_true, if_true, List.get?_eq_getElem?]
  exact List.getElem?_eq_getElem hlt

theorem GameManager.addRandomTile_placed {gm : GameManager} (hp : gm.grid.Placed)
    (rv rc : MathRandom) :
    ∃ gm2, gm.addRandomTile rv rc = .ok gm2 ∧ gm2.grid.Placed := by
  unfold GameManager.addRandomTile
  cases ha : gm.grid.cellsAvailable with
  | false => exact ⟨gm, by simp, hp⟩
  | true =>
    obtain ⟨p, hr, hmem⟩ := gm.grid.randomAvailableCell_mem rc ha
    obtain ⟨x, y, rfl, hx, hy, -⟩ := (gm.grid.mem_availableCells p).1 hmem
    have ht : gm.grid.tileWithinBounds
        (Tile.new (Pos.toJs ⟨(x : Int), (y : Int)⟩) (if rv.below09 then 2 else 4)) = true :=
      (Grid.tileWithinBounds_iff _ _).2
        ⟨x, y, rfl, rfl, (gm.grid.withinBounds_iff _).2 ⟨x, y, rfl, hx, hy⟩⟩
    obtain ⟨g2, hi, hp2⟩ := hp.insertTile ht
    refine ⟨{ gm with grid := g2 }, ?_, hp2⟩
    simp only [if_true, hr, hi]
    rfl

theorem GameManager.prepareTile_x (t : Tile) : (GameManager.prepareTile t).x = t.x := by
  cases t <;> rfl

theorem GameManager.prepareTile_y (t : Tile) : (GameManager.prepareTile t).y = t.y := by
  cases t <;> rfl

/-- In a cell that `eachCell` visits, `prepareTiles` leaves the prepared tile. -/
theorem GameManager.readAt_prepareTiles (gm : GameManager) (x y : Nat) :
    readAt gm.prepareTiles.grid.cells x y =
      if x < gm.grid.size ∧ y < gm.grid.size then
        (readAt gm.grid.cells x y).map GameManager.prepareTile
      else readAt gm.grid.cells x y := by
  unfold GameManager.prepareTiles readAt
  simp only [List.getD_eq_getElem?_getD, List.getElem?_mapIdx]
  cases hrow : gm.grid.cells[x]? with
  | none => simp
  | some row =>
    simp only [Option.map_some', Option.getD_some]
    by_cases hx : x < gm.grid.size
    · simp only [hx, if_true, true_and, List.getElem?_mapIdx]
      cases hc : row[y]? with
      | none => simp
      | some c =>
        by_cases hy : y < gm.grid.size
        · simp [hy]
        · simp [hy]
    · simp [hx]

theorem GameManager.prepareTiles_placed {gm : GameManager} (hp : gm.grid.Placed) :
    gm.prepareTiles.grid.Placed := by
  refine ⟨?_, ?_, ?_⟩
  · simp only [GameManager.prepareTiles, List.length_mapIdx]
    exact hp.1
  · intro row hrow
    simp only [GameManager.prepareTiles, List.mem_mapIdx] at hrow
    obtain ⟨i, hi, rfl⟩ := hrow
    have hl := hp.2.1 _ (List.getElem_mem hi)
    split
    · rw [List.length_mapIdx]; exact hl
    · exact hl
  · rintro ⟨x, y⟩ hc t ht
    have hc2 : (x, y) ∈ Grid.eachCellOrder gm.grid.size := hc
    rw [Option.mem_def, GameManager.readAt_prepareTiles] at ht
    split at ht
    · cases hr : readAt gm.grid.cells x y with
      | none => simp [hr] at ht
      | some t0 =>
        simp only [hr, Option.map_some', Option.some.injEq] at ht
        subst ht
        rw [GameManager.prepareTile_x, GameManager.prepareTile_y]
        exact hp.2.2 (x, y) hc2 t0 hr
    · exact hp.2.2 (x, y) hc2 t ht

theorem GameManager.move_placed {gm : GameManager} (hp : gm.grid.Placed) (d : Direction)
    (rv rc : MathRandom) : (gm.move d rv rc).gm.grid.Placed := by
  cases h : gm.isGameTerminated with
  | true => rw [GameManager.move_of_terminated gm d rv rc h]; exact hp
  | false =>
    obtain ⟨err, he, -, -⟩ := GameManager.move_of_not_terminated gm d rv rc h
    rw [he]
    exact GameManager.prepareTiles_placed hp

/-! ## The claims -/

/-- C1 (sliding a line, refuted on the code by a slip of `cellContent`): on the grid of
size 4 whose first row is `[2, 2, 4, 0]`, `move(left)` lets a `TypeError` escape and the
grid it leaves before any spawn still has the row `[2, 2, 4, 0]`, where the reference
slide gives `[4, 4, 0, 0]`; the same happens for the row `[2, 0, 0, 2]` moved right,
where the reference slide gives `[0, 0, 0, 4]`. -/
theorem move_does_not_slide_the_scenario_rows :
    ((gameOn (gridOfRows 4 [[2, 2, 4, 0]])).isGameTerminated = false ∧
      ((gameOn (gridOfRows 4 [[2, 2, 4, 0]])).move .left drawZero drawZero).error
        = some .typeError ∧
      rowsOfGrid ((gameOn (gridOfRows 4 [[2, 2, 4, 0]])).move .left drawZero drawZero).beforeSpawn
        = [[2, 2, 4, 0], [0, 0, 0, 0], [0, 0, 0, 0], [0, 0, 0, 0]] ∧
      referenceSlide 4 .left (rowsOfGrid (gridOfRows 4 [[2, 2, 4, 0]]))
        = [[4, 4, 0, 0], [0, 0, 0, 0], [0, 0, 0, 0], [0, 0, 0, 0]]) ∧
    (((gameOn (gridOfRows 4 [[2, 0, 0, 2]])).move .right drawZero drawZero).error
        = some .typeError ∧
      rowsOfGrid ((gameOn (gridOfRows 4 [[2, 0, 0, 2]])).move .right drawZero drawZero).beforeSpawn
        = [[2, 0, 0, 2], [0, 0, 0, 0], [0, 0, 0, 0], [0, 0, 0, 0]] ∧
      referenceSlide 4 .right (rowsOfGrid (gridOfRows 4 [[2, 0, 0, 2]]))
        = [[0, 0, 0, 4], [0, 0, 0, 0], [0, 0, 0, 0], [0, 0, 0, 0]]) := by
  decide

/-- C2 (serialize and restore, refuted on the code by a slip of `Tile.serialize`): the
grid of size 2 with one tile of value 2 in the cell `(1, 0)` comes back from
`new Grid(s.size, s.cells)`, `s = g.serialize()`, with a tile of value 2 in that cell
whose `x` is `0` and whose `y` is `undefined`. -/
theorem restore_loses_the_tile_position :
    readAt (gridOfRows 2 [[0, 2], [0, 0]]).cells 1 0
      = some (Tile.plain (some 1) (some 0) 2 none) ∧
    (gridOfRows 2 [[0, 2], [0, 0]]).serialize
      = { size := 2, cells := [[none, none], [some { pos := ⟨some 0, none⟩, value := 2 }, none]] } ∧
    ∃ g2, Grid.new (gridOfRows 2 [[0, 2], [0, 0]]).serialize.size
        (some (gridOfRows 2 [[0, 2], [0, 0]]).serialize.cells) = .ok g2 ∧
      readAt g2.cells 1 0 = some (Tile.plain (some 0) none 2 none) :=
  ⟨by decide, by decide, _, rfl, by decide⟩

/-- C3 (a move without effect, refuted on the code by the slip of `cellContent`): on the
empty grid of size 4, and on the grid of size 4 whose first row is the packed row
`[2, 4, 2, 4]` moved left, `move` does not complete: a `TypeError` escapes. -/
theorem move_without_effect_throws :
    (gameOn (Grid.new 4 none)).isGameTerminated = false ∧
    ((gameOn (Grid.new 4 none)).move .up drawZero drawZero).error = some .typeError ∧
    ((gameOn (Grid.new 4 none)).move .left drawZero drawZero).error = some .typeError ∧
    ((gameOn (gridOfRows 4 [[2, 4, 2, 4]])).move .left drawZero drawZero).error
      = some .typeError := by
  decide

/-- C4 (a terminated game rejects `move`): when `over` is true, or `won` is true and
`keepPlaying` is false, `move(d)` returns with the whole manager (grid, every tile with
all its fields, score and the three flags) unchanged, no exception, `moved = false`, and
neither `addRandomTile` nor `actuate` called; and when `won` and `keepPlaying` are true
and `over` is false the game is not terminated and `move` runs its body. -/
theorem move_rejected_when_terminated (gm : GameManager) (d : Direction)
    (rv rc : MathRandom) :
    ((gm.over = true ∨ (gm.won = true ∧ gm.keepPlaying = false)) →
      (gm.move d rv rc).gm = gm ∧ (gm.move d rv rc).error = none ∧
      (gm.move d rv rc).moved = false ∧ (gm.move d rv rc).merges = [] ∧
      (gm.move d rv rc).calls = []) ∧
    (gm.won = true → gm.keepPlaying = true → gm.over = false →
      gm.isGameTerminated = false ∧ gm.move d rv rc = gm.moveUnguarded d rv rc) := by
  constructor
  · intro h
    have ht : gm.isGameTerminated = true := by
      unfold GameManager.isGameTerminated
      rcases h with h | ⟨h1, h2⟩
      · simp [h]
      · simp [h1, h2]
    rw [GameManager.move_of_terminated gm d rv rc ht]
    simp [MoveResult.untouched]
  · intro h1 h2 h3
    have ht : gm.isGameTerminated = false := by
      unfold GameManager.isGameTerminated
      simp [h1, h2, h3]
    refine ⟨ht, ?_⟩
    unfold GameManager.move
    simp [ht]

/-- A game that is over, one that is won, and one that is won and kept playing, each on
the grid of size 2 with the rows `[2, 2]` and `[0, 0]`. -/
theorem move_rejected_when_terminated_witness :
    ((({ gameOn (gridOfRows 2 [[2, 2]]) with over := true }).move .left drawZero drawZero).gm
        = { gameOn (gridOfRows 2 [[2, 2]]) with over := true } ∧
      (({ gameOn (gridOfRows 2 [[2, 2]]) with won := true }).move .left drawZero drawZero).calls
        = []) ∧
    ({ gameOn (gridOfRows 2 [[2, 2]]) with won := true, keepPlaying := true }).move
        .left drawZero drawZero
      = ({ gameOn (gridOfRows 2 [[2, 2]]) with won := true, keepPlaying := true }).moveUnguarded
        .left drawZero drawZero :=
  ⟨⟨((move_rejected_when_terminated _ .left drawZero drawZero).1 (Or.inl rfl)).1,
    ((move_rejected_when_terminated _ .left drawZero drawZero).1 (Or.inr ⟨rfl, rfl⟩)).2.2.2.2⟩,
   ((move_rejected_when_terminated _ .left drawZero drawZero).2 rfl rfl rfl).2⟩

/-- C9 (`movesAvailable`, refuted on the code by the slip of `cellContent`): on the full
grid of size 2 with the rows `[2, 2]` and `[4, 8]`, which has an adjacent equal pair,
`movesAvailable()` does not return: a `TypeError` escapes; so it does on the full grid
with the rows `[2, 4]` and `[4, 2]`, which has none. -/
theorem movesAvailable_throws_on_full_grid :
    (gridOfRows 2 [[2, 2], [4, 8]]).hasEmptyCell = false ∧
    (gridOfRows 2 [[2, 2], [4, 8]]).hasEqualNeighbours = true ∧
    (gameOn (gridOfRows 2 [[2, 2], [4, 8]])).movesAvailable = .error .typeError ∧
    (gameOn (gridOfRows 2 [[2, 4], [4, 2]])).movesAvailable = .error .typeError :=
  ⟨by decide, by decide, rfl, rfl⟩

/-- C11 (`cellContent`, refuted on the code by its own slip): on the grid of size 4 that
holds a tile of value 2 in the cell `(0, 0)`, `cellContent` fails for the occupied cell
`(0, 0)` and for the empty cell `(1, 1)`, both within bounds: a `TypeError` escapes, where
the claim has it return the stored tile and empty.  Out of bounds it returns empty. -/
theorem cellContent_throws_within_bounds :
    (gridOfRows 4 [[2]]).withinBounds ⟨0, 0⟩ = true ∧
    readAt (gridOfRows 4 [[2]]).cells 0 0 = some (Tile.plain (some 0) (some 0) 2 none) ∧
    (gridOfRows 4 [[2]]).cellContent ⟨0, 0⟩ = .error .typeError ∧
    (gridOfRows 4 [[2]]).withinBounds ⟨1, 1⟩ = true ∧
    readAt (gridOfRows 4 [[2]]).cells 1 1 = none ∧
    (gridOfRows 4 [[2]]).cellContent ⟨1, 1⟩ = .error .typeError ∧
    (gridOfRows 4 [[2]]).cellContent ⟨4, 0⟩ = .ok none :=
  ⟨by decide, by decide, rfl, by decide, by decide, rfl, rfl⟩

/-- C12 as stated fails: on the empty grid of size 4 the position `(-1, 0)` is not within
bounds, and `cellAvailable` returns true for it. -/
theorem cellAvailable_true_out_of_bounds :
    (Grid.new 4 none).withinBounds ⟨-1, 0⟩ = false ∧
    (Grid.new 4 none).cellAvailable ⟨-1, 0⟩ = .ok true ∧
    ¬ ((Grid.new 4 none).cellAvailable ⟨-1, 0⟩ = .ok true ↔
        (Grid.new 4 none).isFreeCell ⟨-1, 0⟩ = true) := by
  refine ⟨by decide, rfl, fun h => ?_⟩
  have h2 := h.1 rfl
  revert h2
  decide

/-- C12 amended (`cellAvailable`): `cellAvailable` is the negation of `cellOccupied` and
tests no bound: for every grid and every position outside the grid `cellOccupied` is
false and `cellAvailable` is true. -/
theorem cellAvailable_outside (g : Grid) (p : Pos) (h : g.withinBounds p = false) :
    g.cellOccupied p = .ok false ∧ g.cellAvailable p = .ok true := by
  unfold Grid.cellAvailable Grid.cellOccupied
  rw [Grid.cellContent_of_not_withinBounds h]
  exact ⟨rfl, rfl⟩

theorem cellAvailable_outside_witness :
    (gridOfRows 4 [[2]]).cellOccupied ⟨0, 4⟩ = .ok false ∧
    (gridOfRows 4 [[2]]).cellAvailable ⟨0, 4⟩ = .ok true :=
  cellAvailable_outside (gridOfRows 4 [[2]]) ⟨0, 4⟩ (by decide)

/-! ## Reading a cell after an assignment -/

theorem jsRowSet_getD {α : Type} (row : List (Option α)) (y : Nat) (v : Option α) (y2 : Nat) :
    (jsRowSet row (some (y : Int)) v).getD y2 none =
      if y2 = y then v else row.getD y2 none := by
  show (jsRowSet row (some (Int.ofNat y)) v).getD y2 none = _
  simp only [jsRowSet, List.getD_eq_getElem?_getD]
  by_cases hy : y < row.length
  · simp only [hy, if_true]
    by_cases h2 : y2 = y
    · subst h2
      simp [List.getElem?_set_self hy]
    · simp [h2, List.getElem?_set_ne (Ne.symm h2)]
  · simp only [hy, if_false]
    have hle : row.length ≤ y := Nat.le_of_not_lt hy
    by_cases h2 : y2 = y
    · subst h2
      rw [List.getElem?_append_right (by simp; omega)]
      simp [hle]
    · simp only [h2, if_false]
      by_cases h3 : y2 < row.length
      · rw [List.append_assoc, List.getElem?_append_left h3]
      · have h4 : row.length ≤ y2 := Nat.le_of_not_lt h3
        rw [List.append_assoc, List.getElem?_append_right h4, List.getElem?_eq_none h4]
        by_cases h5 : y2 - row.length < y - row.length
        · rw [List.getElem?_append_left (by simpa using h5)]
          simp [h5]
        · rw [List.getElem?_eq_none]
          simp
          omega

/-- The assignment `cells[x][y] = v` succeeds when `x` is the index of a column, and then
changes what is read in the cell `(x, y)` and in no other cell. -/
theorem jsCellsSet_readAt {α : Type} (cells : List (List (Option α))) (x y : Nat)
    (v : Option α) (hx : x < cells.length) :
    ∃ c, jsCellsSet cells (some (x : Int)) (some (y : Int)) v = .ok c ∧
      c.length = cells.length ∧
      ∀ x2 y2, readAt c x2 y2 = if x2 = x ∧ y2 = y then v else readAt cells x2 y2 := by
  refine ⟨cells.set x (jsRowSet (cells.getD x []) (some (y : Int)) v), ?_, by simp, ?_⟩
  · show jsCellsSet cells (some (Int.ofNat x)) (some (y : Int)) v = _
    simp only [jsCellsSet, hx, if_true]
  · intro x2 y2
    unfold readAt
    by_cases h1 : x2 = x
    · subst h1
      have : (cells.set x2 (jsRowSet (cells.getD x2 []) (some (y : Int)) v)).getD x2 [] =
          jsRowSet (cells.getD x2 []) (some (y : Int)) v := by
        simp [List.getElem?_set_self hx]
      rw [this, jsRowSet_getD]
      simp
    · have : (cells.set x (jsRowSet (cells.getD x []) (some (y : Int)) v)).getD x2 [] =
          cells.getD x2 [] := by
        simp [List.getElem?_set_ne (Ne.symm h1)]
      rw [this]
      simp [h1]

/-! ## The spawn -/

theorem Grid.cellsAvailable_eq_hasEmptyCell (g : Grid) : g.cellsAvailable = g.hasEmptyCell := by
  rw [Bool.eq_iff_iff]
  unfold Grid.hasEmptyCell
  rw [List.any_eq_true]
  constructor
  · intro h
    have hne : g.availableCells ≠ [] := by
      intro h0
      simp [Grid.cellsAvailable, h0] at h
    obtain ⟨p, hp⟩ := List.exists_mem_of_ne_nil _ hne
    obtain ⟨x, y, -, hx, hy, hr⟩ := (g.mem_availableCells p).1 hp
    exact ⟨(x, y), (Grid.mem_eachCellOrder _ _).2 ⟨hx, hy⟩, by simp [hr]⟩
  · rintro ⟨⟨x, y⟩, hc, hr⟩
    have hb := (Grid.mem_eachCellOrder _ _).1 hc
    have hmem : (⟨(x : Int), (y : Int)⟩ : Pos) ∈ g.availableCells :=
      (g.mem_availableCells _).2 ⟨x, y, rfl, hb.1, hb.2, by simpa using hr⟩
    unfold Grid.cellsAvailable
    cases h0 : g.availableCells with
    | nil => rw [h0] at hmem; cases hmem
    | cons a l => rfl

theorem Grid.randomAvailableCell_eq_none (g : Grid) (r : MathRandom) :
    g.randomAvailableCell r = none ↔ g.hasEmptyCell = false := by
  rw [← Grid.cellsAvailable_eq_hasEmptyCell]
  constructor
  · intro h
    cases ha : g.cellsAvailable with
    | false => rfl
    | true =>
      obtain ⟨p, hp, -⟩ := g.randomAvailableCell_mem r ha
      rw [h] at hp
      cases hp
  · intro h
    have h0 : g.availableCells = [] := by
      unfold Grid.cellsAvailable at h
      cases hl : g.availableCells with
      | nil => rfl
      | cons a l => simp [hl] at h
    simp [Grid.randomAvailableCell, h0]

theorem Grid.randomAvailableCell_some (g : Grid) (r : MathRandom) {p : Pos}
    (h : g.randomAvailableCell r = some p) : p ∈ g.availableCells := by
  unfold Grid.randomAvailableCell at h
  simp only [ne_eq, ite_not] at h
  split at h
  · cases h
  · rw [List.get?_eq_getElem?] at h
    exact List.getElem?_mem h

theorem Grid.isFreeCell_of_mem_availableCells (g : Grid) {p : Pos}
    (h : p ∈ g.availableCells) : g.isFreeCell p = true := by
  obtain ⟨x, y, rfl, hx, hy, hr⟩ := (g.mem_availableCells p).1 h
  unfold Grid.isFreeCell
  rw [(g.withinBounds_iff _).2 ⟨x, y, rfl, hx, hy⟩]
  simp [hr]

/-- What `addRandomTile` does when a cell is available: it inserts a tile of value 2 or 4,
carrying the coordinates of the drawn cell, which is empty and within the grid. -/
theorem GameManager.addRandomTile_of_available (gm : GameManager) (rv rc : MathRandom)
    (ha : gm.grid.cellsAvailable = true) :
    ∃ x y : Nat, x < gm.grid.size ∧ y < gm.grid.size ∧ readAt gm.grid.cells x y = none ∧
      gm.grid.randomAvailableCell rc = some ⟨(x : Int), (y : Int)⟩ ∧
      gm.addRandomTile rv rc =
        (jsCellsSet gm.grid.cells (some (x : Int)) (some (y : Int))
          (some (Tile.new ⟨some (x : Int), some (y : Int)⟩ (if rv.below09 then 2 else 4)))).map
          fun c => { gm with grid := { gm.grid with cells := c } } := by
  obtain ⟨p, hr, hmem⟩ := gm.grid.randomAvailableCell_mem rc ha
  obtain ⟨x, y, rfl, hx, hy, hn⟩ := (gm.grid.mem_availableCells p).1 hmem
  refine ⟨x, y, hx, hy, hn, hr, ?_⟩
  unfold GameManager.addRandomTile
  simp only [ha, if_true, hr, Grid.insertTile]
  show Except.map _ (Except.map _ (jsCellsSet gm.grid.cells (some (x : Int)) (some (y : Int))
    (some (Tile.new ⟨some (x : Int), some (y : Int)⟩ (if rv.below09 then 2 else 4))))) = _
  cases jsCellsSet gm.grid.cells (some (x : Int)) (some (y : Int))
    (some (Tile.new ⟨some (x : Int), some (y : Int)⟩ (if rv.below09 then 2 else 4))) <;> rfl

theorem GameManager.addRandomTile_of_full (gm : GameManager) (rv rc : MathRandom)
    (ha : gm.grid.cellsAvailable = false) : gm.addRandomTile rv rc = .ok gm := by
  unfold GameManager.addRandomTile
  simp [ha]

theorem GameManager.prepareTile_value (t : Tile) : (GameManager.prepareTile t).value = t.value := by
  cases t <;> rfl

theorem GameManager.addRandomTile_valuesValid {gm gm2 : GameManager} {rv rc : MathRandom}
    (hv : gm.grid.ValuesValid) (h : gm.addRandomTile rv rc = .ok gm2) :
    gm2.grid.ValuesValid := by
  cases ha : gm.grid.cellsAvailable with
  | false =>
    rw [GameManager.addRandomTile_of_full gm rv rc ha] at h
    cases h
    exact hv
  | true =>
    obtain ⟨x, y, hx, hy, -, -, he⟩ := GameManager.addRandomTile_of_available gm rv rc ha
    rw [he] at h
    by_cases hlen : x < gm.grid.cells.length
    · obtain ⟨c, hc, -, hread⟩ := jsCellsSet_readAt gm.grid.cells x y
        (some (Tile.new ⟨some (x : Int), some (y : Int)⟩ (if rv.below09 then 2 else 4))) hlen
      rw [hc] at h
      cases h
      rintro ⟨x2, y2⟩ hmem t ht
      simp only [Option.mem_def, hread] at ht
      split at ht
      · cases ht
        show validValue (if rv.below09 = true then 2 else 4)
        split <;> decide
      · exact hv (x2, y2) hmem t ht
    · have : jsCellsSet gm.grid.cells (some (x : Int)) (some (y : Int))
          (some (Tile.new ⟨some (x : Int), some (y : Int)⟩ (if rv.below09 then 2 else 4)))
          = .error .typeError := by
        show jsCellsSet gm.grid.cells (some (Int.ofNat x)) _ _ = _
        simp only [jsCellsSet, hlen, if_false]
      rw [this] at h
      cases h

theorem GameManager.addRandomTile_ok (gm : GameManager) (rv rc : MathRandom)
    (hshape : gm.grid.cells.length = gm.grid.size) :
    ∃ gm2, gm.addRandomTile rv rc = .ok gm2 := by
  cases ha : gm.grid.cellsAvailable with
  | false => exact ⟨gm, GameManager.addRandomTile_of_full gm rv rc ha⟩
  | true =>
    obtain ⟨x, y, hx, hy, -, -, he⟩ := GameManager.addRandomTile_of_available gm rv rc ha
    obtain ⟨c, hc, -, -⟩ := jsCellsSet_readAt gm.grid.cells x y
      (some (Tile.new ⟨some (x : Int), some (y : Int)⟩ (if rv.below09 then 2 else 4)))
      (by rw [hshape]; exact hx)
    exact ⟨_, by rw [he, hc]; rfl⟩

theorem GameManager.prepareTiles_valuesValid {gm : GameManager} (hv : gm.grid.ValuesValid) :
    gm.prepareTiles.grid.ValuesValid := by
  rintro ⟨x, y⟩ hc t ht
  have hc2 : (x, y) ∈ Grid.eachCellOrder gm.grid.size := hc
  rw [Option.mem_def, GameManager.readAt_prepareTiles] at ht
  split at ht
  · cases hr : readAt gm.grid.cells x y with
    | none => simp [hr] at ht
    | some t0 =>
      simp only [hr, Option.map_some', Option.some.injEq] at ht
      subst ht
      rw [GameManager.prepareTile_value]
      exact hv (x, y) hc2 t0 hr
  · exact hv (x, y) hc2 t ht

/-- C15 (spawn): `randomAvailableCell()` returns nothing exactly when the grid has no empty
cell, and otherwise an empty cell within bounds; `addRandomTile()` returns a full grid
unchanged and otherwise puts one tile of value 2 or 4 into a cell that was empty, with
the coordinates of that cell, and changes no other cell and nothing else. -/
theorem spawn_spec (gm : GameManager) (rv rc : MathRandom)
    (hshape : gm.grid.cells.length = gm.grid.size) :
    (gm.grid.randomAvailableCell rc = none ↔ gm.grid.hasEmptyCell = false) ∧
    (∀ p, gm.grid.randomAvailableCell rc = some p → gm.grid.isFreeCell p = true) ∧
    (gm.grid.hasEmptyCell = false → gm.addRandomTile rv rc = .ok gm) ∧
    (gm.grid.hasEmptyCell = true →
      ∃ (x y v : Nat) (cells : List (List (Option Tile))),
        gm.addRandomTile rv rc = .ok { gm with grid := { gm.grid with cells := cells } } ∧
        (v = 2 ∨ v = 4) ∧ x < gm.grid.size ∧ y < gm.grid.size ∧
        readAt gm.grid.cells x y = none ∧
        readAt cells x y = some (Tile.new ⟨some (x : Int), some (y : Int)⟩ v) ∧
        cells.length = gm.grid.cells.length ∧
        ∀ x2 y2, ¬ (x2 = x ∧ y2 = y) → readAt cells x2 y2 = readAt gm.grid.cells x2 y2) := by
  refine ⟨Grid.randomAvailableCell_eq_none _ _,
    fun p hp => Grid.isFreeCell_of_mem_availableCells _ (Grid.randomAvailableCell_some _ _ hp),
    fun hf => GameManager.addRandomTile_of_full gm rv rc
      (by rw [Grid.cellsAvailable_eq_hasEmptyCell]; exact hf), ?_⟩
  intro he
  obtain ⟨x, y, hx, hy, hn, -, heq⟩ := GameManager.addRandomTile_of_available gm rv rc
    (by rw [Grid.cellsAvailable_eq_hasEmptyCell]; exact he)
  obtain ⟨c, hc, hlen, hread⟩ := jsCellsSet_readAt gm.grid.cells x y
    (some (Tile.new ⟨some (x : Int), some (y : Int)⟩ (if rv.below09 then 2 else 4)))
    (by rw [hshape]; exact hx)
  refine ⟨x, y, if rv.below09 then 2 else 4, c, by rw [heq, hc]; rfl, ?_, hx, hy, hn, ?_,
    hlen, ?_⟩
  · split
    · exact Or.inl rfl
    · exact Or.inr rfl
  · rw [hread]; simp
  · intro x2 y2 hne
    rw [hread, if_neg hne]

/-- The grid of size 2 with the rows `[2, 4]` and `[0, 8]` and the draws `0` and `0`: the
spawn puts a 2 into the one empty cell `(0, 1)`. -/
theorem spawn_spec_witness :
    (gridOfRows 2 [[2, 4], [0, 8]]).randomAvailableCell drawZero = some ⟨0, 1⟩ ∧
    (gridOfRows 2 [[2, 4], [0, 8]]).isFreeCell ⟨0, 1⟩ = true ∧
    (∃ (x y v : Nat) (cells : List (List (Option Tile))),
      (gameOn (gridOfRows 2 [[2, 4], [0, 8]])).addRandomTile drawZero drawZero
        = .ok { gameOn (gridOfRows 2 [[2, 4], [0, 8]]) with
                grid := { (gridOfRows 2 [[2, 4], [0, 8]]) with cells := cells } } ∧
      (v = 2 ∨ v = 4) ∧ x < 2 ∧ y < 2 ∧
      readAt (gridOfRows 2 [[2, 4], [0, 8]]).cells x y = none ∧
      readAt cells x y = some (Tile.new ⟨some (x : Int), some (y : Int)⟩ v) ∧
      cells.length = (gridOfRows 2 [[2, 4], [0, 8]]).cells.length ∧
      ∀ x2 y2, ¬ (x2 = x ∧ y2 = y) →
        readAt cells x2 y2 = readAt (gridOfRows 2 [[2, 4], [0, 8]]).cells x2 y2) :=
  ⟨by decide,
   (spawn_spec (gameOn (gridOfRows 2 [[2, 4], [0, 8]])) drawZero drawZero rfl).2.1 ⟨0, 1⟩
      (by decide),
   (spawn_spec (gameOn (gridOfRows 2 [[2, 4], [0, 8]])) drawZero drawZero rfl).2.2.2
      (by decide)⟩

/-! ## The order of `availableCells` -/

theorem Grid.pairwise_eachCellOrder (n : Nat) :
    (Grid.eachCellOrder n).Pairwise fun c1 c2 => c1.1 < c2.1 ∨ (c1.1 = c2.1 ∧ c1.2 < c2.2) := by
  unfold Grid.eachCellOrder
  rw [List.pairwise_flatMap]
  constructor
  · intro x _
    rw [List.pairwise_map]
    exact (List.pairwise_lt_range n).imp fun h => Or.inr ⟨rfl, h⟩
  · refine (List.pairwise_lt_range n).imp ?_
    intro x1 x2 h p hp q hq
    simp only [List.mem_map] at hp hq
    obtain ⟨_, _, rfl⟩ := hp
    obtain ⟨_, _, rfl⟩ := hq
    exact Or.inl h

theorem Grid.pairwise_availableCells (g : Grid) : g.availableCells.Pairwise Pos.before := by
  unfold Grid.availableCells
  refine List.Pairwise.filterMap _ ?_ (Grid.pairwise_eachCellOrder g.size)
  rintro ⟨x1, y1⟩ ⟨x2, y2⟩ h p hp q hq
  simp only [Option.mem_def] at hp hq
  split at hp
  · split at hq
    · cases hp
      cases hq
      unfold Pos.before
      simp only at h ⊢
      omega
    · cases hq
  · cases hp

theorem Grid.mem_availableCells_iff_isFreeCell (g : Grid) (p : Pos) :
    p ∈ g.availableCells ↔ g.isFreeCell p = true := by
  constructor
  · exact Grid.isFreeCell_of_mem_availableCells g
  · intro h
    unfold Grid.isFreeCell at h
    rw [Bool.and_eq_true] at h
    obtain ⟨x, y, rfl, hx, hy⟩ := (g.withinBounds_iff p).1 h.1
    refine (g.mem_availableCells _).2 ⟨x, y, rfl, hx, hy, ?_⟩
    simpa using h.2

/-- C16 as stated fails: on the empty grid of size 2, `availableCells()` lists `(0, 1)`
before `(1, 0)`: the list is not in row-major order, rows being lines of constant `y`. -/
theorem availableCells_not_row_major :
    (Grid.new 2 none).availableCells = [⟨0, 0⟩, ⟨0, 1⟩, ⟨1, 0⟩, ⟨1, 1⟩] ∧
    ¬ (Grid.new 2 none).availableCells.Pairwise Pos.beforeRowMajor := by
  decide

/-- C16 amended (`availableCells`): for every grid, `availableCells()` returns exactly the
positions within bounds whose cell is empty, each once, in the order of `eachCell`: by
`x` ascending and, for equal `x`, by `y` ascending. -/
theorem availableCells_spec (g : Grid) :
    (∀ p, p ∈ g.availableCells ↔ g.isFreeCell p = true) ∧
    g.availableCells.Nodup ∧ g.availableCells.Pairwise Pos.before := by
  refine ⟨Grid.mem_availableCells_iff_isFreeCell g, ?_, Grid.pairwise_availableCells g⟩
  refine (Grid.pairwise_availableCells g).imp ?_
  rintro p q h rfl
  unfold Pos.before at h
  omega

/-! ## Loading the persisted state -/

/-- What `addRandomTile` leaves alone. -/
theorem GameManager.addRandomTile_frame {gm gm2 : GameManager} {rv rc : MathRandom}
    (h : gm.addRandomTile rv rc = .ok gm2) :
    gm2.size = gm.size ∧ gm2.score = gm.score ∧ gm2.over = gm.over ∧ gm2.won = gm.won ∧
    gm2.keepPlaying = gm.keepPlaying ∧ gm2.grid.size = gm.grid.size := by
  cases ha : gm.grid.cellsAvailable with
  | false =>
    rw [GameManager.addRandomTile_of_full gm rv rc ha] at h
    cases h
    simp
  | true =>
    obtain ⟨x, y, -, -, -, -, he⟩ := GameManager.addRandomTile_of_available gm rv rc ha
    rw [he] at h
    cases hj : jsCellsSet gm.grid.cells (some (x : Int)) (some (y : Int))
      (some (Tile.new ⟨some (x : Int), some (y : Int)⟩ (if rv.below09 then 2 else 4))) with
    | error e => rw [hj] at h; cases h
    | ok c =>
      rw [hj] at h
      cases h
      simp

/-- C17 as stated fails: for a stored text that is not valid JSON, `JSON.parse` throws and
neither `getGameState` nor `setup` catches the `SyntaxError`; for a stored value that is
valid JSON but has no property `grid`, `setup` throws a `TypeError`. -/
theorem setup_propagates_decode_failure :
    LocalStorageManager.getGameState (some .notJson) = .error .syntaxError ∧
    GameManager.setup 4 (some .notJson) drawZero drawZero drawZero drawZero
      = .error .syntaxError ∧
    GameManager.setup 4 (some (.json .withoutGrid)) drawZero drawZero drawZero drawZero
      = .error .typeError :=
  ⟨rfl, rfl, rfl⟩

/-- C17 amended (loading the persisted state): when the stored value is absent (`getItem`
returns `null` or the empty text, or the text parses to a falsy value), `setup` does not
fail and starts a fresh game: the empty grid of the size of the manager with the start
tiles of two calls of `addRandomTile`, score 0 and `won`, `over`, `keepPlaying` false. -/
theorem setup_fresh_when_absent (size : Nat) (stateJSON : Option StoredText)
    (r1 r2 r3 r4 : MathRandom) (h : storedAbsent stateJSON = true) :
    ∃ gm1 gm, (GameManager.newGame size).addRandomTile r1 r2 = .ok gm1 ∧
      gm1.addRandomTile r3 r4 = .ok gm ∧
      GameManager.setup size stateJSON r1 r2 r3 r4 = .ok gm ∧
      gm.size = size ∧ gm.grid.size = size ∧ gm.grid.Placed ∧
      gm.score = 0 ∧ gm.over = false ∧ gm.won = false ∧ gm.keepPlaying = false := by
  have hp0 : (GameManager.newGame size).grid.Placed := Grid.Placed.empty size
  obtain ⟨gm1, h1, hp1⟩ := GameManager.addRandomTile_placed hp0 r1 r2
  obtain ⟨gm, h2, hp2⟩ := GameManager.addRandomTile_placed hp1 r3 r4
  have hsetup : GameManager.setup size stateJSON r1 r2 r3 r4 = .ok gm := by
    have hs : GameManager.setup size stateJSON r1 r2 r3 r4
        = (GameManager.newGame size).addStartTiles r1 r2 r3 r4 := by
      unfold storedAbsent at h
      unfold GameManager.setup LocalStorageManager.getGameState
      split at h <;> first | rfl | cases h
    rw [hs]
    unfold GameManager.addStartTiles
    rw [h1]
    exact h2
  obtain ⟨a1, a2, a3, a4, a5, a6⟩ := GameManager.addRandomTile_frame h1
  obtain ⟨b1, b2, b3, b4, b5, b6⟩ := GameManager.addRandomTile_frame h2
  refine ⟨gm1, gm, h1, h2, hsetup, ?_, ?_, hp2, ?_, ?_, ?_, ?_⟩
  · rw [b1, a1]; rfl
  · rw [b6, a6]; rfl
  · rw [b2, a2]; rfl
  · rw [b3, a3]; rfl
  · rw [b4, a4]; rfl
  · rw [b5, a5]; rfl

/-- No stored value, size 2 and the draws `0`: the fresh game holds two tiles of value 2,
in the cells `(0, 0)` and `(0, 1)`. -/
theorem setup_fresh_when_absent_witness :
    GameManager.setup 2 none drawZero drawZero drawZero drawZero
      = .ok (gameOn (gridOfRows 2 [[2, 0], [2, 0]])) ∧
    ∃ gm1 gm, (GameManager.newGame 2).addRandomTile drawZero drawZero = .ok gm1 ∧
      gm1.addRandomTile drawZero drawZero = .ok gm ∧
      GameManager.setup 2 none drawZero drawZero drawZero drawZero = .ok gm ∧
      gm.size = 2 ∧ gm.grid.size = 2 ∧ gm.grid.Placed ∧
      gm.score = 0 ∧ gm.over = false ∧ gm.won = false ∧ gm.keepPlaying = false :=
  ⟨rfl, setup_fresh_when_absent 2 none drawZero drawZero drawZero drawZero rfl⟩

/-- C18 (`findFarthestPosition`, refuted on the code by the slip of `cellContent`): on the
empty grid of size 4, from the cell `(0, 0)` with the vector of `right`, the claim has
the call return `farthest = (3, 0)` and `next = (4, 0)`; the code tests
`cellAvailable({ x: 1, y: 0 })`, which throws a `TypeError`.  The call returns only when
the first step leaves the grid, as from `(3, 0)`. -/
theorem findFarthestPosition_throws_inside_the_grid :
    (Grid.new 4 none).withinBounds ⟨0, 0⟩ = true ∧
    (gameOn (Grid.new 4 none)).findFarthestPosition ⟨0, 0⟩ (getVector .right)
      = .error .typeError ∧
    (gameOn (Grid.new 4 none)).findFarthestPosition ⟨3, 0⟩ (getVector .right)
      = .ok { farthest := ⟨3, 0⟩, next := ⟨4, 0⟩ } :=
  ⟨by decide, rfl, rfl⟩

/-! ## The order of the traversal -/

/-- The nested loops of `move` run the loop body over the cells of `visitOrder`. -/
theorem GameManager.traverse_eq_foldl_visitOrder (gm : GameManager) (d : Direction)
    (s : MoveState) :
    GameManager.traverse (getVector d) (gm.buildTraversals (getVector d)) s =
      (gm.visitOrder d).foldl (fun s c => GameManager.moveCell (getVector d) s c.1 c.2) s := by
  unfold GameManager.traverse GameManager.visitOrder
  generalize (gm.buildTraversals (getVector d)).x = xs
  generalize (gm.buildTraversals (getVector d)).y = ys
  induction xs generalizing s with
  | nil => rfl
  | cons x xs ih =>
    simp only [List.foldl_cons, List.flatMap_cons, List.foldl_append, List.foldl_map]
    exact ih _

theorem GameManager.buildTraversals_x (gm : GameManager) (d : Direction) :
    (gm.buildTraversals (getVector d)).x =
      if d = .right then (List.range gm.size).reverse else List.range gm.size := by
  cases d <;> simp [GameManager.buildTraversals, getVector]

theorem GameManager.buildTraversals_y (gm : GameManager) (d : Direction) :
    (gm.buildTraversals (getVector d)).y =
      if d = .down then (List.range gm.size).reverse else List.range gm.size := by
  cases d <;> simp [GameManager.buildTraversals, getVector]

theorem pairwise_gt_reverse_range (n : Nat) : (List.range n).reverse.Pairwise (· > ·) := by
  rw [List.pairwise_reverse]
  exact List.pairwise_lt_range n

theorem GameManager.visitOrder_pairwise (gm : GameManager) (d : Direction) :
    (gm.visitOrder d).Pairwise fun p q => ¬ closerToEdge d q p := by
  unfold GameManager.visitOrder
  rw [List.pairwise_flatMap, GameManager.buildTraversals_x, GameManager.buildTraversals_y]
  cases d
  · -- up
    simp only [reduceCtorEq, if_false]
    constructor
    · intro x _
      rw [List.pairwise_map]
      refine (List.pairwise_lt_range gm.size).imp ?_
      intro a b h
      simp only [closerToEdge]
      omega
    · refine (List.pairwise_lt_range gm.size).imp ?_
      intro x1 x2 h p hp q hq
      simp only [List.mem_map] at hp hq
      obtain ⟨_, _, rfl⟩ := hp
      obtain ⟨_, _, rfl⟩ := hq
      simp only [closerToEdge]
      omega
  · -- right
    simp only [reduceCtorEq, if_false, if_true]
    constructor
    · intro x _
      rw [List.pairwise_map]
      refine (List.pairwise_lt_range gm.size).imp ?_
      intro a b h
      simp only [closerToEdge]
      omega
    · refine (pairwise_gt_reverse_range gm.size).imp ?_
      intro x1 x2 h p hp q hq
      simp only [List.mem_map] at hp hq
      obtain ⟨_, _, rfl⟩ := hp
      obtain ⟨_, _, rfl⟩ := hq
      simp only [closerToEdge]
      omega
  · -- down
    simp only [reduceCtorEq, if_false, if_true]
    constructor
    · intro x _
      rw [List.pairwise_map]
      refine (pairwise_gt_reverse_range gm.size).imp ?_
      intro a b h
      simp only [closerToEdge]
      omega
    · refine (List.pairwise_lt_range gm.size).imp ?_
      intro x1 x2 h p hp q hq
      simp only [List.mem_map] at hp hq
      obtain ⟨_, _, rfl⟩ := hp
      obtain ⟨_, _, rfl⟩ := hq
      simp only [closerToEdge]
      omega
  · -- left
    simp only [reduceCtorEq, if_false]
    constructor
    · intro x _
      rw [List.pairwise_map]
      refine (List.pairwise_lt_range gm.size).imp ?_
      intro a b h
      simp only [closerToEdge]
      omega
    · refine (List.pairwise_lt_range gm.size).imp ?_
      intro x1 x2 h p hp q hq
      simp only [List.mem_map] at hp hq
      obtain ⟨_, _, rfl⟩ := hp
      obtain ⟨_, _, rfl⟩ := hq
      simp only [closerToEdge]
      omega

/-- C19 (traversal order): the four vectors are those of the specification; for every
size and direction the `x` and `y` lists of `buildTraversals` are permutations of
`0 .. N-1` without repeats; `x` runs from `N-1` down to `0` for right and from `0` up to
`N-1` for left, `y` from `N-1` down to `0` for down and from `0` up to `N-1` for up; and
in the order in which the loops of `move` visit the cells, no cell comes before a cell
of its line that is closer to the edge the tiles travel to. -/
theorem traversal_order (gm : GameManager) (d : Direction) :
    (getVector .up = ⟨0, -1⟩ ∧ getVector .right = ⟨1, 0⟩ ∧ getVector .down = ⟨0, 1⟩ ∧
      getVector .left = ⟨-1, 0⟩) ∧
    ((gm.buildTraversals (getVector d)).x.Perm (List.range gm.size) ∧
      (gm.buildTraversals (getVector d)).x.Nodup ∧
      (gm.buildTraversals (getVector d)).y.Perm (List.range gm.size) ∧
      (gm.buildTraversals (getVector d)).y.Nodup) ∧
    ((gm.buildTraversals (getVector .right)).x = (List.range gm.size).reverse ∧
      (gm.buildTraversals (getVector .left)).x = List.range gm.size ∧
      (gm.buildTraversals (getVector .down)).y = (List.range gm.size).reverse ∧
      (gm.buildTraversals (getVector .up)).y = List.range gm.size) ∧
    (∀ s, GameManager.traverse (getVector d) (gm.buildTraversals (getVector d)) s =
      (gm.visitOrder d).foldl (fun s c => GameManager.moveCell (getVector d) s c.1 c.2) s) ∧
    (gm.visitOrder d).Pairwise (fun p q => ¬ closerToEdge d q p) := by
  refine ⟨⟨rfl, rfl, rfl, rfl⟩, ?_, ?_, GameManager.traverse_eq_foldl_visitOrder gm d,
    GameManager.visitOrder_pairwise gm d⟩
  · rw [GameManager.buildTraversals_x, GameManager.buildTraversals_y]
    refine ⟨?_, ?_, ?_, ?_⟩
    · split
      · exact List.reverse_perm _
      · exact List.Perm.refl _
    · split
      · exact List.nodup_reverse.2 (List.nodup_range _)
      · exact List.nodup_range _
    · split
      · exact List.reverse_perm _
      · exact List.Perm.refl _
    · split
      · exact List.nodup_reverse.2 (List.nodup_range _)
      · exact List.nodup_range _
  · simp [GameManager.buildTraversals_x, GameManager.buildTraversals_y]

/-! ## The sum of the tile values -/

theorem GameManager.prepareTiles_sumValues (gm : GameManager) :
    gm.prepareTiles.grid.sumValues = gm.grid.sumValues := by
  unfold Grid.sumValues
  have hsize : gm.prepareTiles.grid.size = gm.grid.size := rfl
  rw [hsize]
  congr 1
  apply List.map_congr_left
  rintro ⟨x, y⟩ hc
  have hb := (Grid.mem_eachCellOrder _ _).1 hc
  unfold Grid.valueAt
  rw [GameManager.readAt_prepareTiles, if_pos ⟨hb.1, hb.2⟩]
  cases readAt gm.grid.cells x y with
  | none => rfl
  | some t => simp [GameManager.prepareTile_value]

theorem Grid.nodup_eachCellOrder (n : Nat) : (Grid.eachCellOrder n).Nodup := by
  refine (Grid.pairwise_eachCellOrder n).imp ?_
  rintro a b h rfl
  omega

theorem sum_map_of_changed_at {α : Type} (l : List α) (hn : l.Nodup) (a : α) (ha : a ∈ l)
    (f g : α → Nat) (h0 : f a = 0) (hg : ∀ b, b ≠ a → g b = f b) :
    (l.map g).sum = (l.map f).sum + g a := by
  induction l with
  | nil => cases ha
  | cons b l ih =>
    rw [List.nodup_cons] at hn
    simp only [List.map_cons, List.sum_cons]
    by_cases hba : b = a
    · subst hba
      have hsame : l.map g = l.map f := by
        apply List.map_congr_left
        intro c hc
        exact hg c (fun hcb => hn.1 (hcb ▸ hc))
      rw [hsame, h0]
      omega
    · have hal : a ∈ l := by
        rcases List.mem_cons.1 ha with h | h
        · exact absurd h.symm hba
        · exact h
      rw [ih hn.2 hal, hg b hba]
      omega

/-- A spawn on a grid with its `size` columns adds the value of the spawned tile to the
sum of the values when a cell is available, and nothing otherwise. -/
theorem GameManager.addRandomTile_sumValues (gm : GameManager) (rv rc : MathRandom)
    (hshape : gm.grid.cells.length = gm.grid.size) :
    ∃ gm2, gm.addRandomTile rv rc = .ok gm2 ∧
      gm2.grid.sumValues =
        gm.grid.sumValues + (if gm.grid.cellsAvailable then spawnValue rv else 0) := by
  cases ha : gm.grid.cellsAvailable with
  | false => exact ⟨gm, GameManager.addRandomTile_of_full gm rv rc ha, by simp⟩
  | true =>
    obtain ⟨x, y, hx, hy, hn, -, he⟩ := GameManager.addRandomTile_of_available gm rv rc ha
    obtain ⟨c, hc, -, hread⟩ := jsCellsSet_readAt gm.grid.cells x y
      (some (Tile.new ⟨some (x : Int), some (y : Int)⟩ (if rv.below09 then 2 else 4)))
      (by rw [hshape]; exact hx)
    refine ⟨_, by rw [he, hc]; rfl, ?_⟩
    simp only [if_true]
    unfold Grid.sumValues
    show ((Grid.eachCellOrder gm.grid.size).map
      (Grid.valueAt { gm.grid with cells := c })).sum = _
    rw [sum_map_of_changed_at _ (Grid.nodup_eachCellOrder _) (x, y)
      ((Grid.mem_eachCellOrder _ _).2 ⟨hx, hy⟩) gm.grid.valueAt]
    · congr 1
      simp only [Grid.valueAt, hread]
      simp [spawnValue, Tile.new, Tile.value]
    · simp [Grid.valueAt, hn]
    · rintro ⟨x2, y2⟩ hne
      simp only [Grid.valueAt, hread]
      rw [if_neg]
      intro h
      exact hne (by rw [h.1, h.2])

/-! ## The engine over a way to read a cell -/

theorem Grid.cellAvailable_eq_cellAvailableWith (g : Grid) (cell : Pos) :
    g.cellAvailable cell = g.cellAvailableWith Grid.cellContent cell := rfl

theorem GameManager.findFarthestLoop_eq_findFarthestLoopWith (gm : GameManager)
    (vector : Pos) (fuel : Nat) (cell : Pos) :
    gm.findFarthestLoop vector fuel cell =
      gm.findFarthestLoopWith Grid.cellContent vector fuel cell := by
  induction fuel generalizing cell with
  | zero => rfl
  | succ n ih =>
    simp only [GameManager.findFarthestLoop, GameManager.findFarthestLoopWith, ih,
      Grid.cellAvailable_eq_cellAvailableWith]

theorem GameManager.findFarthestPosition_eq_findFarthestPositionWith (gm : GameManager)
    (cell vector : Pos) :
    gm.findFarthestPosition cell vector =
      gm.findFarthestPositionWith Grid.cellContent cell vector :=
  GameManager.findFarthestLoop_eq_findFarthestLoopWith gm vector _ cell

theorem GameManager.tileMatchesAt_eq_tileMatchesAtWith (gm : GameManager) (x y : Nat)
    (tile : Tile) (ds : List Direction) :
    gm.tileMatchesAt x y tile ds = gm.tileMatchesAtWith Grid.cellContent x y tile ds := by
  induction ds with
  | nil => rfl
  | cons d ds ih => simp only [GameManager.tileMatchesAt, GameManager.tileMatchesAtWith, ih]

theorem GameManager.tileMatchesLoop_eq_tileMatchesLoopWith (gm : GameManager)
    (cells : List (Nat × Nat)) :
    gm.tileMatchesLoop cells = gm.tileMatchesLoopWith Grid.cellContent cells := by
  induction cells with
  | nil => rfl
  | cons c cells ih =>
    obtain ⟨x, y⟩ := c
    simp only [GameManager.tileMatchesLoop, GameManager.tileMatchesLoopWith, ih,
      GameManager.tileMatchesAt_eq_tileMatchesAtWith]

theorem GameManager.movesAvailable_eq_movesAvailableWith (gm : GameManager) :
    gm.movesAvailable = gm.movesAvailableWith Grid.cellContent := by
  simp only [GameManager.movesAvailable, GameManager.movesAvailableWith,
    GameManager.tileMatchesAvailable, GameManager.tileMatchesAvailableWith,
    GameManager.tileMatchesLoop_eq_tileMatchesLoopWith]

theorem GameManager.moveCell_eq_moveCellWith (vector : Pos) (s : MoveState) (x y : Nat) :
    GameManager.moveCell vector s x y =
      GameManager.moveCellWith Grid.cellContent vector s x y := by
  simp only [GameManager.moveCell, GameManager.moveCellWith,
    GameManager.findFarthestPosition_eq_findFarthestPositionWith]

theorem GameManager.traverse_eq_traverseWith (vector : Pos) (tr : Traversals)
    (s : MoveState) :
    GameManager.traverse vector tr s =
      GameManager.traverseWith Grid.cellContent vector tr s := by
  have h : GameManager.moveCell vector = GameManager.moveCellWith Grid.cellContent vector := by
    funext s x y
    exact GameManager.moveCell_eq_moveCellWith vector s x y
  simp only [GameManager.traverse, GameManager.traverseWith, h]

theorem GameManager.afterMove_eq_afterMoveWith (s : MoveState) (rv rc : MathRandom) :
    GameManager.afterMove s rv rc = GameManager.afterMoveWith Grid.cellContent s rv rc := by
  simp only [GameManager.afterMove, GameManager.afterMoveWith,
    GameManager.movesAvailable_eq_movesAvailableWith]

/-- Method `move` is the engine with `cellContent` as the way to read a cell. -/
theorem GameManager.move_eq_moveWith (gm : GameManager) (d : Direction)
    (rv rc : MathRandom) : gm.move d rv rc = gm.moveWith Grid.cellContent d rv rc := by
  simp only [GameManager.move, GameManager.moveWith, GameManager.moveUnguarded,
    GameManager.moveUnguardedWith, GameManager.traverse_eq_traverseWith,
    GameManager.afterMove_eq_afterMoveWith]

/-- The lookup `cellContent` of the source is sound: it returns only outside the grid,
and nothing is stored there. -/
theorem Grid.cellContent_sound : CellLookup.Sound Grid.cellContent := by
  intro g cell v h
  unfold Grid.cellContent at h
  unfold Grid.storedContent
  split at h
  · cases h
  · rename_i hb
    cases h
    simp [hb]

theorem Grid.readCells_sound : CellLookup.Sound Grid.readCells := by
  intro g cell v h
  cases h
  rfl

/-! ## What one round of the loops of `move` does -/

theorem Pos.shift_zero (c v : Pos) : c.shift v 0 = c := by
  simp [Pos.shift]

theorem Pos.shift_succ (c v : Pos) (k : Nat) :
    c.shift v (k + 1) = (⟨c.x + v.x, c.y + v.y⟩ : Pos).shift v k := by
  simp only [Pos.shift, Pos.mk.injEq]
  constructor <;> push_cast <;> ring

theorem Pos.shift_succ_right (c v : Pos) (k : Nat) :
    c.shift v (k + 1) = ⟨(c.shift v k).x + v.x, (c.shift v k).y + v.y⟩ := by
  simp only [Pos.shift, Pos.mk.injEq]
  constructor <;> push_cast <;> ring

/-- Moving `k` steps along the vector of a direction comes back to the start only for
`k = 0`. -/
theorem Pos.shift_getVector_eq (c : Pos) (d : Direction) (k : Nat)
    (h : c.shift (getVector d) k = c) : k = 0 := by
  cases c with
  | mk cx cy =>
    cases d <;> simp only [Pos.shift, getVector, Pos.mk.injEq] at h <;> omega

theorem Grid.storedContent_eq_some {g : Grid} {cell : Pos} {t : Tile}
    (h : g.storedContent cell = some t) :
    ∃ x y : Nat, cell = cellPos x y ∧ x < g.size ∧ y < g.size ∧
      readAt g.cells x y = some t := by
  unfold Grid.storedContent at h
  split at h
  · rename_i hb
    obtain ⟨x, y, rfl, hx, hy⟩ := (g.withinBounds_iff cell).1 hb
    exact ⟨x, y, rfl, hx, hy, by simpa using h⟩
  · cases h

theorem Grid.storedContent_cellPos (g : Grid) {x y : Nat} (hx : x < g.size)
    (hy : y < g.size) : g.storedContent (cellPos x y) = readAt g.cells x y := by
  have hb : g.withinBounds (cellPos x y) = true := (g.withinBounds_iff _).2 ⟨x, y, rfl, hx, hy⟩
  unfold Grid.storedContent
  rw [hb]
  simp [cellPos]

theorem Grid.cellAvailableWith_eq_ok {look : CellLookup} {g : Grid} {cell : Pos} {b : Bool}
    (h : g.cellAvailableWith look cell = .ok b) :
    ∃ v, look g cell = .ok v ∧ b = !v.isSome := by
  unfold Grid.cellAvailableWith Grid.cellOccupiedWith at h
  cases hl : look g cell with
  | error e => rw [hl] at h; cases h
  | ok v =>
    rw [hl] at h
    cases h
    exact ⟨v, rfl, rfl⟩

/-- What `findFarthestPosition` returns over a sound way to read a cell: `farthest` is
`k` steps from the cell and `next` one step further, the cells passed are within bounds
and empty, and `next` is out of bounds or occupied. -/
theorem GameManager.findFarthestLoopWith_spec {look : CellLookup} (hl : look.Sound)
    (gm : GameManager) (v : Pos) (fuel : Nat) (c : Pos) (ps : Positions)
    (h : gm.findFarthestLoopWith look v fuel c = .ok ps) :
    ∃ k : Nat, ps.farthest = c.shift v k ∧ ps.next = c.shift v (k + 1) ∧
      (∀ i, 1 ≤ i → i ≤ k → gm.grid.withinBounds (c.shift v i) = true ∧
        gm.grid.storedContent (c.shift v i) = none) ∧
      (gm.grid.withinBounds ps.next = true → gm.grid.storedContent ps.next ≠ none) := by
  induction fuel generalizing c with
  | zero => cases h
  | succ n ih =>
    unfold GameManager.findFarthestLoopWith at h
    simp only at h
    split at h
    · rename_i hb
      split at h
      · cases h
      · rename_i hav
        obtain ⟨k, h1, h2, h3, h4⟩ := ih _ h
        obtain ⟨w, hw, hb2⟩ := Grid.cellAvailableWith_eq_ok hav
        have hnone : gm.grid.storedContent ⟨c.x + v.x, c.y + v.y⟩ = none := by
          rw [← hl _ _ _ hw]
          cases w with
          | none => rfl
          | some t => simp at hb2
        refine ⟨k + 1, ?_, ?_, ?_, h4⟩
        · rw [h1, Pos.shift_succ]
        · rw [h2, Pos.shift_succ c v (k + 1)]
        · intro i hi1 hik
          obtain ⟨j, rfl⟩ : ∃ j, i = j + 1 := ⟨i - 1, by omega⟩
          rw [Pos.shift_succ]
          by_cases hj : j = 0
          · subst hj
            rw [Pos.shift_zero]
            exact ⟨hb, hnone⟩
          · exact h3 j (by omega) (by omega)
      · rename_i hav
        cases h
        obtain ⟨w, hw, hb2⟩ := Grid.cellAvailableWith_eq_ok hav
        refine ⟨0, (Pos.shift_zero _ _).symm, ?_, ?_, ?_⟩
        · simp [Pos.shift]
        · intro i hi1 hik
          omega
        · intro _
          rw [← hl _ _ _ hw]
          cases w with
          | none => simp at hb2
          | some t => simp
    · rename_i hb
      cases h
      refine ⟨0, (Pos.shift_zero _ _).symm, ?_, ?_, ?_⟩
      · simp [Pos.shift]
      · intro i hi1 hik
        omega
      · intro hb2
        simp only at hb2
        rw [hb2] at hb
        exact absurd rfl hb

theorem Grid.Placed.put {g : Grid} (hp : g.Placed) {x y : Nat} (hx : x < g.size)
    (hy : y < g.size) (v : Option Tile)
    (hv : ∀ t, v = some t → t.x = some (x : Int) ∧ t.y = some (y : Int)) :
    jsCellsSet g.cells (some (x : Int)) (some (y : Int)) v = .ok (g.put x y v).cells ∧
      (g.put x y v).Placed ∧
      ∀ x2 y2, readAt (g.put x y v).cells x2 y2 =
        if x2 = x ∧ y2 = y then v else readAt g.cells x2 y2 := by
  have hx2 : x < g.cells.length := by rw [hp.1]; exact hx
  have hy2 : y < (g.cells.getD x []).length := by rw [hp.row_length hx]; exact hy
  obtain ⟨h1, h2⟩ := hp.set hx hy v hv
  exact ⟨h1, h2, fun x2 y2 => readAt_set _ _ _ _ hx2 hy2 x2 y2⟩

theorem Grid.Placed.tile_x {g : Grid} (hp : g.Placed) {x y : Nat} (hx : x < g.size)
    (hy : y < g.size) {t : Tile} (h : readAt g.cells x y = some t) :
    t.x = some (x : Int) ∧ t.y = some (y : Int) :=
  hp.2.2 (x, y) ((Grid.mem_eachCellOrder _ _).2 ⟨hx, hy⟩) t h

theorem positionsEqual_updatePosition (x y fx fy : Nat) (tile : Tile) :
    positionsEqual (cellPos x y) (tile.updatePosition (cellPos fx fy)) =
      decide (x = fx ∧ y = fy) := by
  unfold positionsEqual
  rw [Tile.updatePosition_x, Tile.updatePosition_y]
  simp [cellPos]

/-- The branch `self.moveTile(tile, positions.farthest)` of the loop body, for the tile of
the cell `(x, y)` and a target cell within the grid. -/
theorem GameManager.slideTile_outcome (s : MoveState) {x y fx fy : Nat} {tile : Tile}
    (next : Pos) (hp : s.gm.grid.Placed) (hx : x < s.gm.grid.size) (hy : y < s.gm.grid.size)
    (hfx : fx < s.gm.grid.size) (hfy : fy < s.gm.grid.size)
    (htile : readAt s.gm.grid.cells x y = some tile) :
    ∃ g2 : Grid, g2.size = s.gm.grid.size ∧ g2.Placed ∧
      (∀ x2 y2, readAt g2.cells x2 y2 =
        if x2 = fx ∧ y2 = fy then some (tile.updatePosition (cellPos fx fy))
        else if x2 = x ∧ y2 = y then none else readAt s.gm.grid.cells x2 y2) ∧
      GameManager.slideTile s (cellPos x y) tile { farthest := cellPos fx fy, next := next } =
        { s with gm := { s.gm with grid := g2 },
                 moved := if x = fx ∧ y = fy then s.moved else true } := by
  obtain ⟨htx, hty⟩ := hp.tile_x hx hy htile
  obtain ⟨a1, a2, a3⟩ := hp.put hx hy none (by intro t e; cases e)
  have hfx1 : fx < (s.gm.grid.put x y none).size := hfx
  have hfy1 : fy < (s.gm.grid.put x y none).size := hfy
  obtain ⟨b1, b2, b3⟩ := a2.put hfx1 hfy1 (some (tile.updatePosition (cellPos fx fy)))
    (by intro t e; cases e; exact ⟨Tile.updatePosition_x _ _, Tile.updatePosition_y _ _⟩)
  refine ⟨(s.gm.grid.put x y none).put fx fy (some (tile.updatePosition (cellPos fx fy))),
    rfl, b2, ?_, ?_⟩
  · intro x2 y2
    rw [b3, a3]
  · unfold GameManager.slideTile GameManager.moveTile
    rw [htx, hty, a1]
    simp only
    have b1' : jsCellsSet (s.gm.grid.put x y none).cells (some (cellPos fx fy).x)
        (some (cellPos fx fy).y) (some (tile.updatePosition (cellPos fx fy))) =
        .ok ((s.gm.grid.put x y none).put fx fy
          (some (tile.updatePosition (cellPos fx fy)))).cells := b1
    rw [b1']
    simp only [positionsEqual_updatePosition, decide_eq_true_eq]
    rfl

/-- The merge branch of the loop body, for the tile of the cell `(x, y)` and the tile
`other` of another cell `(nx, ny)`. -/
theorem GameManager.mergeTiles_outcome (s : MoveState) {x y nx ny : Nat} {tile : Tile}
    (other : Tile) (farthest : Pos) (hp : s.gm.grid.Placed) (hx : x < s.gm.grid.size)
    (hy : y < s.gm.grid.size) (hnx : nx < s.gm.grid.size) (hny : ny < s.gm.grid.size)
    (htile : readAt s.gm.grid.cells x y = some tile) (hne : ¬ (x = nx ∧ y = ny)) :
    ∃ g2 : Grid, g2.size = s.gm.grid.size ∧ g2.Placed ∧
      (∀ x2 y2, readAt g2.cells x2 y2 =
        if x2 = nx ∧ y2 = ny then some (mergedTile tile other nx ny)
        else if x2 = x ∧ y2 = y then none else readAt s.gm.grid.cells x2 y2) ∧
      GameManager.mergeTiles s (cellPos x y) tile other
          { farthest := farthest, next := cellPos nx ny } =
        { gm := { s.gm with
                    grid := g2
                    score := s.gm.score + tile.value * 2
                    won := if tile.value * 2 = 2048 then true else s.gm.won }
          moved := true
          merges := s.merges ++ [mergedTile tile other nx ny]
          error := none } := by
  obtain ⟨htx, hty⟩ := hp.tile_x hx hy htile
  have hm0 : ((Tile.new (cellPos nx ny).toJs (tile.value * 2)).setMergedFrom tile other) =
      Tile.merged (some (nx : Int)) (some (ny : Int)) (tile.value * 2) none tile other := rfl
  obtain ⟨a1, a2, a3⟩ := hp.put hnx hny
    (some (Tile.merged (some (nx : Int)) (some (ny : Int)) (tile.value * 2) none tile other))
    (by intro t e; cases e; exact ⟨rfl, rfl⟩)
  obtain ⟨b1, b2, b3⟩ := Grid.Placed.put a2 (x := x) (y := y) hx hy none (by intro t e; cases e)
  obtain ⟨c1, c2, c3⟩ := Grid.Placed.put b2 (x := nx) (y := ny) hnx hny
    (some (mergedTile tile other nx ny)) (by intro t e; cases e; exact ⟨rfl, rfl⟩)
  refine ⟨((s.gm.grid.put nx ny (some (Tile.merged (some (nx : Int)) (some (ny : Int))
    (tile.value * 2) none tile other))).put x y none).put nx ny
    (some (mergedTile tile other nx ny)), rfl, c2, ?_, ?_⟩
  · intro x2 y2
    rw [c3, b3, a3]
    by_cases h1 : x2 = nx ∧ y2 = ny
    · simp [h1]
    · simp only [h1, if_false]
  · unfold GameManager.mergeTiles
    simp only [hm0]
    have e1 : (Tile.merged (some (nx : Int)) (some (ny : Int)) (tile.value * 2) none tile
        other).x = some (nx : Int) := rfl
    have e2 : (Tile.merged (some (nx : Int)) (some (ny : Int)) (tile.value * 2) none tile
        other).y = some (ny : Int) := rfl
    simp only [Grid.insertTile, Grid.removeTile, e1, e2, a1, htx, hty]
    have b1' : jsCellsSet (s.gm.grid.put nx ny (some (Tile.merged (some (nx : Int))
        (some (ny : Int)) (tile.value * 2) none tile other))).cells (some (x : Int))
        (some (y : Int)) none = .ok ((s.gm.grid.put nx ny (some (Tile.merged (some (nx : Int))
        (some (ny : Int)) (tile.value * 2) none tile other))).put x y none).cells := b1
    simp only [Except.map, b1']
    have hsome : (readAt ((s.gm.grid.put nx ny (some (Tile.merged (some (nx : Int))
        (some (ny : Int)) (tile.value * 2) none tile other))).put x y none).cells
        nx ny).isSome = true := by
      rw [b3, a3]
      have : ¬ (nx = x ∧ ny = y) := fun h => hne ⟨h.1.symm, h.2.symm⟩
      simp [this]
    have hconv : Grid.converge ((s.gm.grid.put nx ny (some (Tile.merged (some (nx : Int))
        (some (ny : Int)) (tile.value * 2) none tile other))).put x y none) (cellPos nx ny)
        ((Tile.merged (some (nx : Int)) (some (ny : Int)) (tile.value * 2) none tile
          other).setMergedFrom (tile.updatePosition (cellPos nx ny)) other) =
        ((s.gm.grid.put nx ny (some (Tile.merged (some (nx : Int))
        (some (ny : Int)) (tile.value * 2) none tile other))).put x y none).put nx ny
          (some (mergedTile tile other nx ny)) := by
      unfold Grid.converge
      simp only [cellPos, Int.toNat_ofNat]
      rw [if_pos hsome]
      rfl
    have hpe : positionsEqual (cellPos x y) (tile.updatePosition (cellPos nx ny)) = false := by
      rw [positionsEqual_updatePosition]
      simpa using hne
    have hval : (Tile.merged (some (nx : Int)) (some (ny : Int)) (tile.value * 2) none tile
        other).value = tile.value * 2 := rfl
    simp only [hpe, hval, Bool.false_eq_true, if_false]
    show MoveState.mk _ _ _ _ = _
    congr 1
    congr 1

theorem canMerge_eq_some {tile other : Tile} {next : Option Tile}
    (h : canMerge tile next = some other) :
    next = some other ∧ other.value = tile.value ∧ other.mergedFrom = none := by
  unfold canMerge at h
  cases next with
  | none => cases h
  | some o =>
    simp only at h
    split at h
    · rename_i hc
      cases h
      refine ⟨rfl, hc.1, ?_⟩
      have := hc.2
      cases hm : other.mergedFrom with
      | none => rfl
      | some p => simp [hm] at this
    · cases h

theorem cellPos_injective {x y x2 y2 : Nat} (h : cellPos x y = cellPos x2 y2) :
    x = x2 ∧ y = y2 := by
  simp only [cellPos, Pos.mk.injEq] at h
  omega

/-- The loop body of `move`, over a sound way to read a cell and on a grid that satisfies
the placement invariant, does one of the four things of `StepOutcome`. -/
theorem GameManager.moveCellWith_outcome {look : CellLookup} (hl : look.Sound)
    (d : Direction) (s : MoveState) (x y : Nat) (hp : s.gm.grid.Placed) :
    StepOutcome d s x y (GameManager.moveCellWith look (getVector d) s x y) := by
  unfold GameManager.moveCellWith
  cases he : s.error with
  | some e => exact .skipped rfl
  | none =>
    simp only
    cases h1 : look s.gm.grid ⟨x, y⟩ with
    | error e => exact .thrown e rfl
    | ok v =>
      cases v with
      | none => exact .skipped rfl
      | some tile =>
        simp only
        have hst := hl _ _ _ h1
        obtain ⟨x', y', hc, hx', hy', htile'⟩ := Grid.storedContent_eq_some hst.symm
        obtain ⟨hxx, hyy⟩ := cellPos_injective (x := x) (y := y) hc
        subst hxx
        subst hyy
        cases h2 : s.gm.findFarthestPositionWith look ⟨x, y⟩ (getVector d) with
        | error e => exact .thrown e rfl
        | ok ps =>
          simp only
          obtain ⟨k, hf, hn, hpass, -⟩ :=
            GameManager.findFarthestLoopWith_spec hl _ _ _ _ _ h2
          cases h3 : look s.gm.grid ps.next with
          | error e => exact .thrown e rfl
          | ok nv =>
            simp only
            have hnv := hl _ _ _ h3
            cases h4 : canMerge tile nv with
            | some other =>
              simp only
              obtain ⟨m1, m2, m3⟩ := canMerge_eq_some h4
              subst m1
              obtain ⟨nx, ny, hnc, hnx, hny, hother⟩ := Grid.storedContent_eq_some hnv.symm
              have hk : cellPos nx ny = (cellPos x y).shift (getVector d) (k + 1) := by
                rw [← hnc, hn]
                rfl
              have hne : ¬ (x = nx ∧ y = ny) := by
                rintro ⟨rfl, rfl⟩
                have := Pos.shift_getVector_eq _ _ _ hk.symm
                omega
              obtain ⟨g2, q1, q2, q3, q4⟩ := GameManager.mergeTiles_outcome s
                other ps.farthest hp hx' hy' hnx hny htile' hne
              have hps : ps = { farthest := ps.farthest, next := cellPos nx ny } := by
                cases ps
                simp only [Positions.mk.injEq, true_and]
                exact hnc
              rw [hps]
              exact .merged tile other nx ny k g2 hx' hy' htile' hnx hny hk hother m2 m3
                q1 q2 q3 q4
            | none =>
              simp only
              have hfb : ∃ fx fy : Nat, ps.farthest = cellPos fx fy ∧ fx < s.gm.grid.size ∧
                  fy < s.gm.grid.size ∧ (k = 0 ∨ readAt s.gm.grid.cells fx fy = none) := by
                by_cases hk0 : k = 0
                · subst hk0
                  rw [Pos.shift_zero] at hf
                  exact ⟨x, y, hf, hx', hy', Or.inl rfl⟩
                · obtain ⟨hb, hnone⟩ := hpass k (by omega) (Nat.le_refl _)
                  obtain ⟨fx, fy, hfc, hfx, hfy⟩ := (s.gm.grid.withinBounds_iff _).1 hb
                  refine ⟨fx, fy, by rw [hf]; exact hfc, hfx, hfy, Or.inr ?_⟩
                  have hfc' : (Pos.mk (x : Int) (y : Int)).shift (getVector d) k = cellPos fx fy := hfc
                  rw [hfc', Grid.storedContent_cellPos _ hfx hfy] at hnone
                  exact hnone
              obtain ⟨fx, fy, hfc, hfx, hfy, hfree⟩ := hfb
              have hk : cellPos fx fy = (cellPos x y).shift (getVector d) k := by
                rw [← hfc, hf]
                rfl
              obtain ⟨g2, q1, q2, q3, q4⟩ := GameManager.slideTile_outcome s ps.next hp
                hx' hy' hfx hfy htile'
              have hps : ps = { farthest := cellPos fx fy, next := ps.next } := by
                cases ps
                simp only [Positions.mk.injEq, and_true]
                exact hfc
              have hiff : (x = fx ∧ y = fy) ↔ k = 0 := by
                constructor
                · rintro ⟨rfl, rfl⟩
                  exact Pos.shift_getVector_eq _ _ _ hk.symm
                · intro hk0
                  subst hk0
                  rw [Pos.shift_zero] at hk
                  obtain ⟨a, b⟩ := cellPos_injective hk
                  exact ⟨a.symm, b.symm⟩
              rw [hps]
              change StepOutcome d s x y (slideTile s (cellPos x y) tile _)
              rw [q4]
              refine .slid tile fx fy k g2 hx' hy' htile' hfx hfy hk hfree q1 q2 q3 ?_
              simp only [hiff]

/-! ## The invariants of the loops of `move` -/

theorem sum_map_add_of_changed_at {α : Type} (l : List α) (hn : l.Nodup) (a : α) (ha : a ∈ l)
    (f g : α → Nat) (hg : ∀ b, b ≠ a → g b = f b) :
    (l.map g).sum + f a = (l.map f).sum + g a := by
  induction l with
  | nil => cases ha
  | cons b l ih =>
    rw [List.nodup_cons] at hn
    simp only [List.map_cons, List.sum_cons]
    by_cases hba : b = a
    · subst hba
      have hsame : l.map g = l.map f := by
        apply List.map_congr_left
        intro c hc
        exact hg c (fun hcb => hn.1 (hcb ▸ hc))
      rw [hsame]
      omega
    · have hal : a ∈ l := by
        rcases List.mem_cons.1 ha with h | h
        · exact absurd h.symm hba
        · exact h
      have := ih hn.2 hal
      rw [hg b hba]
      omega

/-- A function on the cells of a list without duplicates that changes at the two cells
`a` and `b` only: the sums before and after differ by the changes there. -/
theorem sum_map_add_of_changed_at_two {α : Type} [DecidableEq α] (l : List α) (hn : l.Nodup)
    (a b : α) (ha : a ∈ l) (hb : b ∈ l) (hab : a ≠ b) (f g : α → Nat)
    (hg : ∀ c, c ≠ a → c ≠ b → g c = f c) :
    (l.map g).sum + f a + f b = (l.map f).sum + g a + g b := by
  have h1 := sum_map_add_of_changed_at l hn a ha f (fun c => if c = a then g a else f c)
    (fun c hc => by simp [hc])
  have h2 := sum_map_add_of_changed_at l hn b hb (fun c => if c = a then g a else f c) g
    (fun c hc => by
      by_cases hca : c = a
      · subst hca; simp
      · simp only [hca, if_false]; exact hg c hca hc)
  simp only [if_true, if_neg (Ne.symm hab)] at h1 h2
  omega

theorem Grid.tileCount_eq_sum (g : Grid) :
    g.tileCount = ((Grid.eachCellOrder g.size).map fun c =>
      if (readAt g.cells c.1 c.2).isSome then 1 else 0).sum := by
  unfold Grid.tileCount
  induction Grid.eachCellOrder g.size with
  | nil => rfl
  | cons c l ih =>
    simp only [List.filter_cons, List.map_cons, List.sum_cons]
    split
    · simp only [List.length_cons, ih]; omega
    · simp only [ih]; omega

theorem Grid.Placed.lt_of_readAt {g : Grid} (hp : g.Placed) {x y : Nat} {t : Tile}
    (h : readAt g.cells x y = some t) : x < g.size ∧ y < g.size := by
  unfold readAt at h
  simp only [List.getD_eq_getElem?_getD] at h
  by_cases hx : x < g.cells.length
  · have hrow : (g.cells[x]?).getD [] = g.cells[x] := by simp [hx]
    rw [hrow] at h
    have hl := hp.2.1 _ (List.getElem_mem hx)
    by_cases hy : y < g.cells[x].length
    · exact ⟨by rw [← hp.1]; exact hx, by rw [← hl]; exact hy⟩
    · rw [List.getElem?_eq_none (Nat.le_of_not_lt hy)] at h
      cases h
  · rw [List.getElem?_eq_none (Nat.le_of_not_lt hx)] at h
    cases h

/-- Two grids of the same size that differ as after a slide or a merge: the cell `a`
holds the tile `v`, the cell `b`, when it is another cell, is empty, every other cell is
as before. -/
theorem Grid.sumValues_of_moved {g g2 : Grid} {ax ay bx byy : Nat} {v : Tile}
    (hsize : g2.size = g.size) (ha : ax < g.size ∧ ay < g.size) (hb : bx < g.size ∧ byy < g.size)
    (hread : ∀ x2 y2, readAt g2.cells x2 y2 =
      if x2 = ax ∧ y2 = ay then some v
      else if x2 = bx ∧ y2 = byy then none else readAt g.cells x2 y2)
    (hv : v.value = g.valueAt (ax, ay) + (if ax = bx ∧ ay = byy then 0 else g.valueAt (bx, byy))) :
    g2.sumValues = g.sumValues := by
  unfold Grid.sumValues
  rw [hsize]
  have hma := (Grid.mem_eachCellOrder g.size (ax, ay)).2 ha
  have hmb := (Grid.mem_eachCellOrder g.size (bx, byy)).2 hb
  have hga : g2.valueAt (ax, ay) = v.value := by
    unfold Grid.valueAt
    rw [hread]
    simp
  by_cases hab : ax = bx ∧ ay = byy
  · obtain ⟨rfl, rfl⟩ := hab
    simp only [and_self, if_true, Nat.add_zero] at hv
    have := sum_map_add_of_changed_at _ (Grid.nodup_eachCellOrder g.size) (ax, ay) hma
      g.valueAt g2.valueAt (by
        rintro ⟨x2, y2⟩ hne
        unfold Grid.valueAt
        rw [hread]
        have h1 : ¬ (x2 = ax ∧ y2 = ay) := fun h => hne (by rw [h.1, h.2])
        simp only [h1, if_false])
    omega
  · rw [if_neg hab] at hv
    have hgb : g2.valueAt (bx, byy) = 0 := by
      unfold Grid.valueAt
      rw [hread]
      have h1 : ¬ (bx = ax ∧ byy = ay) := fun h => hab ⟨h.1.symm, h.2.symm⟩
      simp [h1]
    have := sum_map_add_of_changed_at_two _ (Grid.nodup_eachCellOrder g.size) (ax, ay) (bx, byy)
      hma hmb (by
        intro h
        simp only [Prod.mk.injEq] at h
        exact hab h) g.valueAt g2.valueAt (by
        rintro ⟨x2, y2⟩ hne1 hne2
        unfold Grid.valueAt
        rw [hread]
        have h1 : ¬ (x2 = ax ∧ y2 = ay) := fun h => hne1 (by rw [h.1, h.2])
        have h2 : ¬ (x2 = bx ∧ y2 = byy) := fun h => hne2 (by rw [h.1, h.2])
        simp only [h1, h2, if_false])
    omega

theorem Grid.tileCount_of_moved {g g2 : Grid} {ax ay bx byy : Nat} {v : Tile}
    (hsize : g2.size = g.size) (ha : ax < g.size ∧ ay < g.size) (hb : bx < g.size ∧ byy < g.size)
    (hread : ∀ x2 y2, readAt g2.cells x2 y2 =
      if x2 = ax ∧ y2 = ay then some v
      else if x2 = bx ∧ y2 = byy then none else readAt g.cells x2 y2) :
    g2.tileCount + ((if (readAt g.cells ax ay).isSome then 1 else 0) +
        (if ax = bx ∧ ay = byy then 0 else if (readAt g.cells bx byy).isSome then 1 else 0))
      = g.tileCount + 1 := by
  rw [Grid.tileCount_eq_sum, Grid.tileCount_eq_sum, hsize]
  have hma := (Grid.mem_eachCellOrder g.size (ax, ay)).2 ha
  have hmb := (Grid.mem_eachCellOrder g.size (bx, byy)).2 hb
  by_cases hab : ax = bx ∧ ay = byy
  · obtain ⟨rfl, rfl⟩ := hab
    simp only [and_self, if_true, Nat.add_zero]
    have := sum_map_add_of_changed_at _ (Grid.nodup_eachCellOrder g.size) (ax, ay) hma
      (fun c => if (readAt g.cells c.1 c.2).isSome then 1 else 0)
      (fun c => if (readAt g2.cells c.1 c.2).isSome then 1 else 0) (by
        rintro ⟨x2, y2⟩ hne
        simp only [hread]
        have h1 : ¬ (x2 = ax ∧ y2 = ay) := fun h => hne (by rw [h.1, h.2])
        simp only [h1, if_false])
    have hga : (if (readAt g2.cells ax ay).isSome then 1 else 0) = 1 := by
      rw [hread]
      simp
    dsimp only at this
    rw [hga] at this
    omega
  · rw [if_neg hab]
    have h1 : ¬ (bx = ax ∧ byy = ay) := fun h => hab ⟨h.1.symm, h.2.symm⟩
    have := sum_map_add_of_changed_at_two _ (Grid.nodup_eachCellOrder g.size) (ax, ay) (bx, byy)
      hma hmb (by
        intro h
        simp only [Prod.mk.injEq] at h
        exact hab h)
      (fun c => if (readAt g.cells c.1 c.2).isSome then 1 else 0)
      (fun c => if (readAt g2.cells c.1 c.2).isSome then 1 else 0) (by
        rintro ⟨x2, y2⟩ hne1 hne2
        simp only [hread]
        have h1 : ¬ (x2 = ax ∧ y2 = ay) := fun h => hne1 (by rw [h.1, h.2])
        have h2 : ¬ (x2 = bx ∧ y2 = byy) := fun h => hne2 (by rw [h.1, h.2])
        simp only [h1, h2, if_false])
    have hga : (if (readAt g2.cells ax ay).isSome then 1 else 0) = 1 := by
      rw [hread]
      simp
    have hgb : (if (readAt g2.cells bx byy).isSome then 1 else 0) = 0 := by
      rw [hread]
      simp [h1]
    dsimp only at this
    rw [hga, hgb] at this
    omega

theorem validValue_double {v : Nat} (h : validValue v) : validValue (v * 2) := by
  obtain ⟨h2, k, hk, rfl⟩ := h
  refine ⟨by omega, k + 1, by omega, ?_⟩
  rw [pow_succ]

theorem Tile.updatePosition_value (t : Tile) (p : Pos) : (t.updatePosition p).value = t.value := by
  cases t <;> rfl

theorem Tile.updatePosition_previousPosition (t : Tile) (p : Pos) :
    (t.updatePosition p).previousPosition = t.previousPosition := by
  cases t <;> rfl

theorem Tile.updatePosition_mergedFrom (t : Tile) (p : Pos) :
    (t.updatePosition p).mergedFrom = t.mergedFrom := by
  cases t <;> rfl

theorem Grid.hasEmptyCell_iff (g : Grid) :
    g.hasEmptyCell = true ↔ ∃ x y, x < g.size ∧ y < g.size ∧ readAt g.cells x y = none := by
  unfold Grid.hasEmptyCell
  rw [List.any_eq_true]
  constructor
  · rintro ⟨⟨x, y⟩, hc, hn⟩
    have hb := (Grid.mem_eachCellOrder _ _).1 hc
    exact ⟨x, y, hb.1, hb.2, by simpa using hn⟩
  · rintro ⟨x, y, hx, hy, hn⟩
    exact ⟨(x, y), (Grid.mem_eachCellOrder _ _).2 ⟨hx, hy⟩, by simp [hn]⟩

/-- One round of the loops keeps the invariant. -/
theorem LoopInvariant.keep_step {gm : GameManager} {d : Direction} {s s2 : MoveState} {x y : Nat}
    (hi : LoopInvariant gm s) (ho : StepOutcome d s x y s2) : LoopInvariant gm s2 := by
  cases ho with
  | thrown e h =>
    subst h
    exact ⟨hi.size, hi.over, hi.keepPlaying, hi.gridSize, hi.placed, hi.score, hi.won,
      hi.values, hi.sum, hi.count, hi.empty⟩
  | skipped h =>
    subst h
    exact hi
  | slid tile fx fy k g2 hx hy htile hfx hfy hk hfree hsize hplaced hread h =>
    subst h
    have hkz : k = 0 → fx = x ∧ fy = y := by
      intro h0
      subst h0
      rw [Pos.shift_zero] at hk
      exact cellPos_injective hk
    refine ⟨hi.size, hi.over, hi.keepPlaying, hsize.trans hi.gridSize, hplaced, hi.score,
      hi.won, ?_, ?_, ?_, ?_⟩
    · intro hv
      rintro ⟨x2, y2⟩ hc t ht
      simp only [Option.mem_def] at ht
      have ht2 : readAt g2.cells x2 y2 = some t := ht
      rw [hread] at ht2
      split at ht2
      · cases ht2
        rw [Tile.updatePosition_value]
        exact hi.values hv (x, y) ((Grid.mem_eachCellOrder _ _).2 ⟨hx, hy⟩) tile htile
      · split at ht2
        · cases ht2
        · exact hi.values hv (x2, y2)
            ((Grid.mem_eachCellOrder _ _).2 (hi.placed.lt_of_readAt ht2)) t ht2
    · rw [← hi.sum]
      apply Grid.sumValues_of_moved hsize ⟨hfx, hfy⟩ ⟨hx, hy⟩ hread
      rw [Tile.updatePosition_value]
      by_cases hfe : fx = x ∧ fy = y
      · obtain ⟨rfl, rfl⟩ := hfe
        simp [Grid.valueAt, htile]
      · rw [if_neg hfe]
        rcases hfree with h0 | hn
        · exact absurd (hkz h0) hfe
        · simp [Grid.valueAt, htile, hn]
    · rw [← hi.count]
      have := Grid.tileCount_of_moved hsize ⟨hfx, hfy⟩ ⟨hx, hy⟩ hread
      show g2.tileCount + s.merges.length = _
      by_cases hfe : fx = x ∧ fy = y
      · obtain ⟨rfl, rfl⟩ := hfe
        simp only [htile, and_self, if_true, Option.isSome_some] at this
        omega
      · rcases hfree with h0 | hn
        · exact absurd (hkz h0) hfe
        · simp only [hn, htile, if_neg hfe, Option.isSome_some, Option.isSome_none,
            Bool.false_eq_true, if_true, if_false] at this
          omega
    · intro hm
      show g2.hasEmptyCell = true
      rw [Grid.hasEmptyCell_iff, hsize]
      by_cases hk0 : k = 0
      · have hm2 : s.moved = true := by simpa [hk0] using hm
        obtain ⟨ex, ey, hex, hey, hen⟩ := (Grid.hasEmptyCell_iff _).1 (hi.empty hm2)
        refine ⟨ex, ey, hex, hey, ?_⟩
        obtain ⟨rfl, rfl⟩ := hkz hk0
        rw [hread]
        have hne : ¬ (ex = fx ∧ ey = fy) := by
          rintro ⟨rfl, rfl⟩
          rw [htile] at hen
          cases hen
        simp only [hne, if_false]
        exact hen
      · refine ⟨x, y, hx, hy, ?_⟩
        rw [hread]
        have hne : ¬ (x = fx ∧ y = fy) := by
          rintro ⟨rfl, rfl⟩
          exact hk0 (Pos.shift_getVector_eq _ _ _ hk.symm)
        simp [hne]
  | merged tile other nx ny k g2 hx hy htile hnx hny hk hother hvalue hfrom hsize hplaced
      hread h =>
    subst h
    have hne : ¬ (nx = x ∧ ny = y) := by
      rintro ⟨rfl, rfl⟩
      have := Pos.shift_getVector_eq _ _ _ hk.symm
      omega
    have hmv : (mergedTile tile other nx ny).value = tile.value * 2 := rfl
    refine ⟨hi.size, hi.over, hi.keepPlaying, hsize.trans hi.gridSize, hplaced, ?_, ?_, ?_,
      ?_, ?_, ?_⟩
    · show s.gm.score + tile.value * 2 = _
      rw [hi.score]
      simp only [List.map_append, List.sum_append, List.map_cons, List.map_nil, List.sum_cons,
        List.sum_nil, hmv]
      omega
    · show (if tile.value * 2 = 2048 then true else s.gm.won) = _
      rw [hi.won]
      simp only [List.any_append, List.any_cons, List.any_nil, hmv, Bool.or_false]
      by_cases h8 : tile.value * 2 = 2048
      · simp [h8]
      · simp [h8]
    · intro hv
      rintro ⟨x2, y2⟩ hc t ht
      have ht2 : readAt g2.cells x2 y2 = some t := ht
      rw [hread] at ht2
      split at ht2
      · cases ht2
        rw [hmv]
        exact validValue_double
          (hi.values hv (x, y) ((Grid.mem_eachCellOrder _ _).2 ⟨hx, hy⟩) tile htile)
      · split at ht2
        · cases ht2
        · exact hi.values hv (x2, y2)
            ((Grid.mem_eachCellOrder _ _).2 (hi.placed.lt_of_readAt ht2)) t ht2
    · rw [← hi.sum]
      apply Grid.sumValues_of_moved hsize ⟨hnx, hny⟩ ⟨hx, hy⟩ hread
      rw [hmv, if_neg hne]
      simp [Grid.valueAt, htile, hother, hvalue]
      omega
    · rw [← hi.count]
      have := Grid.tileCount_of_moved hsize ⟨hnx, hny⟩ ⟨hx, hy⟩ hread
      show g2.tileCount + (s.merges ++ [mergedTile tile other nx ny]).length = _
      simp only [hother, htile, if_neg hne, Option.isSome_some, if_true] at this
      simp only [List.length_append, List.length_singleton]
      omega
    · intro _
      show g2.hasEmptyCell = true
      rw [Grid.hasEmptyCell_iff, hsize]
      refine ⟨x, y, hx, hy, ?_⟩
      rw [hread]
      have hne2 : ¬ (x = nx ∧ y = ny) := fun h => hne ⟨h.1.symm, h.2.symm⟩
      simp [hne2]

theorem closerToEdge_of_shift {d : Direction} {x y nx ny k : Nat}
    (hk : cellPos nx ny = (cellPos x y).shift (getVector d) (k + 1)) :
    closerToEdge d (nx, ny) (x, y) := by
  cases d <;>
    simp only [cellPos, Pos.shift, getVector, Pos.mk.injEq, closerToEdge] at hk ⊢ <;>
    omega

theorem GameManager.isTileBeforeMove_updatePosition {gm : GameManager} {t : Tile}
    (h : gm.isTileBeforeMove t) (p : Pos) : gm.isTileBeforeMove (t.updatePosition p) := by
  obtain ⟨c, hc, t0, ht0, hv, hpp, hm⟩ := h
  exact ⟨c, hc, t0, ht0, by rw [Tile.updatePosition_value]; exact hv,
    by rw [Tile.updatePosition_previousPosition]; exact hpp,
    by rw [Tile.updatePosition_mergedFrom]; exact hm⟩

theorem MergeInvariant.before {gm : GameManager} {rest : List (Nat × Nat)} {s : MoveState}
    (hi : MergeInvariant gm rest s) {x y : Nat} {t : Tile}
    (h : readAt s.gm.grid.cells x y = some t) (hm : t.mergedFrom = none) :
    gm.isTileBeforeMove t := by
  rcases hi.onGrid x y t h with hb | hmem
  · exact hb
  · obtain ⟨a, b, hab, -⟩ := hi.built t hmem
    rw [hm] at hab
    cases hab

theorem mergeSources_append (l : List Tile) (m : Tile) :
    mergeSources (l ++ [m]) = mergeSources l ++ mergeSources [m] := by
  unfold mergeSources
  rw [List.flatMap_append]

theorem mergeSources_mergedTile (tile other : Tile) (nx ny : Nat) :
    mergeSources [mergedTile tile other nx ny] =
      [tile.previousPosition, other.previousPosition] := by
  simp [mergeSources, mergedTile, Tile.mergedFrom, Tile.updatePosition_previousPosition]

/-- One round of the loops, for the first of the cells still to be visited, keeps the
invariant on the merges, when no later cell is closer to the edge the tiles travel to. -/
theorem MergeInvariant.merge_step {gm : GameManager} {d : Direction} {s s2 : MoveState} {x y : Nat}
    {rest : List (Nat × Nat)} (hi : MergeInvariant gm ((x, y) :: rest) s)
    (hord : ∀ q ∈ rest, ¬ closerToEdge d q (x, y))
    (ho : StepOutcome d s x y s2) : MergeInvariant gm rest s2 := by
  cases ho with
  | thrown e h =>
    subst h
    exact ⟨fun c hc => hi.unvisited c (List.mem_cons_of_mem _ hc), hi.onGrid, hi.built,
      hi.apart, hi.unused, hi.sources⟩
  | skipped h =>
    subst h
    exact ⟨fun c hc => hi.unvisited c (List.mem_cons_of_mem _ hc), hi.onGrid, hi.built,
      hi.apart, hi.unused, hi.sources⟩
  | slid tile fx fy k g2 hx hy htile hfx hfy hk hfree hsize hplaced hread h =>
    subst h
    have htm : tile.mergedFrom = none := hi.unvisited (x, y) (List.mem_cons_self _ _) tile htile
    have old : ∀ {x2 y2 : Nat} {t : Tile}, readAt g2.cells x2 y2 = some t →
        (x2 = fx ∧ y2 = fy ∧ t = tile.updatePosition (cellPos fx fy)) ∨
        (¬ (x2 = x ∧ y2 = y) ∧ readAt s.gm.grid.cells x2 y2 = some t) := by
      intro x2 y2 t ht
      rw [hread] at ht
      split at ht
      · rename_i hc
        cases ht
        exact Or.inl ⟨hc.1, hc.2, rfl⟩
      · split at ht
        · cases ht
        · rename_i hc
          exact Or.inr ⟨hc, ht⟩
    refine ⟨?_, ?_, hi.built, ?_, ?_, hi.sources⟩
    · intro c hc t ht
      rcases old ht with ⟨-, -, rfl⟩ | ⟨-, h2⟩
      · rw [Tile.updatePosition_mergedFrom]; exact htm
      · exact hi.unvisited c (List.mem_cons_of_mem _ hc) t h2
    · intro x2 y2 t ht
      rcases old ht with ⟨-, -, rfl⟩ | ⟨-, h2⟩
      · exact Or.inl (GameManager.isTileBeforeMove_updatePosition (hi.before htile htm) _)
      · exact hi.onGrid x2 y2 t h2
    · intro x1 y1 x2 y2 t t2 ht ht2 hm hm2 hpp
      rcases old ht with ⟨rfl, rfl, rfl⟩ | ⟨hn1, h1⟩ <;>
        rcases old ht2 with ⟨rfl, rfl, rfl⟩ | ⟨hn2, h2⟩
      · exact ⟨rfl, rfl⟩
      · rw [Tile.updatePosition_previousPosition] at hpp
        exact absurd (hi.apart _ _ _ _ _ _ htile h2 htm hm2 hpp)
          (fun h => hn2 ⟨h.1.symm, h.2.symm⟩)
      · rw [Tile.updatePosition_previousPosition] at hpp
        exact absurd (hi.apart _ _ _ _ _ _ h1 htile hm htm hpp) hn1
      · exact hi.apart _ _ _ _ _ _ h1 h2 hm hm2 hpp
    · intro x2 y2 t ht hm
      rcases old ht with ⟨-, -, rfl⟩ | ⟨-, h2⟩
      · rw [Tile.updatePosition_previousPosition]
        exact hi.unused _ _ _ htile htm
      · exact hi.unused _ _ _ h2 hm
  | merged tile other nx ny k g2 hx hy htile hnx hny hk hother hvalue hfrom hsize hplaced
      hread h =>
    subst h
    have htm : tile.mergedFrom = none := hi.unvisited (x, y) (List.mem_cons_self _ _) tile htile
    have hne : ¬ (x = nx ∧ y = ny) := by
      rintro ⟨rfl, rfl⟩
      have := Pos.shift_getVector_eq _ _ _ hk.symm
      omega
    have old : ∀ {x2 y2 : Nat} {t : Tile}, readAt g2.cells x2 y2 = some t →
        (x2 = nx ∧ y2 = ny ∧ t = mergedTile tile other nx ny) ∨
        (¬ (x2 = nx ∧ y2 = ny) ∧ ¬ (x2 = x ∧ y2 = y) ∧
          readAt s.gm.grid.cells x2 y2 = some t) := by
      intro x2 y2 t ht
      rw [hread] at ht
      split at ht
      · rename_i hc
        cases ht
        exact Or.inl ⟨hc.1, hc.2, rfl⟩
      · rename_i hc1
        split at ht
        · cases ht
        · rename_i hc
          exact Or.inr ⟨hc1, hc, ht⟩
    have hmm : (mergedTile tile other nx ny).mergedFrom ≠ none := by
      simp [mergedTile, Tile.mergedFrom]
    have hsrc : mergeSources (s.merges ++ [mergedTile tile other nx ny]) =
        mergeSources s.merges ++ [tile.previousPosition, other.previousPosition] := by
      rw [mergeSources_append, mergeSources_mergedTile]
    refine ⟨?_, ?_, ?_, ?_, ?_, ?_⟩
    · rintro ⟨cx, cy⟩ hc t ht
      rcases old ht with ⟨h1, h2, -⟩ | ⟨-, -, h2⟩
      · simp only at h1 h2
        subst h1
        subst h2
        exact absurd (closerToEdge_of_shift hk) (hord _ hc)
      · exact hi.unvisited _ (List.mem_cons_of_mem _ hc) t h2
    · intro x2 y2 t ht
      rcases old ht with ⟨-, -, rfl⟩ | ⟨-, -, h2⟩
      · exact Or.inr (List.mem_append_right _ (List.mem_singleton_self _))
      · rcases hi.onGrid x2 y2 t h2 with hb | hmem
        · exact Or.inl hb
        · exact Or.inr (List.mem_append_left _ hmem)
    · intro m hm
      rcases List.mem_append.1 hm with hmem | hmem
      · exact hi.built m hmem
      · rw [List.mem_singleton] at hmem
        subst hmem
        refine ⟨tile.updatePosition (cellPos nx ny), other, rfl, rfl,
          GameManager.isTileBeforeMove_updatePosition (hi.before htile htm) _,
          hi.before hother hfrom, ?_, ?_⟩
        · show tile.value * 2 = 2 * (tile.updatePosition (cellPos nx ny)).value
          rw [Tile.updatePosition_value]
          omega
        · show tile.value * 2 = 2 * other.value
          omega
    · intro x1 y1 x2 y2 t t2 ht ht2 hm hm2 hpp
      rcases old ht with ⟨-, -, rfl⟩ | ⟨-, -, h1⟩
      · exact absurd hm hmm
      · rcases old ht2 with ⟨-, -, rfl⟩ | ⟨-, -, h2⟩
        · exact absurd hm2 hmm
        · exact hi.apart _ _ _ _ _ _ h1 h2 hm hm2 hpp
    · intro x2 y2 t ht hm
      rcases old ht with ⟨-, -, rfl⟩ | ⟨hn1, hn2, h2⟩
      · exact absurd hm hmm
      · rw [hsrc, List.mem_append]
        rintro (hmem | hmem)
        · exact hi.unused _ _ _ h2 hm hmem
        · simp only [List.mem_cons, List.mem_singleton, List.not_mem_nil, or_false] at hmem
          rcases hmem with hpp | hpp
          · exact hn2 (hi.apart _ _ _ _ _ _ h2 htile hm htm hpp)
          · exact hn1 (hi.apart _ _ _ _ _ _ h2 hother hm hfrom hpp)
    · rw [hsrc, List.nodup_append]
      refine ⟨hi.sources, ?_, ?_⟩
      · simp only [List.nodup_cons, List.mem_singleton, List.not_mem_nil, not_false_eq_true,
          List.nodup_nil, and_true]
        intro hpp
        exact hne (hi.apart _ _ _ _ _ _ htile hother htm hfrom hpp)
      · intro p hp1 hp2
        simp only [List.mem_cons, List.mem_singleton, List.not_mem_nil, or_false] at hp2
        rcases hp2 with rfl | rfl
        · exact hi.unused _ _ _ htile htm hp1
        · exact hi.unused _ _ _ hother hfrom hp1

theorem GameManager.prepareTile_previousPosition (t : Tile) :
    (GameManager.prepareTile t).previousPosition = some ⟨t.x, t.y⟩ := by
  cases t <;> rfl

theorem GameManager.prepareTile_mergedFrom (t : Tile) :
    (GameManager.prepareTile t).mergedFrom = none := by
  cases t <;> rfl

/-- A tile of the grid that `prepareTiles` leaves, on a grid that satisfies the placement
invariant, is the tile of the same cell before, prepared. -/
theorem GameManager.readAt_prepareTiles_eq_some {gm : GameManager} (hp : gm.grid.Placed)
    {x y : Nat} {t : Tile} (h : readAt gm.prepareTiles.grid.cells x y = some t) :
    x < gm.grid.size ∧ y < gm.grid.size ∧
      ∃ t0, readAt gm.grid.cells x y = some t0 ∧ t = GameManager.prepareTile t0 := by
  have hb : x < gm.grid.size ∧ y < gm.grid.size :=
    (GameManager.prepareTiles_placed hp).lt_of_readAt h
  rw [GameManager.readAt_prepareTiles, if_pos hb] at h
  cases hr : readAt gm.grid.cells x y with
  | none => simp [hr] at h
  | some t0 =>
    simp only [hr, Option.map_some', Option.some.injEq] at h
    exact ⟨hb.1, hb.2, t0, rfl, h.symm⟩

theorem GameManager.prepareTiles_tileCount (gm : GameManager) :
    gm.prepareTiles.grid.tileCount = gm.grid.tileCount := by
  rw [Grid.tileCount_eq_sum, Grid.tileCount_eq_sum]
  have hsize : gm.prepareTiles.grid.size = gm.grid.size := rfl
  rw [hsize]
  congr 1
  apply List.map_congr_left
  rintro ⟨x, y⟩ hc
  have hb := (Grid.mem_eachCellOrder _ _).1 hc
  simp only [GameManager.readAt_prepareTiles, hb.1, hb.2, and_self, if_true]
  cases readAt gm.grid.cells x y <;> rfl

/-- The invariant holds when the loops start, after `prepareTiles`. -/
theorem LoopInvariant.at_start {gm : GameManager} (hp : gm.grid.Placed) :
    LoopInvariant gm { gm := gm.prepareTiles, moved := false, merges := [], error := none } :=
  ⟨rfl, rfl, rfl, rfl, GameManager.prepareTiles_placed hp, by simp [GameManager.prepareTiles],
   by simp [GameManager.prepareTiles], GameManager.prepareTiles_valuesValid,
   GameManager.prepareTiles_sumValues gm, by simp [GameManager.prepareTiles_tileCount],
   fun h => by cases h⟩

/-- The invariant holds of a manager that `move` leaves alone. -/
theorem LoopInvariant.untouched {gm : GameManager} (hp : gm.grid.Placed) :
    LoopInvariant gm { gm := gm, moved := false, merges := [], error := none } :=
  ⟨rfl, rfl, rfl, rfl, hp, by simp, by simp, fun h => h, rfl, by simp, fun h => by cases h⟩

theorem MergeInvariant.merge_start {gm : GameManager} (hp : gm.grid.Placed)
    (rest : List (Nat × Nat)) :
    MergeInvariant gm rest
      { gm := gm.prepareTiles, moved := false, merges := [], error := none } := by
  refine ⟨?_, ?_, ?_, ?_, ?_, List.nodup_nil⟩
  · intro c _ t ht
    obtain ⟨-, -, t0, -, rfl⟩ := GameManager.readAt_prepareTiles_eq_some hp ht
    exact GameManager.prepareTile_mergedFrom t0
  · intro x y t ht
    obtain ⟨hx, hy, t0, ht0, rfl⟩ := GameManager.readAt_prepareTiles_eq_some hp ht
    exact Or.inl ⟨(x, y), (Grid.mem_eachCellOrder _ _).2 ⟨hx, hy⟩, t0, ht0,
      GameManager.prepareTile_value t0, GameManager.prepareTile_previousPosition t0,
      GameManager.prepareTile_mergedFrom t0⟩
  · intro m hm
    cases hm
  · intro x y x2 y2 t t2 ht ht2 _ _ hpp
    obtain ⟨hx, hy, t0, ht0, rfl⟩ := GameManager.readAt_prepareTiles_eq_some hp ht
    obtain ⟨hx2, hy2, t1, ht1, rfl⟩ := GameManager.readAt_prepareTiles_eq_some hp ht2
    rw [GameManager.prepareTile_previousPosition, GameManager.prepareTile_previousPosition,
      (hp.tile_x hx hy ht0).1, (hp.tile_x hx hy ht0).2, (hp.tile_x hx2 hy2 ht1).1,
      (hp.tile_x hx2 hy2 ht1).2] at hpp
    simp only [Option.some.injEq, JsPos.mk.injEq, Nat.cast_inj] at hpp
    exact hpp
  · intro x y t _ _ hmem
    cases hmem

theorem GameManager.traverseWith_eq_foldl_visitOrder (look : CellLookup) (gm : GameManager)
    (d : Direction) (s : MoveState) :
    GameManager.traverseWith look (getVector d) (gm.buildTraversals (getVector d)) s =
      (gm.visitOrder d).foldl
        (fun s c => GameManager.moveCellWith look (getVector d) s c.1 c.2) s := by
  unfold GameManager.traverseWith GameManager.visitOrder
  generalize (gm.buildTraversals (getVector d)).x = xs
  generalize (gm.buildTraversals (getVector d)).y = ys
  induction xs generalizing s with
  | nil => rfl
  | cons x xs ih =>
    simp only [List.foldl_cons, List.flatMap_cons, List.foldl_append, List.foldl_map]
    exact ih _

/-- The loops keep both invariants, over a sound way to read a cell, when the cells are
visited in an order in which no later cell is closer to the edge the tiles travel to. -/
theorem GameManager.foldl_moveCellWith_invariant {look : CellLookup} (hl : look.Sound)
    (gm : GameManager) (d : Direction) (rest : List (Nat × Nat))
    (hord : rest.Pairwise fun p q => ¬ closerToEdge d q p) (s : MoveState)
    (h1 : LoopInvariant gm s) (h2 : MergeInvariant gm rest s) :
    LoopInvariant gm
        (rest.foldl (fun s c => GameManager.moveCellWith look (getVector d) s c.1 c.2) s) ∧
      MergeInvariant gm []
        (rest.foldl (fun s c => GameManager.moveCellWith look (getVector d) s c.1 c.2) s) := by
  induction rest generalizing s with
  | nil => exact ⟨h1, h2⟩
  | cons c rest ih =>
    obtain ⟨x, y⟩ := c
    rw [List.pairwise_cons] at hord
    have ho := GameManager.moveCellWith_outcome hl d s x y h1.placed
    exact ih hord.2 _ (h1.keep_step ho) (h2.merge_step hord.1 ho)

/-- The state in which the loops of `move(d)` end, over `look`. -/
theorem GameManager.traverseWith_invariant {look : CellLookup} (hl : look.Sound)
    (gm : GameManager) (d : Direction) (hp : gm.grid.Placed) :
    LoopInvariant gm (GameManager.traverseWith look (getVector d)
        (gm.buildTraversals (getVector d))
        { gm := gm.prepareTiles, moved := false, merges := [], error := none }) ∧
      MergeInvariant gm [] (GameManager.traverseWith look (getVector d)
        (gm.buildTraversals (getVector d))
        { gm := gm.prepareTiles, moved := false, merges := [], error := none }) := by
  rw [GameManager.traverseWith_eq_foldl_visitOrder]
  exact GameManager.foldl_moveCellWith_invariant hl gm d _ (gm.visitOrder_pairwise d) _
    (LoopInvariant.at_start hp) (MergeInvariant.merge_start hp _)

/-! ## What `move` leaves, over a way to read a cell -/

/-- The grid after a spawn on a grid that has its `size` columns and an empty cell: one
cell that was empty holds a new tile of value 2 or 4 with the coordinates of the cell,
every other cell is as before. -/
theorem GameManager.addRandomTile_readAt (gm : GameManager) (rv rc : MathRandom)
    (hshape : gm.grid.cells.length = gm.grid.size) (he : gm.grid.hasEmptyCell = true) :
    ∃ (gm1 : GameManager) (x y : Nat), gm.addRandomTile rv rc = .ok gm1 ∧
      x < gm.grid.size ∧ y < gm.grid.size ∧ readAt gm.grid.cells x y = none ∧
      ∀ x2 y2, readAt gm1.grid.cells x2 y2 =
        if x2 = x ∧ y2 = y then
          some (Tile.new ⟨some (x : Int), some (y : Int)⟩ (if rv.below09 then 2 else 4))
        else readAt gm.grid.cells x2 y2 := by
  obtain ⟨x, y, hx, hy, hn, -, heq⟩ := GameManager.addRandomTile_of_available gm rv rc
    (by rw [Grid.cellsAvailable_eq_hasEmptyCell]; exact he)
  obtain ⟨c, hc, -, hread⟩ := jsCellsSet_readAt gm.grid.cells x y
    (some (Tile.new ⟨some (x : Int), some (y : Int)⟩ (if rv.below09 then 2 else 4)))
    (by rw [hshape]; exact hx)
  exact ⟨_, x, y, by rw [heq, hc]; rfl, hx, hy, hn, hread⟩

theorem GameManager.addRandomTile_tileCount {gm gm1 : GameManager} {rv rc : MathRandom}
    (hshape : gm.grid.cells.length = gm.grid.size) (he : gm.grid.hasEmptyCell = true)
    (h : gm.addRandomTile rv rc = .ok gm1) : gm1.grid.tileCount = gm.grid.tileCount + 1 := by
  obtain ⟨gm2, x, y, h2, hx, hy, hn, hread⟩ :=
    GameManager.addRandomTile_readAt gm rv rc hshape he
  rw [h] at h2
  cases h2
  rw [Grid.tileCount_eq_sum, Grid.tileCount_eq_sum, (GameManager.addRandomTile_frame h).2.2.2.2.2]
  have := sum_map_add_of_changed_at _ (Grid.nodup_eachCellOrder gm.grid.size) (x, y)
    ((Grid.mem_eachCellOrder _ _).2 ⟨hx, hy⟩)
    (fun c => if (readAt gm.grid.cells c.1 c.2).isSome then 1 else 0)
    (fun c => if (readAt gm1.grid.cells c.1 c.2).isSome then 1 else 0) (by
      rintro ⟨x2, y2⟩ hne
      simp only [hread]
      have h1 : ¬ (x2 = x ∧ y2 = y) := fun h => hne (by rw [h.1, h.2])
      simp only [h1, if_false])
  have hga : (if (readAt gm1.grid.cells x y).isSome then 1 else 0) = 1 := by
    rw [hread]
    simp
  have hgb : (if (readAt gm.grid.cells x y).isSome then 1 else 0) = 0 := by
    rw [hn]
    simp
  dsimp only at this
  rw [hga, hgb] at this
  omega

theorem GameManager.moveWith_of_terminated (look : CellLookup) (gm : GameManager)
    (d : Direction) (rv rc : MathRandom) (h : gm.isGameTerminated = true) :
    gm.moveWith look d rv rc = MoveResult.untouched gm := by
  unfold GameManager.moveWith
  simp [h]

/-- What `move(d)` leaves on a game that is not terminated, over a sound way to read a
cell and from a grid that satisfies the placement invariant: the loops end in a state
`s` that satisfies both invariants; then either nothing more happens (nothing moved, or
an exception left the loops), or one tile is spawned into an empty cell and
`movesAvailable` decides on `over`. -/
theorem GameManager.moveWith_spec {look : CellLookup} (hl : look.Sound) (gm : GameManager)
    (d : Direction) (rv rc : MathRandom) (hp : gm.grid.Placed)
    (ht : gm.isGameTerminated = false) :
    ∃ s : MoveState, LoopInvariant gm s ∧ MergeInvariant gm [] s ∧
      (gm.moveWith look d rv rc).moved = s.moved ∧
      (gm.moveWith look d rv rc).merges = s.merges ∧
      (gm.moveWith look d rv rc).beforeSpawn = s.gm.grid ∧
      (((gm.moveWith look d rv rc).gm = s.gm ∧
          ((gm.moveWith look d rv rc).error = none → s.moved = false)) ∨
        (s.moved = true ∧ ∃ (gm1 : GameManager) (x y : Nat),
          s.gm.addRandomTile rv rc = .ok gm1 ∧
          x < s.gm.grid.size ∧ y < s.gm.grid.size ∧ readAt s.gm.grid.cells x y = none ∧
          (∀ x2 y2, readAt gm1.grid.cells x2 y2 =
            if x2 = x ∧ y2 = y then
              some (Tile.new ⟨some (x : Int), some (y : Int)⟩ (if rv.below09 then 2 else 4))
            else readAt s.gm.grid.cells x2 y2) ∧
          ((∃ e, gm1.movesAvailableWith look = .error e ∧
              (gm.moveWith look d rv rc).error = some e ∧
              (gm.moveWith look d rv rc).gm = gm1) ∨
            (∃ b, gm1.movesAvailableWith look = .ok b ∧
              (gm.moveWith look d rv rc).error = none ∧
              (gm.moveWith look d rv rc).gm = if b then gm1 else { gm1 with over := true })))) := by
  obtain ⟨h1, h2⟩ := GameManager.traverseWith_invariant hl gm d hp
  refine ⟨_, h1, h2, ?_⟩
  unfold GameManager.moveWith GameManager.moveUnguardedWith
  simp only [ht, Bool.false_eq_true, if_false]
  generalize GameManager.traverseWith look (getVector d) (gm.buildTraversals (getVector d))
    { gm := gm.prepareTiles, moved := false, merges := [], error := none } = s at h1 h2
  cases hse : s.error with
  | some e =>
    simp only
    refine ⟨?_, ?_, ?_, Or.inl ⟨?_, ?_⟩⟩ <;> first | trivial | rfl | (intro h; cases h)
  | none =>
    simp only
    cases hm : s.moved with
    | false =>
      simp only [Bool.false_eq_true, if_false]
      refine ⟨?_, ?_, ?_, Or.inl ⟨?_, ?_⟩⟩ <;> trivial
    | true =>
      simp only [if_true]
      obtain ⟨gm1, x, y, ha, hx, hy, hn, hread⟩ :=
        GameManager.addRandomTile_readAt s.gm rv rc h1.placed.1 (h1.empty hm)
      unfold GameManager.afterMoveWith
      simp only [ha]
      cases hav : gm1.movesAvailableWith look with
      | error e =>
        simp only
        refine ⟨?_, ?_, ?_, Or.inr ⟨?_, gm1, x, y, ?_, hx, hy, hn, hread,
          Or.inl ⟨e, ?_, ?_, ?_⟩⟩⟩ <;> trivial
      | ok b =>
        simp only
        refine ⟨?_, ?_, ?_, Or.inr ⟨?_, gm1, x, y, ?_, hx, hy, hn, hread,
          Or.inr ⟨b, ?_, ?_, ?_⟩⟩⟩ <;> trivial

/-! ## `movesAvailable` over a sound way to read a cell -/

theorem Grid.sameValueAt_iff (g : Grid) (x y x2 y2 : Nat) :
    g.sameValueAt x y x2 y2 = true ↔
      ∃ a b, readAt g.cells x y = some a ∧ readAt g.cells x2 y2 = some b ∧
        a.value = b.value := by
  unfold Grid.sameValueAt
  cases readAt g.cells x y with
  | none => simp
  | some a =>
    cases readAt g.cells x2 y2 with
    | none => simp
    | some b => simp

theorem Grid.hasEqualNeighbours_iff (g : Grid) :
    g.hasEqualNeighbours = true ↔
      ∃ x y a b, readAt g.cells x y = some a ∧ a.value = b.value ∧
        ((x + 1 < g.size ∧ y < g.size ∧ readAt g.cells (x + 1) y = some b) ∨
         (x < g.size ∧ y + 1 < g.size ∧ readAt g.cells x (y + 1) = some b)) := by
  unfold Grid.hasEqualNeighbours
  rw [List.any_eq_true]
  constructor
  · rintro ⟨⟨x, y⟩, hc, h⟩
    have hb := (Grid.mem_eachCellOrder _ _).1 hc
    simp only [Bool.or_eq_true, Bool.and_eq_true, decide_eq_true_eq,
      Grid.sameValueAt_iff] at h
    rcases h with ⟨h1, a, b, ha, hb2, hv⟩ | ⟨h1, a, b, ha, hb2, hv⟩
    · exact ⟨x, y, a, b, ha, hv, Or.inl ⟨h1, hb.2, hb2⟩⟩
    · exact ⟨x, y, a, b, ha, hv, Or.inr ⟨hb.1, h1, hb2⟩⟩
  · rintro ⟨x, y, a, b, ha, hv, h | h⟩
    · refine ⟨(x, y), (Grid.mem_eachCellOrder _ _).2 ⟨by omega, h.2.1⟩, ?_⟩
      simp only [Bool.or_eq_true, Bool.and_eq_true, decide_eq_true_eq,
        Grid.sameValueAt_iff]
      exact Or.inl ⟨h.1, a, b, ha, h.2.2, hv⟩
    · refine ⟨(x, y), (Grid.mem_eachCellOrder _ _).2 ⟨h.1, by omega⟩, ?_⟩
      simp only [Bool.or_eq_true, Bool.and_eq_true, decide_eq_true_eq,
        Grid.sameValueAt_iff]
      exact Or.inr ⟨h.2.1, a, b, ha, h.2.2, hv⟩

/-- The loop over the directions of `tileMatchesAvailable`, over a sound way to read a
cell: when it returns, it tells whether some neighbour among `dirs` holds a tile of the
value of `tile`. -/
theorem GameManager.tileMatchesAtWith_spec {look : CellLookup} (hl : look.Sound)
    (gm : GameManager) (x y : Nat) (tile : Tile) (dirs : List Direction) (b : Bool)
    (h : gm.tileMatchesAtWith look x y tile dirs = .ok b) :
    b = true ↔ ∃ d ∈ dirs, ∃ other,
      gm.grid.storedContent ⟨x + (getVector d).x, y + (getVector d).y⟩ = some other ∧
        other.value = tile.value := by
  induction dirs with
  | nil =>
    unfold GameManager.tileMatchesAtWith at h
    cases h
    simp
  | cons d rest ih =>
    unfold GameManager.tileMatchesAtWith at h
    simp only at h
    cases hlk : look gm.grid ⟨x + (getVector d).x, y + (getVector d).y⟩ with
    | error e => rw [hlk] at h; cases h
    | ok v =>
      rw [hlk] at h
      have hv := hl _ _ _ hlk
      cases v with
      | none =>
        simp only at h
        rw [ih h]
        constructor
        · rintro ⟨d2, hd2, o, ho, hval⟩
          exact ⟨d2, List.mem_cons_of_mem _ hd2, o, ho, hval⟩
        · rintro ⟨d2, hd2, o, ho, hval⟩
          rcases List.mem_cons.1 hd2 with rfl | hd2
          · rw [← hv] at ho
            cases ho
          · exact ⟨d2, hd2, o, ho, hval⟩
      | some other =>
        simp only at h
        by_cases hval : other.value = tile.value
        · rw [if_pos hval] at h
          cases h
          simp only [true_iff]
          exact ⟨d, List.mem_cons_self _ _, other, hv.symm, hval⟩
        · rw [if_neg hval] at h
          rw [ih h]
          constructor
          · rintro ⟨d2, hd2, o, ho, hval2⟩
            exact ⟨d2, List.mem_cons_of_mem _ hd2, o, ho, hval2⟩
          · rintro ⟨d2, hd2, o, ho, hval2⟩
            rcases List.mem_cons.1 hd2 with rfl | hd2
            · rw [← hv] at ho
              cases ho
              exact absurd hval2 hval
            · exact ⟨d2, hd2, o, ho, hval2⟩

/-- The loops over the cells of `tileMatchesAvailable`, over a sound way to read a cell:
when they return, they tell whether some tile of the cells `cells` has a neighbour of
its value. -/
theorem GameManager.tileMatchesLoopWith_spec {look : CellLookup} (hl : look.Sound)
    (gm : GameManager) (cells : List (Nat × Nat)) (b : Bool)
    (h : gm.tileMatchesLoopWith look cells = .ok b) :
    b = true ↔ ∃ c ∈ cells, ∃ tile, gm.grid.storedContent ⟨c.1, c.2⟩ = some tile ∧
      ∃ d : Direction, ∃ other,
        gm.grid.storedContent ⟨c.1 + (getVector d).x, c.2 + (getVector d).y⟩ = some other ∧
          other.value = tile.value := by
  induction cells with
  | nil =>
    unfold GameManager.tileMatchesLoopWith at h
    cases h
    simp
  | cons c rest ih =>
    obtain ⟨x, y⟩ := c
    unfold GameManager.tileMatchesLoopWith at h
    cases hlk : look gm.grid ⟨x, y⟩ with
    | error e => rw [hlk] at h; cases h
    | ok v =>
      rw [hlk] at h
      have hv := hl _ _ _ hlk
      cases v with
      | none =>
        simp only at h
        rw [ih h]
        constructor
        · rintro ⟨c, hc, rest2⟩
          exact ⟨c, List.mem_cons_of_mem _ hc, rest2⟩
        · rintro ⟨c, hc, t, ht, rest2⟩
          rcases List.mem_cons.1 hc with rfl | hc
          · rw [← hv] at ht
            cases ht
          · exact ⟨c, hc, t, ht, rest2⟩
      | some tile =>
        simp only at h
        cases hat : gm.tileMatchesAtWith look x y tile [.up, .right, .down, .left] with
        | error e => rw [hat] at h; cases h
        | ok m =>
          rw [hat] at h
          have hm := GameManager.tileMatchesAtWith_spec hl gm x y tile _ m hat
          cases m with
          | true =>
            simp only at h
            cases h
            simp only [true_iff]
            obtain ⟨d, -, o, ho, hval⟩ := hm.1 rfl
            exact ⟨(x, y), List.mem_cons_self _ _, tile, hv.symm, d, o, ho, hval⟩
          | false =>
            simp only at h
            rw [ih h]
            constructor
            · rintro ⟨c, hc, rest2⟩
              exact ⟨c, List.mem_cons_of_mem _ hc, rest2⟩
            · rintro ⟨c, hc, t, ht, d, o, ho, hval⟩
              rcases List.mem_cons.1 hc with rfl | hc
              · rw [← hv] at ht
                cases ht
                have : false = true := hm.2 ⟨d, by cases d <;> simp, o, ho, hval⟩
                cases this
              · exact ⟨c, hc, t, ht, d, o, ho, hval⟩

/-- Over a sound way to read a cell, `tileMatchesAvailable`, when it returns, tells
whether two adjacent cells of the grid hold tiles of equal value. -/
theorem GameManager.tileMatchesAvailableWith_spec {look : CellLookup} (hl : look.Sound)
    (gm : GameManager) (hs : gm.size = gm.grid.size) (b : Bool)
    (h : gm.tileMatchesAvailableWith look = .ok b) : b = gm.grid.hasEqualNeighbours := by
  unfold GameManager.tileMatchesAvailableWith at h
  have hb := GameManager.tileMatchesLoopWith_spec hl gm _ b h
  rw [Bool.eq_iff_iff, hb, Grid.hasEqualNeighbours_iff, hs]
  constructor
  · rintro ⟨⟨x, y⟩, hc, tile, ht, d, other, ho, hval⟩
    have hxy := (Grid.mem_eachCellOrder _ _).1 hc
    obtain ⟨x1, y1, hc1, hx1, hy1, ht1⟩ := Grid.storedContent_eq_some ht
    obtain ⟨e1, e2⟩ := cellPos_injective (x := x) (y := y) hc1
    subst e1
    subst e2
    obtain ⟨nx, ny, hc2, hnx, hny, ho2⟩ := Grid.storedContent_eq_some ho
    simp only [cellPos, Pos.mk.injEq] at hc2
    cases d
    · -- up
      simp only [getVector] at hc2
      have e1 : nx = x := by omega
      have e2 : y = ny + 1 := by omega
      subst e1
      subst e2
      exact ⟨nx, ny, other, tile, ho2, hval, Or.inr ⟨hnx, hy1, ht1⟩⟩
    · -- right
      simp only [getVector] at hc2
      have e1 : nx = x + 1 := by omega
      have e2 : ny = y := by omega
      subst e1
      subst e2
      exact ⟨x, ny, tile, other, ht1, hval.symm, Or.inl ⟨hnx, hy1, ho2⟩⟩
    · -- down
      simp only [getVector] at hc2
      have e1 : nx = x := by omega
      have e2 : ny = y + 1 := by omega
      subst e1
      subst e2
      exact ⟨nx, y, tile, other, ht1, hval.symm, Or.inr ⟨hx1, hny, ho2⟩⟩
    · -- left
      simp only [getVector] at hc2
      have e1 : x = nx + 1 := by omega
      have e2 : ny = y := by omega
      subst e1
      subst e2
      exact ⟨nx, ny, other, tile, ho2, hval, Or.inl ⟨hx1, hny, ht1⟩⟩
  · rintro ⟨x, y, a, b2, ha, hval, h | h⟩
    · refine ⟨(x, y), (Grid.mem_eachCellOrder _ _).2 ⟨by omega, h.2.1⟩, a, ?_, .right, b2, ?_,
        hval.symm⟩
      · have := Grid.storedContent_cellPos gm.grid (x := x) (y := y) (by omega) h.2.1
        rw [← ha, ← this]
        rfl
      · have := Grid.storedContent_cellPos gm.grid h.1 h.2.1
        rw [← h.2.2, ← this]
        simp [getVector, cellPos]
    · refine ⟨(x, y), (Grid.mem_eachCellOrder _ _).2 ⟨h.1, by omega⟩, a, ?_, .down, b2, ?_,
        hval.symm⟩
      · have := Grid.storedContent_cellPos gm.grid (x := x) (y := y) h.1 (by omega)
        rw [← ha, ← this]
        rfl
      · have := Grid.storedContent_cellPos gm.grid h.1 h.2.1
        rw [← h.2.2, ← this]
        simp [getVector, cellPos]

/-- Over a sound way to read a cell and on a manager whose `size` is the size of its
grid, `movesAvailable`, when it returns, tells whether the grid has an empty cell or two
adjacent tiles of equal value. -/
theorem GameManager.movesAvailableWith_spec {look : CellLookup} (hl : look.Sound)
    (gm : GameManager) (hs : gm.size = gm.grid.size) (b : Bool)
    (h : gm.movesAvailableWith look = .ok b) :
    b = (gm.grid.hasEmptyCell || gm.grid.hasEqualNeighbours) := by
  unfold GameManager.movesAvailableWith at h
  rw [Grid.cellsAvailable_eq_hasEmptyCell] at h
  cases he : gm.grid.hasEmptyCell with
  | true =>
    rw [he] at h
    simp only [if_true] at h
    cases h
    rfl
  | false =>
    rw [he] at h
    simp only [Bool.false_eq_true, if_false] at h
    rw [Bool.false_or]
    exact GameManager.tileMatchesAvailableWith_spec hl gm hs b h

/-! ## What `move` leaves, in short -/

/-- A result of `move(d)`: of the `move` of the source, or of `move` over a sound way to
read a cell; the first is an instance of the second. -/
theorem GameManager.moveWith_of_result {gm : GameManager} {d : Direction}
    {rv rc : MathRandom} {r : MoveResult}
    (hr : r = gm.move d rv rc ∨
      ∃ look : CellLookup, look.Sound ∧ r = gm.moveWith look d rv rc) :
    ∃ look : CellLookup, look.Sound ∧ r = gm.moveWith look d rv rc := by
  rcases hr with h | h
  · exact ⟨Grid.cellContent, Grid.cellContent_sound, by rw [h, GameManager.move_eq_moveWith]⟩
  · exact h

/-- What every `move(d)` leaves, over a sound way to read a cell and from a grid that
satisfies the placement invariant, whether the game is terminated or not: the loops end
in a state that satisfies the invariant, and what follows the loops changes nothing but
the grid, by a spawn, and `over`. -/
theorem GameManager.moveWith_frame {look : CellLookup} (hl : look.Sound) (gm : GameManager)
    (d : Direction) (rv rc : MathRandom) (hp : gm.grid.Placed) :
    ∃ s : MoveState, LoopInvariant gm s ∧
      (gm.moveWith look d rv rc).moved = s.moved ∧
      (gm.moveWith look d rv rc).merges = s.merges ∧
      (gm.moveWith look d rv rc).beforeSpawn = s.gm.grid ∧
      (gm.moveWith look d rv rc).gm.score = s.gm.score ∧
      (gm.moveWith look d rv rc).gm.won = s.gm.won ∧
      (gm.moveWith look d rv rc).gm.grid.Placed ∧
      (s.gm.grid.ValuesValid → (gm.moveWith look d rv rc).gm.grid.ValuesValid) := by
  cases ht : gm.isGameTerminated with
  | true =>
    rw [GameManager.moveWith_of_terminated look gm d rv rc ht]
    exact ⟨_, LoopInvariant.untouched hp, rfl, rfl, rfl, rfl, rfl, hp, fun h => h⟩
  | false =>
    obtain ⟨s, h1, -, hm, hmg, hb, hcase⟩ := GameManager.moveWith_spec hl gm d rv rc hp ht
    refine ⟨s, h1, hm, hmg, hb, ?_⟩
    rcases hcase with ⟨hg, -⟩ | ⟨-, gm1, x, y, ha, -, -, -, -, hav⟩
    · rw [hg]
      exact ⟨rfl, rfl, h1.placed, fun h => h⟩
    · have hf := GameManager.addRandomTile_frame ha
      have hpl := GameManager.addRandomTile_placed h1.placed rv rc
      rw [ha] at hpl
      obtain ⟨gm2, hgm2, hpl2⟩ := hpl
      cases hgm2
      rcases hav with ⟨e, -, -, hg⟩ | ⟨b, -, -, hg⟩
      · rw [hg]
        exact ⟨hf.2.1, hf.2.2.2.1, hpl2,
          fun h => GameManager.addRandomTile_valuesValid h ha⟩
      · rw [hg]
        have hvv : s.gm.grid.ValuesValid → gm1.grid.ValuesValid :=
          fun h => GameManager.addRandomTile_valuesValid h ha
        cases b
        · exact ⟨hf.2.1, hf.2.2.2.1, hpl2, hvv⟩
        · exact ⟨hf.2.1, hf.2.2.2.1, hpl2, hvv⟩

/-! ## The claims on what `move` does to the tiles, the score and the flags

`move` reads every cell through `cellContent`, which on this code throws inside the
grid; the claims are proved of `move` and, beyond that, of `move` over every sound way
to read a cell, so that they cover the slides, the merges and the spawn. -/

/-- C5 (merge once): for a game that is not terminated, on a grid that satisfies the
placement invariant, and a result `r` of `move(d)` (of the `move` of the source or of
`move` over any sound way to read a cell): every tile built by a merge has two sources
that stood on the grid before the move and are themselves no merged tiles, and no cell
of before the move was left by two sources, that is no tile that stood on the grid
before the move is a source twice. -/
theorem merge_once (gm : GameManager) (d : Direction) (rv rc : MathRandom)
    (hp : gm.grid.Placed) (h : gm.isGameTerminated = false) (r : MoveResult)
    (hr : r = gm.move d rv rc ∨
      ∃ look : CellLookup, look.Sound ∧ r = gm.moveWith look d rv rc) :
    (∀ m ∈ r.merges, ∃ a b, m.mergedFrom = some (a, b) ∧
      gm.isTileBeforeMove a ∧ gm.isTileBeforeMove b ∧
      a.mergedFrom = none ∧ b.mergedFrom = none) ∧
    (mergeSources r.merges).Nodup := by
  obtain ⟨look, hl, rfl⟩ := GameManager.moveWith_of_result hr
  obtain ⟨s, -, h2, -, hmg, -, -⟩ := GameManager.moveWith_spec hl gm d rv rc hp h
  rw [hmg]
  refine ⟨?_, h2.sources⟩
  intro m hm
  obtain ⟨a, b, hab, -, ha, hb, -, -⟩ := h2.built m hm
  exact ⟨a, b, hab, ha, hb, ha.choose_spec.2.choose_spec.2.2.2,
    hb.choose_spec.2.choose_spec.2.2.2⟩

/-- The row `[2, 2, 2, 2]` moved left over the stored cells: two merges, of the tiles of
the cells `(1, 0)` and `(0, 0)` and of the tiles of the cells `(3, 0)` and `(2, 0)`; the
row becomes `[4, 4, 0, 0]` and neither tile of value 4 merges again. -/
theorem merge_once_witness :
    mergeSources ((gameOn (gridOfRows 4 [[2, 2, 2, 2]])).moveWith Grid.readCells .left
        drawZero drawZero).merges
      = [some ⟨some 1, some 0⟩, some ⟨some 0, some 0⟩,
         some ⟨some 3, some 0⟩, some ⟨some 2, some 0⟩] ∧
    rowsOfGrid ((gameOn (gridOfRows 4 [[2, 2, 2, 2]])).moveWith Grid.readCells .left
        drawZero drawZero).beforeSpawn
      = [[4, 4, 0, 0], [0, 0, 0, 0], [0, 0, 0, 0], [0, 0, 0, 0]] ∧
    ((∀ m ∈ ((gameOn (gridOfRows 4 [[2, 2, 2, 2]])).moveWith Grid.readCells .left
          drawZero drawZero).merges,
        ∃ a b, m.mergedFrom = some (a, b) ∧
          (gameOn (gridOfRows 4 [[2, 2, 2, 2]])).isTileBeforeMove a ∧
          (gameOn (gridOfRows 4 [[2, 2, 2, 2]])).isTileBeforeMove b ∧
          a.mergedFrom = none ∧ b.mergedFrom = none) ∧
      (mergeSources ((gameOn (gridOfRows 4 [[2, 2, 2, 2]])).moveWith Grid.readCells .left
        drawZero drawZero).merges).Nodup) :=
  ⟨by decide, by decide,
   merge_once (gameOn (gridOfRows 4 [[2, 2, 2, 2]])) .left drawZero drawZero (by decide)
     (by decide) _ (Or.inr ⟨Grid.readCells, Grid.readCells_sound, rfl⟩)⟩

/-- C6 (score accounting): for every state, terminated or not, on a grid that satisfies
the placement invariant, and a result `r` of `move(d)` (of the `move` of the source or of
`move` over any sound way to read a cell): the score after is the score before plus the
sum of the values of the merged tiles built by that move, so the score does not
decrease. -/
theorem score_accounting (gm : GameManager) (d : Direction) (rv rc : MathRandom)
    (hp : gm.grid.Placed) (r : MoveResult)
    (hr : r = gm.move d rv rc ∨
      ∃ look : CellLookup, look.Sound ∧ r = gm.moveWith look d rv rc) :
    r.gm.score = gm.score + (r.merges.map Tile.value).sum ∧ gm.score ≤ r.gm.score := by
  obtain ⟨look, hl, rfl⟩ := GameManager.moveWith_of_result hr
  obtain ⟨s, h1, -, hmg, -, hsc, -, -, -⟩ := GameManager.moveWith_frame hl gm d rv rc hp
  have := h1.score
  rw [hsc, hmg]
  omega

/-- The rows `[2, 2, 4, 4]` and `[8, 0, 8, 16]` moved right over the stored cells, from
the score 10: the merged tiles have the values 8, 4 and 16, and the score becomes 38. -/
theorem score_accounting_witness :
    ((({ gameOn (gridOfRows 4 [[2, 2, 4, 4], [8, 0, 8, 16]]) with score := 10 }).moveWith
        Grid.readCells .right drawZero drawZero).merges.map Tile.value = [8, 4, 16] ∧
      (({ gameOn (gridOfRows 4 [[2, 2, 4, 4], [8, 0, 8, 16]]) with score := 10 }).moveWith
        Grid.readCells .right drawZero drawZero).gm.score = 38) ∧
    ((({ gameOn (gridOfRows 4 [[2, 2, 4, 4], [8, 0, 8, 16]]) with score := 10 }).moveWith
        Grid.readCells .right drawZero drawZero).gm.score
      = ({ gameOn (gridOfRows 4 [[2, 2, 4, 4], [8, 0, 8, 16]]) with score := 10 }).score
        + ((({ gameOn (gridOfRows 4 [[2, 2, 4, 4], [8, 0, 8, 16]]) with score := 10 }).moveWith
            Grid.readCells .right drawZero drawZero).merges.map Tile.value).sum ∧
     ({ gameOn (gridOfRows 4 [[2, 2, 4, 4], [8, 0, 8, 16]]) with score := 10 }).score
      ≤ (({ gameOn (gridOfRows 4 [[2, 2, 4, 4], [8, 0, 8, 16]]) with score := 10 }).moveWith
        Grid.readCells .right drawZero drawZero).gm.score) :=
  ⟨by decide,
   score_accounting { gameOn (gridOfRows 4 [[2, 2, 4, 4], [8, 0, 8, 16]]) with score := 10 }
     .right drawZero drawZero (by decide) _
     (Or.inr ⟨Grid.readCells, Grid.readCells_sound, rfl⟩)⟩

/-- C7 (win threshold): for every state on a grid that satisfies the placement invariant,
every direction and a result `r` of `move(d)` (of the `move` of the source or of `move`
over any sound way to read a cell): `won` is true after the move if and only if it was
true before or the move built a merged tile of value 2048; `move` never turns `won` from
true to false. -/
theorem won_after_move (gm : GameManager) (d : Direction) (rv rc : MathRandom)
    (hp : gm.grid.Placed) (r : MoveResult)
    (hr : r = gm.move d rv rc ∨
      ∃ look : CellLookup, look.Sound ∧ r = gm.moveWith look d rv rc) :
    (r.gm.won = true ↔ (gm.won = true ∨ ∃ m ∈ r.merges, m.value = 2048)) ∧
    (gm.won = true → r.gm.won = true) := by
  obtain ⟨look, hl, rfl⟩ := GameManager.moveWith_of_result hr
  obtain ⟨s, h1, -, hmg, -, -, hw, -, -⟩ := GameManager.moveWith_frame hl gm d rv rc hp
  have := h1.won
  rw [hw, hmg, this]
  simp only [Bool.or_eq_true, List.any_eq_true, decide_eq_true_eq]
  exact ⟨trivial, fun h => Or.inl h⟩

/-- The row `[1024, 1024, 0, 0]` moved left over the stored cells builds a tile of value
2048 and sets `won`; the row `[512, 512, 0, 0]` builds a tile of value 1024 and leaves
`won` false; and a game that is won and kept playing stays won. -/
theorem won_after_move_witness :
    (((gameOn (gridOfRows 4 [[1024, 1024, 0, 0]])).moveWith Grid.readCells .left
        drawZero drawZero).gm.won = true ∧
      ((gameOn (gridOfRows 4 [[512, 512, 0, 0]])).moveWith Grid.readCells .left
        drawZero drawZero).gm.won = false ∧
      (({ gameOn (gridOfRows 4 [[2, 0, 0, 0]]) with won := true, keepPlaying := true }).moveWith
        Grid.readCells .left drawZero drawZero).gm.won = true) ∧
    ((((gameOn (gridOfRows 4 [[1024, 1024, 0, 0]])).moveWith Grid.readCells .left
          drawZero drawZero).gm.won = true ↔
        ((gameOn (gridOfRows 4 [[1024, 1024, 0, 0]])).won = true ∨
          ∃ m ∈ ((gameOn (gridOfRows 4 [[1024, 1024, 0, 0]])).moveWith Grid.readCells .left
            drawZero drawZero).merges, m.value = 2048)) ∧
      ((gameOn (gridOfRows 4 [[1024, 1024, 0, 0]])).won = true →
        ((gameOn (gridOfRows 4 [[1024, 1024, 0, 0]])).moveWith Grid.readCells .left
          drawZero drawZero).gm.won = true)) :=
  ⟨by decide,
   won_after_move (gameOn (gridOfRows 4 [[1024, 1024, 0, 0]])) .left drawZero drawZero
     (by decide) _ (Or.inr ⟨Grid.readCells, Grid.readCells_sound, rfl⟩)⟩

/-- C8 as stated fails: on the grid of size 1 that holds one tile of value 2, the game
is not terminated, and after `move(up)` the grid has no empty cell and no two adjacent
tiles of equal value, yet `over` is false; on the grid of size 0, where `move` returns
without an exception, the grid has no cell at all, and `over` is false as well; and over
the stored cells, on the full grid with the rows `[2, 4]` and `[4, 2]`, `move(up)` moves
nothing, returns without an exception and leaves `over` false on a grid without an empty
cell and without two adjacent tiles of equal value. -/
theorem over_not_set_on_full_grid :
    ((gameOn (gridOfRows 1 [[2]])).isGameTerminated = false ∧
      ¬ (((gameOn (gridOfRows 1 [[2]])).move .up drawZero drawZero).gm.over = true ↔
        (((gameOn (gridOfRows 1 [[2]])).move .up drawZero drawZero).gm.grid.hasEmptyCell
            = false ∧
         ((gameOn (gridOfRows 1 [[2]])).move .up drawZero drawZero).gm.grid.hasEqualNeighbours
            = false))) ∧
    ((gameOn (Grid.new 0 none)).isGameTerminated = false ∧
      ((gameOn (Grid.new 0 none)).move .up drawZero drawZero).error = none ∧
      ¬ (((gameOn (Grid.new 0 none)).move .up drawZero drawZero).gm.over = true ↔
        (((gameOn (Grid.new 0 none)).move .up drawZero drawZero).gm.grid.hasEmptyCell
            = false ∧
         ((gameOn (Grid.new 0 none)).move .up drawZero drawZero).gm.grid.hasEqualNeighbours
            = false))) ∧
    ((gameOn (gridOfRows 2 [[2, 4], [4, 2]])).isGameTerminated = false ∧
      ((gameOn (gridOfRows 2 [[2, 4], [4, 2]])).moveWith Grid.readCells .up
        drawZero drawZero).error = none ∧
      ((gameOn (gridOfRows 2 [[2, 4], [4, 2]])).moveWith Grid.readCells .up
        drawZero drawZero).moved = false ∧
      ¬ (((gameOn (gridOfRows 2 [[2, 4], [4, 2]])).moveWith Grid.readCells .up
            drawZero drawZero).gm.over = true ↔
        (((gameOn (gridOfRows 2 [[2, 4], [4, 2]])).moveWith Grid.readCells .up
            drawZero drawZero).gm.grid.hasEmptyCell = false ∧
         ((gameOn (gridOfRows 2 [[2, 4], [4, 2]])).moveWith Grid.readCells .up
            drawZero drawZero).gm.grid.hasEqualNeighbours = false))) := by
  decide

/-- C8 amended (termination flag): for a game that is not terminated, on a grid that
satisfies the placement invariant and has the size of the manager, and a result `r` of
`move(d)` (of the `move` of the source or of `move` over any sound way to read a cell):
`over` is true after the move if and only if the move changed the position of a tile,
returned without an exception, and the grid it leaves, after the spawn, has no empty cell
and no two orthogonally adjacent tiles of equal value. -/
theorem over_after_move (gm : GameManager) (d : Direction) (rv rc : MathRandom)
    (hp : gm.grid.Placed) (hs : gm.size = gm.grid.size) (h : gm.isGameTerminated = false)
    (r : MoveResult)
    (hr : r = gm.move d rv rc ∨
      ∃ look : CellLookup, look.Sound ∧ r = gm.moveWith look d rv rc) :
    r.gm.over = true ↔
      (r.moved = true ∧ r.error = none ∧ r.gm.grid.hasEmptyCell = false ∧
        r.gm.grid.hasEqualNeighbours = false) := by
  obtain ⟨look, hl, rfl⟩ := GameManager.moveWith_of_result hr
  have ho : gm.over = false := by
    unfold GameManager.isGameTerminated at h
    cases hov : gm.over
    · rfl
    · simp [hov] at h
  obtain ⟨s, h1, -, hm, -, -, hcase⟩ := GameManager.moveWith_spec hl gm d rv rc hp h
  rcases hcase with ⟨hg, he⟩ | ⟨hsm, gm1, x, y, ha, -, -, -, -, hav⟩
  · have hov : (gm.moveWith look d rv rc).gm.over = false := by rw [hg, h1.over, ho]
    rw [hov]
    constructor
    · intro hc
      cases hc
    · rintro ⟨h3, h4, -⟩
      rw [hm, he h4] at h3
      cases h3
  · have hf := GameManager.addRandomTile_frame ha
    have hov1 : gm1.over = false := by rw [hf.2.2.1, h1.over, ho]
    rcases hav with ⟨e, -, he, hg⟩ | ⟨b, hb, he, hg⟩
    · rw [hg, hov1, he]
      simp
    · have hb2 := GameManager.movesAvailableWith_spec hl gm1
        (by rw [hf.1, hf.2.2.2.2.2, h1.size, h1.gridSize]; exact hs) b hb
      rw [hm, hsm, he, hg]
      cases b
      · have hb3 := hb2.symm
        rw [Bool.or_eq_false_iff] at hb3
        simp [hb3.1, hb3.2]
      · have hb3 := hb2.symm
        rw [Bool.or_eq_true] at hb3
        simp only [if_true, hov1, Bool.false_eq_true, true_and, false_iff, not_and,
          Bool.not_eq_false]
        intro h5
        rcases hb3 with h6 | h6
        · rw [h6] at h5
          cases h5
        · exact h6

/-- Two moves over the stored cells on grids of size 2.  The rows `[4, 0]` and `[8, 16]`
moved right: the 4 slides, a 2 is spawned in the one empty cell, the grid `[2, 4]`,
`[8, 16]` has no empty cell and no equal neighbours, and `over` is true.  The rows
`[2, 2]` and `[8, 16]` moved left: the grid becomes `[4, 2]`, `[8, 16]`, full as well and
without equal neighbours, and `over` is true; moved up, nothing moves and `over` stays
false. -/
theorem over_after_move_witness :
    (rowsOfGrid ((gameOn (gridOfRows 2 [[4, 0], [8, 16]])).moveWith Grid.readCells .right
        drawZero drawZero).gm.grid = [[2, 4], [8, 16]] ∧
      ((gameOn (gridOfRows 2 [[4, 0], [8, 16]])).moveWith Grid.readCells .right
        drawZero drawZero).gm.over = true ∧
      ((gameOn (gridOfRows 2 [[2, 2], [8, 16]])).moveWith Grid.readCells .left
        drawZero drawZero).gm.over = true ∧
      ((gameOn (gridOfRows 2 [[2, 2], [8, 16]])).moveWith Grid.readCells .up
        drawZero drawZero).gm.over = false) ∧
    (((gameOn (gridOfRows 2 [[4, 0], [8, 16]])).moveWith Grid.readCells .right
        drawZero drawZero).gm.over = true ↔
      (((gameOn (gridOfRows 2 [[4, 0], [8, 16]])).moveWith Grid.readCells .right
          drawZero drawZero).moved = true ∧
        ((gameOn (gridOfRows 2 [[4, 0], [8, 16]])).moveWith Grid.readCells .right
          drawZero drawZero).error = none ∧
        ((gameOn (gridOfRows 2 [[4, 0], [8, 16]])).moveWith Grid.readCells .right
          drawZero drawZero).gm.grid.hasEmptyCell = false ∧
        ((gameOn (gridOfRows 2 [[4, 0], [8, 16]])).moveWith Grid.readCells .right
          drawZero drawZero).gm.grid.hasEqualNeighbours = false)) :=
  ⟨by decide,
   over_after_move (gameOn (gridOfRows 2 [[4, 0], [8, 16]])) .right drawZero drawZero
     (by decide) (by decide) (by decide) _
     (Or.inr ⟨Grid.readCells, Grid.readCells_sound, rfl⟩)⟩

/-- C10 (placement invariant): the invariant holds for the empty grid and is kept by
`insertTile` and `removeTile` for a tile whose position is within bounds, by `moveTile`
for a tile of the grid (its own position is then within bounds) and a target cell within
bounds, by `addRandomTile`, and by `move(d)` for every direction, both at the end of the
loops and after the spawn, for the `move` of the source and for `move` over any sound
way to read a cell; the first four do not throw there. -/
theorem placement_invariant :
    (∀ n : Nat, (Grid.new n none).Placed) ∧
    (∀ (g : Grid) (tile : Tile), g.Placed → g.tileWithinBounds tile = true →
      ∃ g2, g.insertTile tile = .ok g2 ∧ g2.Placed) ∧
    (∀ (g : Grid) (tile : Tile), g.Placed → g.tileWithinBounds tile = true →
      ∃ g2, g.removeTile tile = .ok g2 ∧ g2.Placed) ∧
    (∀ (gm : GameManager) (tile : Tile) (cell : Pos), gm.grid.Placed →
      gm.grid.tileWithinBounds tile = true → gm.grid.withinBounds cell = true →
      (gm.moveTile tile cell).2 = .ok (tile.updatePosition cell) ∧
        (gm.moveTile tile cell).1.grid.Placed) ∧
    (∀ (gm : GameManager) (rv rc : MathRandom), gm.grid.Placed →
      ∃ gm2, gm.addRandomTile rv rc = .ok gm2 ∧ gm2.grid.Placed) ∧
    (∀ (gm : GameManager) (d : Direction) (rv rc : MathRandom) (r : MoveResult),
      gm.grid.Placed →
      (r = gm.move d rv rc ∨
        ∃ look : CellLookup, look.Sound ∧ r = gm.moveWith look d rv rc) →
      r.beforeSpawn.Placed ∧ r.gm.grid.Placed) := by
  refine ⟨Grid.Placed.empty, fun _ _ hp ht => hp.insertTile ht,
    fun _ _ hp ht => hp.removeTile ht,
    fun _ _ _ hp ht hc => GameManager.moveTile_placed hp ht hc,
    fun _ rv rc hp => GameManager.addRandomTile_placed hp rv rc, ?_⟩
  intro gm d rv rc r hp hr
  obtain ⟨look, hl, rfl⟩ := GameManager.moveWith_of_result hr
  obtain ⟨s, h1, -, -, hb, -, -, hpl, -⟩ := GameManager.moveWith_frame hl gm d rv rc hp
  rw [hb]
  exact ⟨h1.placed, hpl⟩

/-- The invariant on the empty grid of size 2, after a tile is inserted in its cell
`(1, 0)`, and, from the grid that holds that tile, after the tile is removed, after it is
moved to `(0, 1)` and after a spawn; and over the stored cells, on the grid of size 4
with the rows `[2, 2, 4, 0]` and `[0, 4, 0, 4]`, after `move(left)`, which slides tiles,
merges two pairs and spawns a tile: the loops leave the rows `[4, 4, 0, 0]` and
`[8, 0, 0, 0]`. -/
theorem placement_invariant_witness :
    rowsOfGrid ((gameOn (gridOfRows 4 [[2, 2, 4, 0], [0, 4, 0, 4]])).moveWith Grid.readCells
        .left drawZero drawZero).beforeSpawn
      = [[4, 4, 0, 0], [8, 0, 0, 0], [0, 0, 0, 0], [0, 0, 0, 0]] ∧
    (Grid.new 2 none).Placed ∧
    (∃ g2, (Grid.new 2 none).insertTile (Tile.new ⟨some 1, some 0⟩ 2) = .ok g2 ∧ g2.Placed) ∧
    (∃ g2, (gridOfRows 2 [[0, 2]]).removeTile (Tile.new ⟨some 1, some 0⟩ 2) = .ok g2 ∧
      g2.Placed) ∧
    ((gameOn (gridOfRows 2 [[0, 2]])).moveTile (Tile.new ⟨some 1, some 0⟩ 2) ⟨0, 1⟩).1.grid.Placed ∧
    (∃ gm2, (gameOn (gridOfRows 2 [[0, 2]])).addRandomTile drawZero drawZero = .ok gm2 ∧
      gm2.grid.Placed) ∧
    (((gameOn (gridOfRows 4 [[2, 2, 4, 0], [0, 4, 0, 4]])).moveWith Grid.readCells
        .left drawZero drawZero).beforeSpawn.Placed ∧
      ((gameOn (gridOfRows 4 [[2, 2, 4, 0], [0, 4, 0, 4]])).moveWith Grid.readCells
        .left drawZero drawZero).gm.grid.Placed) :=
  ⟨by decide,
   placement_invariant.1 2,
   placement_invariant.2.1 _ _ (by decide) (by decide),
   placement_invariant.2.2.1 _ _ (by decide) (by decide),
   (placement_invariant.2.2.2.1 (gameOn (gridOfRows 2 [[0, 2]])) _ ⟨0, 1⟩
      (by decide) (by decide) (by decide)).2,
   placement_invariant.2.2.2.2.1 (gameOn (gridOfRows 2 [[0, 2]])) drawZero drawZero
      (by decide),
   placement_invariant.2.2.2.2.2 (gameOn (gridOfRows 4 [[2, 2, 4, 0], [0, 4, 0, 4]])) .left
      drawZero drawZero _ (by decide) (Or.inr ⟨Grid.readCells, Grid.readCells_sound, rfl⟩)⟩

/-- C13 (tile values): when every tile on the grid has a value that is a power of 2 and
at least 2, so has every tile of the grid that `addRandomTile` returns (and it does
return one on a grid with its `size` columns), and so has, on a grid that satisfies the
placement invariant, every tile of the grid that `move(d)` leaves, at the end of the
loops and after the spawn, for the `move` of the source and for `move` over any sound way
to read a cell. -/
theorem tile_values_stay_valid :
    (∀ (gm : GameManager) (rv rc : MathRandom), gm.grid.ValuesValid →
      (∀ gm2, gm.addRandomTile rv rc = .ok gm2 → gm2.grid.ValuesValid) ∧
      (gm.grid.cells.length = gm.grid.size → ∃ gm2, gm.addRandomTile rv rc = .ok gm2)) ∧
    (∀ (gm : GameManager) (d : Direction) (rv rc : MathRandom) (r : MoveResult),
      gm.grid.Placed → gm.grid.ValuesValid →
      (r = gm.move d rv rc ∨
        ∃ look : CellLookup, look.Sound ∧ r = gm.moveWith look d rv rc) →
      r.beforeSpawn.ValuesValid ∧ r.gm.grid.ValuesValid) := by
  refine ⟨fun gm rv rc hv => ⟨fun gm2 h => GameManager.addRandomTile_valuesValid hv h,
    fun hs => GameManager.addRandomTile_ok gm rv rc hs⟩, ?_⟩
  intro gm d rv rc r hp hv hr
  obtain ⟨look, hl, rfl⟩ := GameManager.moveWith_of_result hr
  obtain ⟨s, h1, -, -, hb, -, -, -, hvv⟩ := GameManager.moveWith_frame hl gm d rv rc hp
  rw [hb]
  exact ⟨h1.values hv, hvv (h1.values hv)⟩

/-- The grid of size 2 with the rows `[2, 4]` and `[0, 8]` after a spawn, which puts a 2
in the cell `(0, 1)`; and over the stored cells, the grid of size 4 with the rows
`[2, 2, 4, 4]` and `[0, 8, 0, 8]` after `move(left)`: the merged tiles have the values 4,
8 and 16, and the spawned tile, in the cell `(0, 2)`, has the value 2. -/
theorem tile_values_stay_valid_witness :
    ((gameOn (gridOfRows 2 [[2, 4], [0, 8]])).addRandomTile drawZero drawZero
        = .ok (gameOn (gridOfRows 2 [[2, 4], [2, 8]])) ∧
      rowsOfGrid ((gameOn (gridOfRows 4 [[2, 2, 4, 4], [0, 8, 0, 8]])).moveWith
        Grid.readCells .left drawZero drawZero).gm.grid
        = [[4, 8, 0, 0], [16, 0, 0, 0], [2, 0, 0, 0], [0, 0, 0, 0]]) ∧
    (gridOfRows 2 [[2, 4], [2, 8]]).ValuesValid ∧
    (((gameOn (gridOfRows 4 [[2, 2, 4, 4], [0, 8, 0, 8]])).moveWith Grid.readCells .left
        drawZero drawZero).beforeSpawn.ValuesValid ∧
      ((gameOn (gridOfRows 4 [[2, 2, 4, 4], [0, 8, 0, 8]])).moveWith Grid.readCells .left
        drawZero drawZero).gm.grid.ValuesValid) :=
  ⟨⟨rfl, by decide⟩,
   (tile_values_stay_valid.1 (gameOn (gridOfRows 2 [[2, 4], [0, 8]])) drawZero drawZero
      (by decide)).1 (gameOn (gridOfRows 2 [[2, 4], [2, 8]])) rfl,
   tile_values_stay_valid.2 (gameOn (gridOfRows 4 [[2, 2, 4, 4], [0, 8, 0, 8]])) .left
      drawZero drawZero _ (by decide) (by decide)
      (Or.inr ⟨Grid.readCells, Grid.readCells_sound, rfl⟩)⟩

theorem GameManager.carriedOver_of_isTileBeforeMove {gm : GameManager} (hp : gm.grid.Placed)
    {t : Tile} (h : gm.isTileBeforeMove t) : gm.carriedOver t := by
  obtain ⟨c, hc, t0, ht0, hv, hpp, hm⟩ := h
  have hxy := hp.2.2 c hc t0 ht0
  refine ⟨hm, c, hc, t0, ht0, ?_, hv⟩
  rw [hpp, hxy.1, hxy.2]

theorem mergeSources_nodup_pair {l : List Tile} (hn : (mergeSources l).Nodup) {m a b : Tile}
    (hm : m ∈ l) (hab : m.mergedFrom = some (a, b)) :
    a.previousPosition ≠ b.previousPosition := by
  induction l with
  | nil => cases hm
  | cons m2 l ih =>
    unfold mergeSources at hn
    rw [List.flatMap_cons, List.nodup_append] at hn
    rcases List.mem_cons.1 hm with rfl | hm2
    · have h1 := hn.1
      rw [hab] at h1
      simp only [List.nodup_cons, List.mem_singleton, List.not_mem_nil, not_false_eq_true,
        List.nodup_nil, and_true] at h1
      exact h1
    · exact ih hn.2.1 hm2

/-- A tile on the grid in which the loops of `move` end is a tile carried over or a tile
merged by this move. -/
theorem MergeInvariant.classify {gm : GameManager} {s : MoveState}
    (hi : MergeInvariant gm [] s) (hp : gm.grid.Placed) {x y : Nat} {t : Tile}
    (h : readAt s.gm.grid.cells x y = some t) : gm.carriedOver t ∨ gm.mergedNow t := by
  rcases hi.onGrid x y t h with hb | hmem
  · exact Or.inl (GameManager.carriedOver_of_isTileBeforeMove hp hb)
  · obtain ⟨a, b, hab, hpp, ha, hb, hva, hvb⟩ := hi.built t hmem
    exact Or.inr ⟨hpp, (a, b), hab, GameManager.carriedOver_of_isTileBeforeMove hp ha,
      GameManager.carriedOver_of_isTileBeforeMove hp hb, hva, hvb,
      mergeSources_nodup_pair hi.sources hmem hab⟩

theorem GameManager.carriedOver_only {gm : GameManager} {t : Tile} (h : gm.carriedOver t) :
    ¬ gm.mergedNow t ∧ ¬ t.freshlySpawned := by
  obtain ⟨-, c, -, t0, -, hpp, -⟩ := h
  constructor
  · rintro ⟨h1, -⟩
    rw [hpp] at h1
    cases h1
  · rintro ⟨h1, -⟩
    rw [hpp] at h1
    cases h1

theorem GameManager.mergedNow_only {gm : GameManager} {t : Tile} (h : gm.mergedNow t) :
    ¬ gm.carriedOver t ∧ ¬ t.freshlySpawned := by
  obtain ⟨-, p, hp, -⟩ := h
  constructor
  · rintro ⟨h1, -⟩
    rw [h1] at hp
    cases hp
  · rintro ⟨-, h1⟩
    rw [h1] at hp
    cases hp

/-- C14 (tile metadata after a move): for a game that is not terminated, on a grid that
satisfies the placement invariant, and a result `r` of `move(d)` (of the `move` of the
source or of `move` over any sound way to read a cell), whether it moved something or
not: every tile on the grid at the end of the loops is carried over or merged by this
move, and every tile on the grid that the move leaves is of exactly one of three kinds:
carried over (no `mergedFrom`, `previousPosition` the cell of a tile of its value before
the move), merged by this move (no `previousPosition`, `mergedFrom` two tiles carried
over from two cells, each of half its value), or freshly spawned (neither
`previousPosition` nor `mergedFrom`); so no `mergedFrom` of an earlier move is left; and
two tiles carried over into two cells have left two cells. -/
theorem tile_metadata_after_move (gm : GameManager) (d : Direction) (rv rc : MathRandom)
    (hp : gm.grid.Placed) (h : gm.isGameTerminated = false) (r : MoveResult)
    (hr : r = gm.move d rv rc ∨
      ∃ look : CellLookup, look.Sound ∧ r = gm.moveWith look d rv rc) :
    (∀ x y t, readAt r.beforeSpawn.cells x y = some t →
      gm.carriedOver t ∨ gm.mergedNow t) ∧
    (∀ x y t, readAt r.gm.grid.cells x y = some t →
      (gm.carriedOver t ∧ ¬ gm.mergedNow t ∧ ¬ t.freshlySpawned) ∨
      (gm.mergedNow t ∧ ¬ gm.carriedOver t ∧ ¬ t.freshlySpawned) ∨
      (t.freshlySpawned ∧ ¬ gm.carriedOver t ∧ ¬ gm.mergedNow t)) ∧
    (∀ x y x2 y2 t t2, readAt r.gm.grid.cells x y = some t →
      readAt r.gm.grid.cells x2 y2 = some t2 → gm.carriedOver t → gm.carriedOver t2 →
      t.previousPosition = t2.previousPosition → x = x2 ∧ y = y2) := by
  obtain ⟨look, hl, rfl⟩ := GameManager.moveWith_of_result hr
  obtain ⟨s, h1, h2, -, -, hb, hcase⟩ := GameManager.moveWith_spec hl gm d rv rc hp h
  have hold : ∀ x y t, readAt s.gm.grid.cells x y = some t →
      (gm.carriedOver t ∧ ¬ gm.mergedNow t ∧ ¬ t.freshlySpawned) ∨
      (gm.mergedNow t ∧ ¬ gm.carriedOver t ∧ ¬ t.freshlySpawned) ∨
      (t.freshlySpawned ∧ ¬ gm.carriedOver t ∧ ¬ gm.mergedNow t) := by
    intro x y t ht
    rcases h2.classify hp ht with hc | hc
    · exact Or.inl ⟨hc, GameManager.carriedOver_only hc⟩
    · exact Or.inr (Or.inl ⟨hc, GameManager.mergedNow_only hc⟩)
  have hnew : ∀ (sx sy : Nat) (v : Nat),
      ¬ gm.carriedOver (Tile.new ⟨some (sx : Int), some (sy : Int)⟩ v) := by
    rintro sx sy v ⟨-, c, -, t0, -, hpp, -⟩
    cases hpp
  refine ⟨fun x y t ht => h2.classify hp (by rw [← hb]; exact ht), ?_, ?_⟩
  · intro x y t ht
    rcases hcase with ⟨hg, -⟩ | ⟨-, gm1, sx, sy, -, -, -, -, hread, hav⟩
    · rw [hg] at ht
      exact hold x y t ht
    · have hgrid : (gm.moveWith look d rv rc).gm.grid = gm1.grid := by
        rcases hav with ⟨e, -, -, hg⟩ | ⟨b, -, -, hg⟩
        · rw [hg]
        · rw [hg]
          cases b <;> rfl
      rw [hgrid, hread] at ht
      split at ht
      · cases ht
        refine Or.inr (Or.inr ⟨⟨rfl, rfl⟩, hnew sx sy _, ?_⟩)
        rintro ⟨-, p, hp2, -⟩
        cases hp2
      · exact hold x y t ht
  · intro x y x2 y2 t t2 ht ht2 hc hc2 hpp
    rcases hcase with ⟨hg, -⟩ | ⟨-, gm1, sx, sy, -, -, -, -, hread, hav⟩
    · rw [hg] at ht ht2
      exact h2.apart _ _ _ _ _ _ ht ht2 hc.1 hc2.1 hpp
    · have hgrid : (gm.moveWith look d rv rc).gm.grid = gm1.grid := by
        rcases hav with ⟨e, -, -, hg⟩ | ⟨b, -, -, hg⟩
        · rw [hg]
        · rw [hg]
          cases b <;> rfl
      rw [hgrid, hread] at ht ht2
      split at ht
      · cases ht
        exact absurd hc (hnew sx sy _)
      · split at ht2
        · cases ht2
          exact absurd hc2 (hnew sx sy _)
        · exact h2.apart _ _ _ _ _ _ ht ht2 hc.1 hc2.1 hpp

/-- The row `[2, 2, 0, 4]` moved left over the stored cells: the loops leave the row
`[4, 4, 0, 0]` and a 2 is spawned in the cell `(0, 1)`; the tile of the cell `(0, 0)` is
merged from the tiles that left the cells `(1, 0)` and `(0, 0)`, the tile of the cell
`(1, 0)` is carried over from the cell `(3, 0)`, and the tile of the cell `(0, 1)` is
freshly spawned. -/
theorem tile_metadata_after_move_witness :
    (readAt ((gameOn (gridOfRows 4 [[2, 2, 0, 4]])).moveWith Grid.readCells .left
        drawZero drawZero).gm.grid.cells 0 0
      = some (Tile.merged (some 0) (some 0) 4 none
          (Tile.plain (some 0) (some 0) 2 (some ⟨some 1, some 0⟩))
          (Tile.plain (some 0) (some 0) 2 (some ⟨some 0, some 0⟩))) ∧
      readAt ((gameOn (gridOfRows 4 [[2, 2, 0, 4]])).moveWith Grid.readCells .left
        drawZero drawZero).gm.grid.cells 1 0
      = some (Tile.plain (some 1) (some 0) 4 (some ⟨some 3, some 0⟩)) ∧
      readAt ((gameOn (gridOfRows 4 [[2, 2, 0, 4]])).moveWith Grid.readCells .left
        drawZero drawZero).gm.grid.cells 0 1
      = some (Tile.plain (some 0) (some 1) 2 none)) ∧
    ((∀ x y t, readAt ((gameOn (gridOfRows 4 [[2, 2, 0, 4]])).moveWith Grid.readCells .left
          drawZero drawZero).beforeSpawn.cells x y = some t →
        (gameOn (gridOfRows 4 [[2, 2, 0, 4]])).carriedOver t ∨
        (gameOn (gridOfRows 4 [[2, 2, 0, 4]])).mergedNow t) ∧
      (∀ x y t, readAt ((gameOn (gridOfRows 4 [[2, 2, 0, 4]])).moveWith Grid.readCells .left
          drawZero drawZero).gm.grid.cells x y = some t →
        ((gameOn (gridOfRows 4 [[2, 2, 0, 4]])).carriedOver t ∧
          ¬ (gameOn (gridOfRows 4 [[2, 2, 0, 4]])).mergedNow t ∧ ¬ t.freshlySpawned) ∨
        ((gameOn (gridOfRows 4 [[2, 2, 0, 4]])).mergedNow t ∧
          ¬ (gameOn (gridOfRows 4 [[2, 2, 0, 4]])).carriedOver t ∧ ¬ t.freshlySpawned) ∨
        (t.freshlySpawned ∧ ¬ (gameOn (gridOfRows 4 [[2, 2, 0, 4]])).carriedOver t ∧
          ¬ (gameOn (gridOfRows 4 [[2, 2, 0, 4]])).mergedNow t))) :=
  ⟨by decide,
   (tile_metadata_after_move (gameOn (gridOfRows 4 [[2, 2, 0, 4]])) .left drawZero drawZero
     (by decide) (by decide) _ (Or.inr ⟨Grid.readCells, Grid.readCells_sound, rfl⟩)).1,
   (tile_metadata_after_move (gameOn (gridOfRows 4 [[2, 2, 0, 4]])) .left drawZero drawZero
     (by decide) (by decide) _ (Or.inr ⟨Grid.readCells, Grid.readCells_sound, rfl⟩)).2.1⟩

/-- C20 (an effective move spawns one tile): for a game that is not terminated, on a grid
that satisfies the placement invariant, and a result `r` of `move(d)` (of the `move` of
the source or of `move` over any sound way to read a cell) that changed the position of
a tile and returned without an exception: the grid has an empty cell when the loops end,
the spawn fills one empty cell with a new tile and leaves the other cells alone, and the
number of tiles after the move is the number before, minus the number of merges, plus
one. -/
theorem effective_move_spawns_one_tile (gm : GameManager) (d : Direction)
    (rv rc : MathRandom) (hp : gm.grid.Placed) (h : gm.isGameTerminated = false)
    (r : MoveResult)
    (hr : r = gm.move d rv rc ∨
      ∃ look : CellLookup, look.Sound ∧ r = gm.moveWith look d rv rc)
    (hm : r.moved = true) (he : r.error = none) :
    r.beforeSpawn.hasEmptyCell = true ∧
    (∃ x y v, x < r.beforeSpawn.size ∧ y < r.beforeSpawn.size ∧
      readAt r.beforeSpawn.cells x y = none ∧
      ∀ x2 y2, readAt r.gm.grid.cells x2 y2 =
        if x2 = x ∧ y2 = y then some (Tile.new ⟨some (x : Int), some (y : Int)⟩ v)
        else readAt r.beforeSpawn.cells x2 y2) ∧
    r.beforeSpawn.tileCount + r.merges.length = gm.grid.tileCount ∧
    r.gm.grid.tileCount = r.beforeSpawn.tileCount + 1 ∧
    r.gm.grid.tileCount + r.merges.length = gm.grid.tileCount + 1 := by
  obtain ⟨look, hl, rfl⟩ := GameManager.moveWith_of_result hr
  obtain ⟨s, h1, -, hmv, hmg, hb, hcase⟩ := GameManager.moveWith_spec hl gm d rv rc hp h
  rcases hcase with ⟨-, hno⟩ | ⟨hsm, gm1, sx, sy, ha, hsx, hsy, hn, hread, hav⟩
  · rw [hmv, hno he] at hm
    cases hm
  · have hgrid : (gm.moveWith look d rv rc).gm.grid = gm1.grid := by
      rcases hav with ⟨e, -, -, hg⟩ | ⟨b, -, -, hg⟩
      · rw [hg]
      · rw [hg]
        cases b <;> rfl
    have hc1 := GameManager.addRandomTile_tileCount h1.placed.1 (h1.empty hsm) ha
    have hc2 := h1.count
    rw [hb, hmg, hgrid]
    refine ⟨h1.empty hsm, ⟨sx, sy, _, hsx, hsy, hn, hread⟩, hc2, hc1, ?_⟩
    omega

/-- The rows `[2, 2, 4, 0]` and `[0, 0, 0, 8]` moved left over the stored cells: three
tiles slide, one merge is made, and a 2 is spawned in the cell `(0, 2)`; of the four
tiles of before, `4 - 1 + 1 = 4` are left. -/
theorem effective_move_spawns_one_tile_witness :
    ((gridOfRows 4 [[2, 2, 4, 0], [0, 0, 0, 8]]).tileCount = 4 ∧
      rowsOfGrid ((gameOn (gridOfRows 4 [[2, 2, 4, 0], [0, 0, 0, 8]])).moveWith Grid.readCells
        .left drawZero drawZero).gm.grid
        = [[4, 4, 0, 0], [8, 0, 0, 0], [2, 0, 0, 0], [0, 0, 0, 0]] ∧
      ((gameOn (gridOfRows 4 [[2, 2, 4, 0], [0, 0, 0, 8]])).moveWith Grid.readCells
        .left drawZero drawZero).merges.length = 1 ∧
      ((gameOn (gridOfRows 4 [[2, 2, 4, 0], [0, 0, 0, 8]])).moveWith Grid.readCells
        .left drawZero drawZero).gm.grid.tileCount = 4) ∧
    (((gameOn (gridOfRows 4 [[2, 2, 4, 0], [0, 0, 0, 8]])).moveWith Grid.readCells
        .left drawZero drawZero).beforeSpawn.hasEmptyCell = true ∧
      ((gameOn (gridOfRows 4 [[2, 2, 4, 0], [0, 0, 0, 8]])).moveWith Grid.readCells
          .left drawZero drawZero).gm.grid.tileCount
        + ((gameOn (gridOfRows 4 [[2, 2, 4, 0], [0, 0, 0, 8]])).moveWith Grid.readCells
          .left drawZero drawZero).merges.length
        = (gameOn (gridOfRows 4 [[2, 2, 4, 0], [0, 0, 0, 8]])).grid.tileCount + 1) :=
  ⟨by decide,
   (effective_move_spawns_one_tile (gameOn (gridOfRows 4 [[2, 2, 4, 0], [0, 0, 0, 8]])) .left
      drawZero drawZero (by decide) (by decide) _
      (Or.inr ⟨Grid.readCells, Grid.readCells_sound, rfl⟩) (by decide) (by decide)).1,
   (effective_move_spawns_one_tile (gameOn (gridOfRows 4 [[2, 2, 4, 0], [0, 0, 0, 8]])) .left
      drawZero drawZero (by decide) (by decide) _
      (Or.inr ⟨Grid.readCells, Grid.readCells_sound, rfl⟩) (by decide) (by decide)).2.2.2.2⟩

/-- C21 (value conservation): for every state on a grid that satisfies the placement
invariant, every direction and a result `r` of `move(d)` (of the `move` of the source or
of `move` over any sound way to read a cell): the sum of the tile values on the grid at
the end of the loops is the sum before the move; when nothing moved, the sum after the
move is the sum before; and when something moved and the move returned without an
exception, one cell that was empty holds a new tile of value 2 or 4 and the sum after
the move is the sum before plus that value. -/
theorem value_conservation (gm : GameManager) (d : Direction) (rv rc : MathRandom)
    (hp : gm.grid.Placed) (r : MoveResult)
    (hr : r = gm.move d rv rc ∨
      ∃ look : CellLookup, look.Sound ∧ r = gm.moveWith look d rv rc) :
    r.beforeSpawn.sumValues = gm.grid.sumValues ∧
    (r.moved = false → r.gm.grid.sumValues = gm.grid.sumValues) ∧
    (r.moved = true → r.error = none →
      ∃ x y v, (v = 2 ∨ v = 4) ∧ readAt r.beforeSpawn.cells x y = none ∧
        readAt r.gm.grid.cells x y = some (Tile.new ⟨some (x : Int), some (y : Int)⟩ v) ∧
        r.gm.grid.sumValues = gm.grid.sumValues + v) := by
  obtain ⟨look, hl, rfl⟩ := GameManager.moveWith_of_result hr
  cases ht : gm.isGameTerminated with
  | true =>
    rw [GameManager.moveWith_of_terminated look gm d rv rc ht]
    exact ⟨rfl, fun _ => rfl, fun h => by cases h⟩
  | false =>
    obtain ⟨s, h1, -, hmv, -, hb, hcase⟩ := GameManager.moveWith_spec hl gm d rv rc hp ht
    rw [hb, hmv]
    refine ⟨h1.sum, ?_, ?_⟩
    · intro hm
      rcases hcase with ⟨hg, -⟩ | ⟨hsm, -⟩
      · rw [hg]
        exact h1.sum
      · rw [hm] at hsm
        cases hsm
    · intro hm he
      rcases hcase with ⟨-, hno⟩ | ⟨-, gm1, sx, sy, ha, -, -, hn, hread, hav⟩
      · rw [hno he] at hm
        cases hm
      · have hgrid : (gm.moveWith look d rv rc).gm.grid = gm1.grid := by
          rcases hav with ⟨e, -, -, hg⟩ | ⟨b, -, -, hg⟩
          · rw [hg]
          · rw [hg]
            cases b <;> rfl
        obtain ⟨gm2, ha2, hsum⟩ := GameManager.addRandomTile_sumValues s.gm rv rc h1.placed.1
        rw [ha] at ha2
        cases ha2
        rw [Grid.cellsAvailable_eq_hasEmptyCell, h1.empty hm, if_pos rfl, h1.sum] at hsum
        rw [hgrid]
        refine ⟨sx, sy, if rv.below09 then 2 else 4, ?_, hn, ?_, hsum⟩
        · split
          · exact Or.inl rfl
          · exact Or.inr rfl
        · rw [hread]
          simp

/-- The rows `[2, 2, 4, 0]` and `[0, 8, 0, 8]`, of sum 24, moved left over the stored
cells: the loops leave the rows `[4, 4, 0, 0]` and `[16, 0, 0, 0]`, of sum 24, and the
spawn of a 2 makes the sum 26; moved up, where the 8 of the cell `(1, 1)` is stopped
by the 2 above, the sum is 24 at the end of the loops as well. -/
theorem value_conservation_witness :
    ((gridOfRows 4 [[2, 2, 4, 0], [0, 8, 0, 8]]).sumValues = 24 ∧
      rowsOfGrid ((gameOn (gridOfRows 4 [[2, 2, 4, 0], [0, 8, 0, 8]])).moveWith Grid.readCells
        .left drawZero drawZero).beforeSpawn
        = [[4, 4, 0, 0], [16, 0, 0, 0], [0, 0, 0, 0], [0, 0, 0, 0]] ∧
      ((gameOn (gridOfRows 4 [[2, 2, 4, 0], [0, 8, 0, 8]])).moveWith Grid.readCells
        .left drawZero drawZero).gm.grid.sumValues = 26) ∧
    ((gameOn (gridOfRows 4 [[2, 2, 4, 0], [0, 8, 0, 8]])).moveWith Grid.readCells
        .left drawZero drawZero).beforeSpawn.sumValues
      = (gameOn (gridOfRows 4 [[2, 2, 4, 0], [0, 8, 0, 8]])).grid.sumValues ∧
    ((gameOn (gridOfRows 4 [[2, 2, 4, 0], [0, 8, 0, 8]])).moveWith Grid.readCells
        .up drawZero drawZero).beforeSpawn.sumValues
      = (gameOn (gridOfRows 4 [[2, 2, 4, 0], [0, 8, 0, 8]])).grid.sumValues ∧
    (∃ x y v, (v = 2 ∨ v = 4) ∧
      readAt ((gameOn (gridOfRows 4 [[2, 2, 4, 0], [0, 8, 0, 8]])).moveWith Grid.readCells
        .left drawZero drawZero).beforeSpawn.cells x y = none ∧
      readAt ((gameOn (gridOfRows 4 [[2, 2, 4, 0], [0, 8, 0, 8]])).moveWith Grid.readCells
        .left drawZero drawZero).gm.grid.cells x y
        = some (Tile.new ⟨some (x : Int), some (y : Int)⟩ v) ∧
      ((gameOn (gridOfRows 4 [[2, 2, 4, 0], [0, 8, 0, 8]])).moveWith Grid.readCells
        .left drawZero drawZero).gm.grid.sumValues
        = (gameOn (gridOfRows 4 [[2, 2, 4, 0], [0, 8, 0, 8]])).grid.sumValues + v) :=
  ⟨by decide,
   (value_conservation (gameOn (gridOfRows 4 [[2, 2, 4, 0], [0, 8, 0, 8]])) .left
      drawZero drawZero (by decide) _
      (Or.inr ⟨Grid.readCells, Grid.readCells_sound, rfl⟩)).1,
   (value_conservation (gameOn (gridOfRows 4 [[2, 2, 4, 0], [0, 8, 0, 8]])) .up
      drawZero drawZero (by decide) _
      (Or.inr ⟨Grid.readCells, Grid.readCells_sound, rfl⟩)).1,
   (value_conservation (gameOn (gridOfRows 4 [[2, 2, 4, 0], [0, 8, 0, 8]])) .left
      drawZero drawZero (by decide) _
      (Or.inr ⟨Grid.readCells, Grid.readCells_sound, rfl⟩)).2.2 (by decide) (by decide)⟩


end Game2048
